import Mathlib

/-!
The DNS provider of external-dns-webhook-abion: its reconciliation engine.

A shallow embedding of `webhook/dnsprovider/dnsprovider.go` and the properties of its
name translation, target normalisation, zone resolution and record merging.

Conventions of the embedding
* Go strings are Lean `String`s; the functions of Go's `strings` package that the provider
  uses are defined on the character lists.
* A Go `map[string]V` is an association list `List (String × V)` read with `mapGet` (first
  binding of the key) and written with `mapSet` (replace the binding, or add one).  A `range`
  over a map visits the list in order; every theorem quantifies over all lists, hence over
  every iteration order.
* A Go slice is a `List`; the `nil` slice and the empty slice are both `[]`.
* Go compares and measures strings by bytes, the embedding by characters.  On valid UTF-8 the
  two agree for equality, `HasSuffix` and `TrimSuffix`, and for the order of the lengths of two
  names that are both suffixes of one name, which is all that `FindZone` compares.
* The remote store is a state machine `ApiClient σ`; every stage returns the error it ends
  with, the final client state and the remote calls it made, in order.
-/

namespace Abion

/-! ## Go's `strings` package -/

/-- Go `strings.HasSuffix(s, suffix)`. -/
def HasSuffix (s suffix : String) : Bool :=
  suffix.data.isSuffixOf s.data

/-- Go `strings.TrimSuffix(s, suffix)`: `s[:len(s)-len(suffix)]` when `s` ends with `suffix`,
otherwise `s`. -/
def TrimSuffix (s suffix : String) : String :=
  if HasSuffix s suffix then String.mk (s.data.take (s.data.length - suffix.data.length)) else s

/-! ## Go maps as association lists -/

/-- Go `v, ok := m[k]`. -/
def mapGet {V : Type} : List (String × V) → String → Option V
  | [], _ => none
  | (k0, v) :: rest, k => if k0 = k then some v else mapGet rest k

/-- Go `m[k] = v`. -/
def mapSet {V : Type} : List (String × V) → String → V → List (String × V)
  | [], k, v => [(k, v)]
  | (k0, v0) :: rest, k, v => if k0 = k then (k0, v) :: rest else (k0, v0) :: mapSet rest k v

/-! ## Data model -/

/-- Modelled from the spec: `internal.Record` (its declaration is not among the sources):
`{ data: string, ttl: optional integer }`.  The provider builds it as
`internal.Record{Data: target, TTL: int(ttl)}` or `internal.Record{Data: target}`, so `TTL`
is a Go `int` whose zero value stands for an unset ttl. -/
structure Record where
  Data : String
  TTL : Int
  deriving DecidableEq, Repr

/-- Go `map[string]map[string][]internal.Record`: local name, then record type. -/
abbrev RecordsMap := List (String × List (String × List Record))

/-- Modelled from the spec: `internal.Zone` (its declaration is not among the sources):
`{ id: string, records: local-name ↦ record-type ↦ ordered sequence of Record }`; `Records`
stands for `Attributes.Records`. -/
structure Zone where
  ID : String
  Records : RecordsMap
  deriving DecidableEq, Repr

/-- Modelled from the spec: `endpoint.Endpoint` of external-dns, which is not among the
sources: `{ dnsName, recordType, targets: ordered sequence of string, ttl }`, with the field
names the provider reads.  `RecordTTL` is `endpoint.TTL`, an `int64`. -/
structure Endpoint where
  DNSName : String
  Targets : List String
  RecordType : String
  RecordTTL : Int
  deriving DecidableEq, Repr

/-- Modelled from the spec: the method `IsConfigured` of external-dns `endpoint.TTL`, which is
not among the sources: the ttl is a non-negative integer and unset means "inherit default", so
a ttl is configured when it is positive. -/
def Endpoint.ttlIsConfigured (e : Endpoint) : Bool :=
  decide (0 < e.RecordTTL)

/-! ## Name translator and target normaliser -/

/-- The function `getAbionDnsName`: `@` for the zone apex, otherwise the name without `"." + zoneId`. -/
def getAbionDnsName (dnsName zoneId : String) : String :=
  if zoneId = dnsName then "@" else TrimSuffix dnsName ("." ++ zoneId)

/-- The function `getExternalDnsDnsName`: the zone id for `@`, otherwise `dnsName + "." + zoneId`. -/
def getExternalDnsDnsName (dnsName zoneId : String) : String :=
  if dnsName = "@" then zoneId else dnsName ++ "." ++ zoneId

/-- The function `formatTarget`: a CNAME target gets a trailing dot when it has none. -/
def formatTarget (endpoint : Endpoint) (target : String) : String :=
  if endpoint.RecordType = "CNAME" ∧ ¬ HasSuffix target "." = true then target ++ "." else target

/-- The function `createRecord`: the target with the endpoint's ttl when configured, otherwise with the
zero (unset) ttl. -/
def createRecord (createEndpoint : Endpoint) (target : String) : Record :=
  if createEndpoint.ttlIsConfigured then { Data := target, TTL := createEndpoint.RecordTTL }
  else { Data := target, TTL := 0 }

/-! ## The remote zone store -/

/-- Modelled from the spec: the Go `error` values that reach the provider.  The declaration
of `internal.Error` is not among the sources; the tests build it from `Status` and `Message`.
The second constructor is an error wrapped by `fmt.Errorf("... %w", err)`. -/
inductive GoError where
  | api (status : Int) (message : String)
  | wrapped (text : String) (inner : GoError)
  deriving DecidableEq, Repr

/-- Modelled from the spec: `internal.APIResponse[[]internal.Zone]` (its declaration is not
among the sources), reduced to what the provider reads: the zones `Data` of the page and the
total count `Meta.Total`. -/
structure ZonesResponse where
  Data : List Zone
  Total : Int
  deriving DecidableEq, Repr

/-- Modelled from the spec: `internal.ZoneRequest` (its declaration is not among the
sources), as `submitPatchZone` fills it: the zone id and the records to merge-patch. -/
structure ZoneRequest where
  Data : Zone
  deriving DecidableEq, Repr

/-- The interface `internal.ApiClient` as a state machine over the store state `σ`: each call
returns its response and the next state.  `GetZones` takes `page.Offset`; the response body of
`PatchZone` is dropped, as the provider never reads it. -/
structure ApiClient (σ : Type) where
  GetZones : σ → Int → Except GoError ZonesResponse × σ
  GetZone : σ → String → Except GoError Zone × σ
  PatchZone : σ → String → ZoneRequest → Option GoError × σ

/-- A remote call made by the provider. -/
inductive Call where
  | getZones (offset : Int)
  | getZone (name : String)
  | patchZone (name : String) (patch : ZoneRequest)
  deriving DecidableEq, Repr

/-- What a stage leaves behind: the error it returns (`none` for `nil`), the store state and
the remote calls it made, in order. -/
structure Outcome (σ : Type) where
  err : Option GoError
  st : σ
  calls : List Call

/-- The provider `AbionProvider`: its client and the dry-run flag. -/
structure AbionProvider (σ : Type) where
  Client : ApiClient σ
  DryRun : Bool

/-! ## Zone resolver -/

/-- Modelled from the spec: `provider.ZoneIDName` of external-dns, which is not among the
sources: a Go `map[string]string` from zone id to zone name (the tests build it as one). -/
abbrev ZoneIDName := List (String × String)

/-- Modelled from the spec: the method `Add` of `provider.ZoneIDName`, which is not among the
sources: it registers the zone, `z[zoneID] = zoneName`. -/
def ZoneIDName.Add (z : ZoneIDName) (zoneID zoneName : String) : ZoneIDName :=
  mapSet z zoneID zoneName

/-- The match rule of the zone resolver: `dnsName == z` or `dnsName` ends with `"." + z`. -/
def zoneMatches (zoneName hostname : String) : Bool :=
  decide (hostname = zoneName) || HasSuffix hostname ("." ++ zoneName)

/-- Modelled from the spec: the method `FindZone` of external-dns `provider.ZoneIDName`, which
is not among the sources.  A zone matches by `zoneMatches`; of several matching zones the one
with the longest name wins.  As at its call sites (`zoneID, _ := FindZone(ep.DNSName)`,
`if zoneID == ""`), the result is the pair of zone id and zone name, and the empty id when no
zone is found. -/
def ZoneIDName.FindZone (z : ZoneIDName) (hostname : String) : String × String :=
  z.foldl (fun suitable entry =>
    if zoneMatches entry.2 hostname = true then
      if suitable.2 = "" ∨ suitable.2.length < entry.2.length then (entry.1, entry.2)
      else suitable
    else suitable) ("", "")

/-- The page loop of `populateZoneIdMapper`: request the page at `offset`, collect its zone
ids, advance the offset by the page length, stop when the offset reaches `Meta.Total`.  `fuel`
bounds the number of pages; `none` means the bound was hit. -/
def listZoneIds {σ : Type} (p : AbionProvider σ) :
    Nat → Int → List String → σ → Option (Except GoError (List String) × σ × List Call)
  | 0, _, _, _ => none
  | fuel + 1, offset, zoneIds, st =>
    match p.Client.GetZones st offset with
    | (Except.error err, st1) => some (Except.error err, st1, [Call.getZones offset])
    | (Except.ok zonesResponse, st1) =>
      let zoneIds1 := zoneIds ++ zonesResponse.Data.map (fun data => data.ID)
      let offset1 := offset + (zonesResponse.Data.length : Int)
      if zonesResponse.Total ≤ offset1 then some (Except.ok zoneIds1, st1, [Call.getZones offset])
      else
        match listZoneIds p fuel offset1 zoneIds1 st1 with
        | none => none
        | some (r, st2, calls) => some (r, st2, Call.getZones offset :: calls)

/-- The second loop of `populateZoneIdMapper`: `zoneNameIDMapper.Add(zoneId, zoneId)` for each
collected id. -/
def zoneIdMapperOf (zoneIds : List String) : ZoneIDName :=
  zoneIds.foldl (fun zoneNameIDMapper zoneId => zoneNameIDMapper.Add zoneId zoneId) []

/-- The function `populateZoneIdMapper`: the page loop, then the resolver over the collected
ids; a `GetZones` error is returned as it is. -/
def populateZoneIdMapper {σ : Type} (p : AbionProvider σ) (fuel : Nat) (st : σ) :
    Option (Except GoError ZoneIDName × σ × List Call) :=
  match listZoneIds p fuel 0 [] st with
  | none => none
  | some (Except.error err, st1, calls) => some (Except.error err, st1, calls)
  | some (Except.ok zoneIds, st1, calls) => some (Except.ok (zoneIdMapperOf zoneIds), st1, calls)

/-! ## Record merge engine -/

/-- The two statements that store a group in the patch under construction:
`if records[dnsName] == nil { records[dnsName] = make(...) }` and
`records[dnsName][recordType] = data`. -/
def recordsSet (records : RecordsMap) (dnsName recordType : String) (data : List Record) :
    RecordsMap :=
  match mapGet records dnsName with
  | some byType => mapSet records dnsName (mapSet byType recordType data)
  | none => mapSet records dnsName (mapSet [] recordType data)

/-- Read a group of a patch or of a zone snapshot: `m[dnsName][recordType]`. -/
def recordsGet (records : RecordsMap) (dnsName recordType : String) : Option (List Record) :=
  match mapGet records dnsName with
  | some byType => mapGet byType recordType
  | none => none

/-- The records `processCreateActions` and `processUpdateActions` build from the targets of
an endpoint: `createRecord(e, formatTarget(e, target))` for each target, in order. -/
def targetRecords (e : Endpoint) : List Record :=
  e.Targets.map (fun target => createRecord e (formatTarget e target))

/-- The `data` that `processCreateActions` computes for one create endpoint: the records of
its targets, then the existing records of the same name and record type. -/
def createData (zone : Zone) (zoneId : String) (createEndpoint : Endpoint) : List Record :=
  let dnsName := getAbionDnsName createEndpoint.DNSName zoneId
  let data := targetRecords createEndpoint
  match mapGet zone.Records dnsName with
  | some existingRecordsByDNSName =>
    match mapGet existingRecordsByDNSName createEndpoint.RecordType with
    | some existingRecordsOfSameRecordType => data ++ existingRecordsOfSameRecordType
    | none => data
  | none => data

/-- The `records` that `processCreateActions` builds for one zone (the loop over
`createEndpoints`). -/
def createRecords (zoneId : String) (zone : Zone) (createEndpoints : List Endpoint) :
    RecordsMap :=
  createEndpoints.foldl (fun records createEndpoint =>
    recordsSet records (getAbionDnsName createEndpoint.DNSName zoneId)
      createEndpoint.RecordType (createData zone zoneId createEndpoint)) []

/-- The three inner loops of `processUpdateActions` over `updatesByDomainOld`: some
old endpoint of record type `recordType` has a target whose normal form is the data of
`currentRecord` (then `addRecord` becomes false). -/
def oldTargetMatches (updatesByDomainOld : List (String × List Endpoint)) (recordType : String)
    (currentRecord : Record) : Bool :=
  updatesByDomainOld.any (fun entry =>
    entry.2.any (fun updateEndpointOld =>
      decide (updateEndpointOld.RecordType = recordType) &&
        updateEndpointOld.Targets.any (fun oldTarget =>
          decide (currentRecord.Data = formatTarget updateEndpointOld oldTarget))))

/-- The `data` that `processUpdateActions` computes for one update endpoint: when the zone has
the group, the records of the new targets and then the current records that match no old
target; otherwise nothing. -/
def updateData (currentZone : Zone) (zoneId : String)
    (updatesByDomainOld : List (String × List Endpoint)) (updateEndpointNew : Endpoint) :
    List Record :=
  let dnsName := getAbionDnsName updateEndpointNew.DNSName zoneId
  match mapGet currentZone.Records dnsName with
  | some currentSubDomain =>
    match mapGet currentSubDomain updateEndpointNew.RecordType with
    | some currentRecords =>
      targetRecords updateEndpointNew ++
        currentRecords.filter (fun currentRecord =>
          !oldTargetMatches updatesByDomainOld updateEndpointNew.RecordType currentRecord)
    | none => []
  | none => []

/-- The `records` that `processUpdateActions` builds for one zone. -/
def updateRecords (zoneId : String) (currentZone : Zone)
    (updatesByDomainOld : List (String × List Endpoint)) (updateEndpointsNew : List Endpoint) :
    RecordsMap :=
  updateEndpointsNew.foldl (fun records updateEndpointNew =>
    recordsSet records (getAbionDnsName updateEndpointNew.DNSName zoneId)
      updateEndpointNew.RecordType
      (updateData currentZone zoneId updatesByDomainOld updateEndpointNew)) []

/-- The zero value of `internal.Record`. -/
def zeroRecord : Record := { Data := "", TTL := 0 }

/-- Go `slices.DeleteFunc(s, del)` (Go 1.22 and later).  The first component is the returned
slice: the elements that `del` rejects, in order.  The function works in place, so the second
component is what the caller's slice `s`, which keeps its length, holds afterwards: the kept
elements moved to the front and zero values behind them. -/
def slicesDeleteFunc (s : List Record) (del : Record → Bool) : List Record × List Record :=
  let kept := s.filter (fun r => !del r)
  (kept, kept ++ List.replicate (s.length - kept.length) zeroRecord)

/-- One round of the loop over `deleteEndpoints` in `processDeleteActions`.  The state is the
patch under construction and the record map of the fetched zone, whose slices
`slices.DeleteFunc` rewrites in place. -/
def deleteStep (zoneId : String) (state : RecordsMap × RecordsMap) (deleteEndpoint : Endpoint) :
    RecordsMap × RecordsMap :=
  let dnsName := getAbionDnsName deleteEndpoint.DNSName zoneId
  match mapGet state.2 dnsName with
  | some currentSubDomain =>
    match mapGet currentSubDomain deleteEndpoint.RecordType with
    | some existingRecordsForRecordType =>
      let targets := deleteEndpoint.Targets.map (fun target => formatTarget deleteEndpoint target)
      let deleted := slicesDeleteFunc existingRecordsForRecordType
        (fun r => decide (r.Data ∈ targets))
      (recordsSet state.1 dnsName deleteEndpoint.RecordType deleted.1,
        mapSet state.2 dnsName (mapSet currentSubDomain deleteEndpoint.RecordType deleted.2))
    | none => (recordsSet state.1 dnsName deleteEndpoint.RecordType [], state.2)
  | none => (recordsSet state.1 dnsName deleteEndpoint.RecordType [], state.2)

/-- The `records` that `processDeleteActions` builds for one zone. -/
def deleteRecords (zoneId : String) (currentZone : Zone) (deleteEndpoints : List Endpoint) :
    RecordsMap :=
  (deleteEndpoints.foldl (deleteStep zoneId) ([], currentZone.Records)).1

/-! ## The three stages -/

/-- The function `submitPatchZone`: one `PatchZone` call; its error is wrapped. -/
def submitPatchZone {σ : Type} (p : AbionProvider σ) (zoneId : String) (records : RecordsMap)
    (st : σ) : Outcome σ :=
  let patchRequest : ZoneRequest := { Data := { ID := zoneId, Records := records } }
  match p.Client.PatchZone st zoneId patchRequest with
  | (some err, st1) =>
    { err := some (GoError.wrapped "error updating zone " err), st := st1,
      calls := [Call.patchZone zoneId patchRequest] }
  | (none, st1) => { err := none, st := st1, calls := [Call.patchZone zoneId patchRequest] }

/-- The stage `processCreateActions`: per zone, fetch (an error ends the stage), build the records,
and submit them unless `DryRun` (an error ends the stage). -/
def processCreateActions {σ : Type} (p : AbionProvider σ) :
    List (String × List Endpoint) → σ → Outcome σ
  | [], st => { err := none, st := st, calls := [] }
  | (zoneId, createEndpoints) :: rest, st =>
    match p.Client.GetZone st zoneId with
    | (Except.error err, st1) => { err := some err, st := st1, calls := [Call.getZone zoneId] }
    | (Except.ok zone, st1) =>
      let records := createRecords zoneId zone createEndpoints
      if p.DryRun then
        let o := processCreateActions p rest st1
        { o with calls := Call.getZone zoneId :: o.calls }
      else
        let s := submitPatchZone p zoneId records st1
        match s.err with
        | some err => { err := some err, st := s.st, calls := Call.getZone zoneId :: s.calls }
        | none =>
          let o := processCreateActions p rest s.st
          { o with calls := Call.getZone zoneId :: (s.calls ++ o.calls) }

/-- The stage `processUpdateActions`: as the create stage, but a zone whose fetch fails is skipped. -/
def processUpdateActions {σ : Type} (p : AbionProvider σ)
    (updatesByDomainOld : List (String × List Endpoint)) :
    List (String × List Endpoint) → σ → Outcome σ
  | [], st => { err := none, st := st, calls := [] }
  | (zoneId, updateEndpointsNew) :: rest, st =>
    match p.Client.GetZone st zoneId with
    | (Except.error _, st1) =>
      let o := processUpdateActions p updatesByDomainOld rest st1
      { o with calls := Call.getZone zoneId :: o.calls }
    | (Except.ok currentZone, st1) =>
      let records := updateRecords zoneId currentZone updatesByDomainOld updateEndpointsNew
      if p.DryRun then
        let o := processUpdateActions p updatesByDomainOld rest st1
        { o with calls := Call.getZone zoneId :: o.calls }
      else
        let s := submitPatchZone p zoneId records st1
        match s.err with
        | some err => { err := some err, st := s.st, calls := Call.getZone zoneId :: s.calls }
        | none =>
          let o := processUpdateActions p updatesByDomainOld rest s.st
          { o with calls := Call.getZone zoneId :: (s.calls ++ o.calls) }

/-- The stage `processDeleteActions`: as the update stage, with the delete merge. -/
def processDeleteActions {σ : Type} (p : AbionProvider σ) :
    List (String × List Endpoint) → σ → Outcome σ
  | [], st => { err := none, st := st, calls := [] }
  | (zoneId, deleteEndpoints) :: rest, st =>
    match p.Client.GetZone st zoneId with
    | (Except.error _, st1) =>
      let o := processDeleteActions p rest st1
      { o with calls := Call.getZone zoneId :: o.calls }
    | (Except.ok currentZone, st1) =>
      let records := deleteRecords zoneId currentZone deleteEndpoints
      if p.DryRun then
        let o := processDeleteActions p rest st1
        { o with calls := Call.getZone zoneId :: o.calls }
      else
        let s := submitPatchZone p zoneId records st1
        match s.err with
        | some err => { err := some err, st := s.st, calls := Call.getZone zoneId :: s.calls }
        | none =>
          let o := processDeleteActions p rest s.st
          { o with calls := Call.getZone zoneId :: (s.calls ++ o.calls) }

/-! ## Test doubles -/

/-- The `mockClient` of the tests: every call answers with a canned response and the store
has no state. -/
def mockClient (getZones : Except GoError ZonesResponse) (getZone : Except GoError Zone)
    (patchZone : Option GoError) : ApiClient Unit where
  GetZones := fun st _ => (getZones, st)
  GetZone := fun st _ => (getZone, st)
  PatchZone := fun st _ _ => (patchZone, st)

/-- A provider over `mockClient` that answers every `GetZone` with `zone`, lists the zone ids
`zoneIds` on one page, and accepts every patch; `DryRun` is off. -/
def mockProvider (zoneIds : List String) (zone : Zone) : AbionProvider Unit where
  Client := mockClient
    (Except.ok { Data := zoneIds.map (fun id => { ID := id, Records := [] }),
                 Total := (zoneIds.length : Int) })
    (Except.ok zone) none
  DryRun := false

/-- An endpoint without a configured ttl. -/
def endpointOf (dnsName recordType : String) (targets : List String) : Endpoint :=
  { DNSName := dnsName, Targets := targets, RecordType := recordType, RecordTTL := 0 }

/-! ## Partition by zone -/

/-- The function `endpointsByZone`: every endpoint whose name resolves to a zone id other than
`""` is appended to the bucket of that zone id; the others are skipped. -/
def endpointsByZone (zoneNameIDMapper : ZoneIDName) (endpoints : List Endpoint) :
    List (String × List Endpoint) :=
  endpoints.foldl (fun endpointsByZone ep =>
    if (zoneNameIDMapper.FindZone ep.DNSName).1 = "" then endpointsByZone
    else
      mapSet endpointsByZone (zoneNameIDMapper.FindZone ep.DNSName).1
        ((mapGet endpointsByZone (zoneNameIDMapper.FindZone ep.DNSName).1).getD [] ++ [ep])) []

/-! ## The reconciliation pass -/

/-- Modelled from the spec: `plan.Changes` of external-dns, which is not among the sources:
the four endpoint lists of a changeset. -/
structure Changes where
  Create : List Endpoint
  UpdateNew : List Endpoint
  UpdateOld : List Endpoint
  Delete : List Endpoint
  deriving DecidableEq, Repr

/-- The method `ApplyChanges`: build the resolver, partition the four lists by zone, then run
the create, update and delete stages in this order; the first error ends the pass.  The maps
that `endpointsByZone` returns are ranged over by the stages in an order Go does not fix:
`visit` gives the order in which a stage visits the entries of its map.  `fuel` bounds the
pages of `populateZoneIdMapper`; `none` means the bound was hit. -/
def ApplyChanges {σ : Type} (p : AbionProvider σ)
    (visit : List (String × List Endpoint) → List (String × List Endpoint))
    (fuel : Nat) (changes : Changes) (st : σ) : Option (Outcome σ) :=
  match populateZoneIdMapper p fuel st with
  | none => none
  | some (Except.error err, st1, calls) => some { err := some err, st := st1, calls := calls }
  | some (Except.ok zoneNameIDMapper, st1, calls) =>
    let createsByDomain := endpointsByZone zoneNameIDMapper changes.Create
    let updatesByDomainNew := endpointsByZone zoneNameIDMapper changes.UpdateNew
    let updatesByDomainOld := endpointsByZone zoneNameIDMapper changes.UpdateOld
    let deletesByDomain := endpointsByZone zoneNameIDMapper changes.Delete
    let c := processCreateActions p (visit createsByDomain) st1
    match c.err with
    | some err => some { err := some err, st := c.st, calls := calls ++ c.calls }
    | none =>
      let u := processUpdateActions p updatesByDomainOld (visit updatesByDomainNew) c.st
      match u.err with
      | some err => some { err := some err, st := u.st, calls := calls ++ (c.calls ++ u.calls) }
      | none =>
        let d := processDeleteActions p (visit deletesByDomain) u.st
        some { err := d.err, st := d.st, calls := calls ++ (c.calls ++ (u.calls ++ d.calls)) }

/-- Whether a remote call is a `PatchZone` call. -/
def Call.isPatchZone : Call → Bool
  | Call.patchZone _ _ => true
  | _ => false

/-- A provider over `mockClient` whose every `GetZone` fails with the 503 error of the tests;
it lists the zone ids `zoneIds` on one page and `DryRun` is off. -/
def fetchFailingProvider (zoneIds : List String) : AbionProvider Unit where
  Client := mockClient
    (Except.ok { Data := zoneIds.map (fun id => { ID := id, Records := [] }),
                 Total := (zoneIds.length : Int) })
    (Except.error (GoError.api 503 "Service Unavailable")) none
  DryRun := false

/-- A provider over `mockClient` whose every `PatchZone` fails with the 503 error of the
tests; every `GetZone` answers with `zone` and `DryRun` is off. -/
def patchFailingProvider (zoneIds : List String) (zone : Zone) : AbionProvider Unit where
  Client := mockClient
    (Except.ok { Data := zoneIds.map (fun id => { ID := id, Records := [] }),
                 Total := (zoneIds.length : Int) })
    (Except.ok zone) (some (GoError.api 503 "Service Unavailable"))
  DryRun := false

/-- The provider `mockProvider` with `DryRun` on. -/
def dryRunProvider (zoneIds : List String) (zone : Zone) : AbionProvider Unit where
  Client := (mockProvider zoneIds zone).Client
  DryRun := true

/-! ## Pagination -/

/-- The zone ids of a list of pages, in order. -/
def pageZoneIds (pages : List ZonesResponse) : List String :=
  (pages.map (fun page => page.Data.map (fun data => data.ID))).flatten

/-- The offsets 0, n1, n1 + n2, ... at which a list of pages is requested when the first is
requested at `offset`: each offset is the one before plus the length of the page before. -/
def pageOffsets (offset : Int) : List ZonesResponse → List Int
  | [] => []
  | page :: rest => offset :: pageOffsets (offset + (page.Data.length : Int)) rest

/-- What the client answers to the paging loop of the spec (section 6), started at `offset` in
state `st`: "repeatedly requesting until `offset ≥ totalCount`, accumulating identifiers in
order; failure aborts the listing".  `PageRun c offset st pages offsets err st1` says that the
requests at `offsets` were made, in this order, that `pages` are the pages that were
answered, and that the loop ended in state `st1`, with the error of the last request
(`some err`) or because the offset had reached the reported total (`none`). -/
inductive PageRun {σ : Type} (c : ApiClient σ) :
    Int → σ → List ZonesResponse → List Int → Option GoError → σ → Prop where
  | fail (offset : Int) (st st1 : σ) (err : GoError)
      (h : c.GetZones st offset = (Except.error err, st1)) :
      PageRun c offset st [] [offset] (some err) st1
  | last (offset : Int) (st st1 : σ) (page : ZonesResponse)
      (h : c.GetZones st offset = (Except.ok page, st1))
      (hend : page.Total ≤ offset + (page.Data.length : Int)) :
      PageRun c offset st [page] [offset] none st1
  | next (offset : Int) (st st1 st2 : σ) (page : ZonesResponse) (pages : List ZonesResponse)
      (offsets : List Int) (err : Option GoError)
      (h : c.GetZones st offset = (Except.ok page, st1))
      (hmore : ¬ page.Total ≤ offset + (page.Data.length : Int))
      (hrest : PageRun c (offset + (page.Data.length : Int)) st1 pages offsets err st2) :
      PageRun c offset st (page :: pages) (offset :: offsets) err st2

/-- A provider over a stateless client that lists `zoneIds` in pages of `pageSize` zones and
reports their number as the total; every `GetZone` answers with `zone`, every patch is
accepted and `DryRun` is off. -/
def pagedProvider (zoneIds : List String) (pageSize : Nat) (zone : Zone) :
    AbionProvider Unit where
  Client :=
    { GetZones := fun st offset =>
        (Except.ok
          { Data := ((zoneIds.drop offset.toNat).take pageSize).map
              (fun id => { ID := id, Records := [] }),
            Total := (zoneIds.length : Int) }, st)
      GetZone := fun st _ => (Except.ok zone, st)
      PatchZone := fun st _ _ => (none, st) }
  DryRun := false

/-- A provider over a client whose store grows while it is listed: every `GetZones` call
succeeds with a page of one zone and reports a total of two more than the requested offset;
`DryRun` is off. -/
def growingProvider : AbionProvider Unit where
  Client :=
    { GetZones := fun st offset =>
        (Except.ok { Data := [{ ID := "abion.test", Records := [] }], Total := offset + 2 }, st)
      GetZone := fun st _ => (Except.ok { ID := "abion.test", Records := [] }, st)
      PatchZone := fun st _ _ => (none, st) }
  DryRun := false

/-- A provider over a client that lists `zoneIds` in pages of `pageSize` zones and whose
reported total changes between the calls: the first `GetZones` call reports one zone less than
the later ones.  The state counts the `GetZones` calls; `DryRun` is off. -/
def shiftingProvider (zoneIds : List String) (pageSize : Nat) (zone : Zone) :
    AbionProvider Nat where
  Client :=
    { GetZones := fun st offset =>
        (Except.ok
          { Data := ((zoneIds.drop offset.toNat).take pageSize).map
              (fun id => { ID := id, Records := [] }),
            Total := if st = 0 then (zoneIds.length : Int) - 1 else (zoneIds.length : Int) },
          st + 1)
      GetZone := fun st _ => (Except.ok zone, st)
      PatchZone := fun st _ _ => (none, st) }
  DryRun := false

/-! ## Full-state read -/

/-- Modelled from the spec: the constructor `endpoint.NewEndpointWithTTL` of external-dns,
which is not among the sources: "the generic Endpoint shape" of a (name, type, record)
triple, with the given name, record type and ttl and the one target. -/
def NewEndpointWithTTL (dnsName recordType : String) (ttl : Int) (target : String) : Endpoint :=
  { DNSName := dnsName, Targets := [target], RecordType := recordType, RecordTTL := ttl }

/-- The three inner loops of `Records` over the record map of one fetched zone: one endpoint
per record, built by `newEndpointWithTTL` from
`getExternalDnsDnsName(dnsName, zoneData.ID)`, the record type, the ttl and the data of the
record.  The constructor belongs to external-dns and is a parameter. -/
def zoneEndpoints (newEndpointWithTTL : String → String → Int → String → Endpoint)
    (zoneId : String) (zone : Zone) : List Endpoint :=
  (zone.Records.map (fun byName =>
    (byName.2.map (fun byType =>
      byType.2.map (fun recordDetail =>
        newEndpointWithTTL (getExternalDnsDnsName byName.1 zoneId) byType.1
          recordDetail.TTL recordDetail.Data))).flatten)).flatten

/-- The number of records of a zone snapshot. -/
def zoneRecordCount (zone : Zone) : Nat :=
  (zone.Records.map (fun byName =>
    (byName.2.map (fun byType => byType.2.length)).sum)).sum

/-- The loop of `Records` over the zones of one page: fetch each zone (an error ends
`Records`) and append its endpoints to `endpoints`. -/
def recordsOfZones {σ : Type} (p : AbionProvider σ)
    (newEndpointWithTTL : String → String → Int → String → Endpoint) :
    List Zone → List Endpoint → σ → Except GoError (List Endpoint) × σ × List Call
  | [], endpoints, st => (Except.ok endpoints, st, [])
  | zoneData :: rest, endpoints, st =>
    match p.Client.GetZone st zoneData.ID with
    | (Except.error err, st1) => (Except.error err, st1, [Call.getZone zoneData.ID])
    | (Except.ok zone, st1) =>
      match recordsOfZones p newEndpointWithTTL rest
          (endpoints ++ zoneEndpoints newEndpointWithTTL zoneData.ID zone) st1 with
      | (r, st2, calls) => (r, st2, Call.getZone zoneData.ID :: calls)

/-- The page loop of `Records`, from `offset` with the endpoints collected so far.  `fuel`
bounds the number of pages; `none` means the bound was hit. -/
def recordsLoop {σ : Type} (p : AbionProvider σ)
    (newEndpointWithTTL : String → String → Int → String → Endpoint) :
    Nat → Int → List Endpoint → σ → Option (Except GoError (List Endpoint) × σ × List Call)
  | 0, _, _, _ => none
  | fuel + 1, offset, endpoints, st =>
    match p.Client.GetZones st offset with
    | (Except.error err, st1) => some (Except.error err, st1, [Call.getZones offset])
    | (Except.ok zonesResponse, st1) =>
      match recordsOfZones p newEndpointWithTTL zonesResponse.Data endpoints st1 with
      | (Except.error err, st2, calls) =>
        some (Except.error err, st2, Call.getZones offset :: calls)
      | (Except.ok endpoints1, st2, calls) =>
        if zonesResponse.Total ≤ offset + (zonesResponse.Data.length : Int) then
          some (Except.ok endpoints1, st2, Call.getZones offset :: calls)
        else
          match recordsLoop p newEndpointWithTTL fuel
              (offset + (zonesResponse.Data.length : Int)) endpoints1 st2 with
          | none => none
          | some (r, st3, calls2) => some (r, st3, Call.getZones offset :: (calls ++ calls2))

/-- The method `Records`: the page loop from offset 0 with no endpoints. -/
def Records {σ : Type} (p : AbionProvider σ)
    (newEndpointWithTTL : String → String → Int → String → Endpoint) (fuel : Nat) (st : σ) :
    Option (Except GoError (List Endpoint) × σ × List Call) :=
  recordsLoop p newEndpointWithTTL fuel 0 [] st

/-- What the client answers while the zones `zones` of one page are fetched one after the
other, every fetch succeeding: the pairs of listed zone id and fetched snapshot. -/
inductive ZonesFetched {σ : Type} (c : ApiClient σ) :
    List Zone → σ → List (String × Zone) → σ → Prop where
  | nil (st : σ) : ZonesFetched c [] st [] st
  | cons (zoneData : Zone) (rest : List Zone) (st st1 st2 : σ) (zone : Zone)
      (fetched : List (String × Zone))
      (h : c.GetZone st zoneData.ID = (Except.ok zone, st1))
      (hrest : ZonesFetched c rest st1 fetched st2) :
      ZonesFetched c (zoneData :: rest) st ((zoneData.ID, zone) :: fetched) st2

/-- A full-state read in which every `GetZones` and every `GetZone` call succeeds and the
page loop ends: `RecordsRun c offset st fetched st1` gives, page by page, the listed zone ids
with the snapshots fetched for them. -/
inductive RecordsRun {σ : Type} (c : ApiClient σ) :
    Int → σ → List (List (String × Zone)) → σ → Prop where
  | last (offset : Int) (st st1 st2 : σ) (page : ZonesResponse)
      (fetched : List (String × Zone))
      (h : c.GetZones st offset = (Except.ok page, st1))
      (hzones : ZonesFetched c page.Data st1 fetched st2)
      (hend : page.Total ≤ offset + (page.Data.length : Int)) :
      RecordsRun c offset st [fetched] st2
  | next (offset : Int) (st st1 st2 st3 : σ) (page : ZonesResponse)
      (fetched : List (String × Zone)) (rest : List (List (String × Zone)))
      (h : c.GetZones st offset = (Except.ok page, st1))
      (hzones : ZonesFetched c page.Data st1 fetched st2)
      (hmore : ¬ page.Total ≤ offset + (page.Data.length : Int))
      (hrest : RecordsRun c (offset + (page.Data.length : Int)) st2 rest st3) :
      RecordsRun c offset st (fetched :: rest) st3

/-- The endpoints of the fetched zones of a full-state read, in order: for each listed zone
id and its snapshot, the endpoints of `zoneEndpoints`. -/
def fetchedEndpoints (newEndpointWithTTL : String → String → Int → String → Endpoint)
    (fetched : List (String × Zone)) : List Endpoint :=
  (fetched.map (fun f => zoneEndpoints newEndpointWithTTL f.1 f.2)).flatten

/-- A provider over `mockClient` whose every call succeeds but whose zone listing never ends:
every page is empty and reports the total 1. -/
def stuckProvider : AbionProvider Unit where
  Client := mockClient (Except.ok { Data := [], Total := 1 })
    (Except.ok { ID := "abion.test", Records := [] }) none
  DryRun := false

/-! ## A second pass -/

/-- Modelled from the spec: the effect of `patchZone` on the records of a zone of the remote
store, which is not among the sources: "present keys replace, the whole record-type array is
replaced wholesale", so each submitted group replaces the group of the same local name and
record type and every other group stays.  The entries of the patch are applied from the last
to the first, so that of two entries with one key the one that `mapGet` reads decides. -/
def applyPatch (zoneRecords patch : RecordsMap) : RecordsMap :=
  patch.foldr (fun byName records =>
    byName.2.foldr (fun byType records => recordsSet records byName.1 byType.1 byType.2)
      records) zoneRecords

/-- The zone snapshot after a patch was applied to it. -/
def Zone.patched (zone : Zone) (patch : RecordsMap) : Zone :=
  { ID := zone.ID, Records := applyPatch zone.Records patch }

/-- Modelled from the spec: an in-memory remote zone store as a client.  Its state maps the
zone ids to the records of the zones; `GetZones` lists all zones on one page, `GetZone` and
`PatchZone` fail with a 404 error for an unknown zone, and `PatchZone` applies the patch with
`applyPatch`. -/
def storeClient : ApiClient (List (String × RecordsMap)) where
  GetZones := fun st _ =>
    (Except.ok { Data := st.map (fun z => { ID := z.1, Records := z.2 }),
                 Total := (st.length : Int) }, st)
  GetZone := fun st name =>
    match mapGet st name with
    | some records => (Except.ok { ID := name, Records := records }, st)
    | none => (Except.error (GoError.api 404 "Not Found"), st)
  PatchZone := fun st name patch =>
    match mapGet st name with
    | some records => (none, mapSet st name (applyPatch records patch.Data.Records))
    | none => (some (GoError.api 404 "Not Found"), st)

/-- The provider over the in-memory store, with `DryRun` off. -/
def storeProvider : AbionProvider (List (String × RecordsMap)) where
  Client := storeClient
  DryRun := false

/-- The records that the store holds in the group `(zoneId, dnsName, recordType)`; `none` when
the store has no such zone or the zone no such group. -/
def storeGet (st : List (String × RecordsMap)) (zoneId dnsName recordType : String) :
    Option (List Record) :=
  match mapGet st zoneId with
  | some records => recordsGet records dnsName recordType
  | none => none

/-- The last endpoint of a stage's list for the zone `zoneId` that is addressed to the group
`(dnsName, recordType)`: the one whose list the patch of the stage carries for that group. -/
def lastAddressed (zoneId dnsName recordType : String) (endpoints : List Endpoint) :
    Option Endpoint :=
  (endpoints.filter (fun e =>
    decide (getAbionDnsName e.DNSName zoneId = dnsName ∧ e.RecordType = recordType))).getLast?

/-- What the create stage leaves in a group of the store that held `group`, when `c` is the
last create endpoint addressed to the group (`none`: no create endpoint is). -/
def createGroup (c : Option Endpoint) (group : Option (List Record)) : Option (List Record) :=
  match c with
  | none => group
  | some e => some (targetRecords e ++ group.getD [])

/-- What the update stage leaves in a group of the store that held `group`, when `u` is the
last update-new endpoint addressed to the group. -/
def updateGroup (updatesByDomainOld : List (String × List Endpoint)) (u : Option Endpoint)
    (group : Option (List Record)) : Option (List Record) :=
  match u with
  | none => group
  | some e =>
    match group with
    | some current =>
      some (targetRecords e ++
        current.filter (fun r => !oldTargetMatches updatesByDomainOld e.RecordType r))
    | none => some []

/-- What the delete stage leaves in a group of the store that held `group`, when `d` is the
one delete endpoint addressed to the group. -/
def deleteGroup (d : Option Endpoint) (group : Option (List Record)) : Option (List Record) :=
  match d with
  | none => group
  | some e =>
    match group with
    | some current =>
      some (current.filter (fun r =>
        !decide (r.Data ∈ e.Targets.map (fun t => formatTarget e t))))
    | none => some []

/-! ## Patch scope -/

/-- Whether a remote call is a `PatchZone` call for the zone `zoneId`. -/
def Call.isPatchZoneFor (zoneId : String) : Call → Bool
  | Call.patchZone name _ => decide (name = zoneId)
  | _ => false

/-- The scope of the patches among the calls of a stage whose endpoints are `endpoints`:
every `PatchZone` call is for a zone (not the empty id) to which some endpoint of the stage
resolves, the request names that zone, and the (local-name, record-type) keys the request
holds are exactly the groups `(getAbionDnsName(ep.DNSName, zone), ep.RecordType)` of the
endpoints of the stage that resolve to that zone; and no zone is patched more than once. -/
def PatchScope (zoneNameIDMapper : ZoneIDName) (endpoints : List Endpoint) (calls : List Call) :
    Prop :=
  (∀ (zoneId : String) (patch : ZoneRequest), Call.patchZone zoneId patch ∈ calls →
    patch.Data.ID = zoneId ∧ zoneId ≠ "" ∧
    (∃ ep ∈ endpoints, (zoneNameIDMapper.FindZone ep.DNSName).1 = zoneId) ∧
    ∀ dnsName recordType : String,
      (recordsGet patch.Data.Records dnsName recordType).isSome = true ↔
        ∃ ep ∈ endpoints, (zoneNameIDMapper.FindZone ep.DNSName).1 = zoneId ∧
          getAbionDnsName ep.DNSName zoneId = dnsName ∧ ep.RecordType = recordType) ∧
  ∀ zoneId : String, calls.countP (Call.isPatchZoneFor zoneId) ≤ 1

/-- Every zone that a stage fetches is patched: whenever the stage, run over the map entries
`zs` from the state `st`, reaches the entry of `zoneId` (the entries before it were processed
without an error being returned) and the fetch of `zoneId` succeeds there, the calls of the
stage hold a `PatchZone` call for `zoneId`. -/
def PatchesFetchedZones {σ : Type} (p : AbionProvider σ)
    (stage : List (String × List Endpoint) → σ → Outcome σ)
    (zs : List (String × List Endpoint)) (st : σ) : Prop :=
  ∀ (before after : List (String × List Endpoint)) (zoneId : String) (eps : List Endpoint)
    (zone : Zone) (st1 : σ),
    zs = before ++ (zoneId, eps) :: after →
    (stage before st).err = none →
    p.Client.GetZone (stage before st).st zoneId = (Except.ok zone, st1) →
    ∃ patch : ZoneRequest, Call.patchZone zoneId patch ∈ (stage zs st).calls

/-- The changeset without the endpoints that resolve to no zone. -/
def Changes.resolvable (zoneNameIDMapper : ZoneIDName) (changes : Changes) : Changes :=
  { Create := changes.Create.filter (fun ep =>
      decide ((zoneNameIDMapper.FindZone ep.DNSName).1 ≠ "")),
    UpdateNew := changes.UpdateNew.filter (fun ep =>
      decide ((zoneNameIDMapper.FindZone ep.DNSName).1 ≠ "")),
    UpdateOld := changes.UpdateOld.filter (fun ep =>
      decide ((zoneNameIDMapper.FindZone ep.DNSName).1 ≠ "")),
    Delete := changes.Delete.filter (fun ep =>
      decide ((zoneNameIDMapper.FindZone ep.DNSName).1 ≠ "")) }

/-! ## Strings -/

theorem HasSuffix_iff (s suffix : String) :
    HasSuffix s suffix = true ↔ suffix.data <:+ s.data := by
  unfold HasSuffix
  exact List.isSuffixOf_iff_suffix

theorem HasSuffix_append (l suffix : String) : HasSuffix (l ++ suffix) suffix = true := by
  rw [HasSuffix_iff, String.data_append]
  exact List.suffix_append _ _

theorem TrimSuffix_append (l suffix : String) : TrimSuffix (l ++ suffix) suffix = l := by
  unfold TrimSuffix
  rw [if_pos (HasSuffix_append l suffix)]
  simp [String.data_append]

theorem ne_append_dot (l z : String) : z ≠ l ++ ("." ++ z) := by
  intro h
  have h2 := congrArg String.length h
  simp [String.length_append] at h2
  have : ".".length = 1 := rfl
  omega

theorem eq_append_of_HasSuffix (s suffix : String) (h : HasSuffix s suffix = true) :
    ∃ l : String, s = l ++ suffix := by
  rw [HasSuffix_iff] at h
  obtain ⟨t, ht⟩ := h
  refine ⟨String.mk t, ?_⟩
  apply String.ext
  simp [String.data_append, ht]

/-! ## Name translator -/

theorem getAbionDnsName_self (z : String) : getAbionDnsName z z = "@" := by
  simp [getAbionDnsName]

theorem getAbionDnsName_label (label z : String) :
    getAbionDnsName (label ++ ("." ++ z)) z = label := by
  unfold getAbionDnsName
  rw [if_neg (ne_append_dot label z), TrimSuffix_append]

/-- C8: `getAbionDnsName(z, z)` is `"@"` for every zone id `z`, and
`getAbionDnsName(label + "." + z, z)` is `label` for every label and zone id; for instance
`("www.abion.test", "abion.test")` gives `"www"`. -/
theorem getAbionDnsName_apex_and_label (z label : String) :
    getAbionDnsName z z = "@" ∧
    getAbionDnsName (label ++ "." ++ z) z = label ∧
    getAbionDnsName "www.abion.test" "abion.test" = "www" := by
  refine ⟨getAbionDnsName_self z, ?_, by decide⟩
  rw [String.append_assoc]
  exact getAbionDnsName_label label z

/-- C9: `getExternalDnsDnsName("@", z)` is `z`, `getExternalDnsDnsName(l, z)` is
`l + "." + z` for every other local name `l`, and `getAbionDnsName` inverts it on every local
name: `getAbionDnsName(getExternalDnsDnsName(l, z), z) = l`. -/
theorem getAbionDnsName_getExternalDnsDnsName (l z : String) :
    getExternalDnsDnsName "@" z = z ∧
    (l ≠ "@" → getExternalDnsDnsName l z = l ++ "." ++ z) ∧
    getAbionDnsName (getExternalDnsDnsName l z) z = l := by
  refine ⟨by simp [getExternalDnsDnsName], fun h => by simp [getExternalDnsDnsName, h], ?_⟩
  unfold getExternalDnsDnsName
  by_cases h : l = "@"
  · rw [if_pos h, h]
    exact getAbionDnsName_self z
  · rw [if_neg h, String.append_assoc]
    exact getAbionDnsName_label l z

theorem getAbionDnsName_getExternalDnsDnsName_witness :
    "www" ≠ "@" ∧ getExternalDnsDnsName "www" "abion.test" = "www" ++ "." ++ "abion.test" :=
  ⟨by decide,
    (getAbionDnsName_getExternalDnsDnsName "www" "abion.test").2.1 (by decide)⟩

/-- C7, as stated, fails: `"@.abion.test"` ends with `"." + "abion.test"`, yet translating it
to the local name and back gives `"abion.test"`. -/
theorem name_round_trip_fails_for_at_label :
    HasSuffix "@.abion.test" ("." ++ "abion.test") = true ∧
    getExternalDnsDnsName (getAbionDnsName "@.abion.test" "abion.test") "abion.test"
      = "abion.test" ∧
    "abion.test" ≠ "@.abion.test" := by
  decide

/-- C7, amended: for every zone id `z` and every `x` that is `z` itself, or ends with
`"." + z` and is not `"@." + z`, `getExternalDnsDnsName(getAbionDnsName(x, z), z) = x`. -/
theorem name_round_trip (z x : String)
    (h : x = z ∨ (HasSuffix x ("." ++ z) = true ∧ x ≠ "@" ++ "." ++ z)) :
    getExternalDnsDnsName (getAbionDnsName x z) z = x := by
  rcases h with h | ⟨hs, hne⟩
  · subst h
    rw [getAbionDnsName_self]
    simp [getExternalDnsDnsName]
  · obtain ⟨l, hl⟩ := eq_append_of_HasSuffix x ("." ++ z) hs
    subst hl
    rw [getAbionDnsName_label]
    have hl : l ≠ "@" := by
      intro h
      apply hne
      rw [h, String.append_assoc]
    unfold getExternalDnsDnsName
    rw [if_neg hl, String.append_assoc]

theorem name_round_trip_witness :
    ("www.abion.test" = "abion.test" ∨
      (HasSuffix "www.abion.test" ("." ++ "abion.test") = true ∧
        "www.abion.test" ≠ "@" ++ "." ++ "abion.test")) ∧
    getExternalDnsDnsName (getAbionDnsName "www.abion.test" "abion.test") "abion.test"
      = "www.abion.test" :=
  ⟨Or.inr (by decide),
    name_round_trip "abion.test" "www.abion.test" (Or.inr (by decide))⟩

/-! ## Maps -/

theorem mapGet_mapSet_same {V : Type} (m : List (String × V)) (k : String) (v : V) :
    mapGet (mapSet m k v) k = some v := by
  induction m with
  | nil => simp [mapSet, mapGet]
  | cons hd tl ih =>
    obtain ⟨k0, v0⟩ := hd
    by_cases h : k0 = k
    · simp [mapSet, mapGet, h]
    · simp [mapSet, mapGet, h, ih]

theorem mapGet_mapSet_ne {V : Type} (m : List (String × V)) (k k1 : String) (v : V)
    (h : k ≠ k1) : mapGet (mapSet m k v) k1 = mapGet m k1 := by
  induction m with
  | nil => simp [mapSet, mapGet, h]
  | cons hd tl ih =>
    obtain ⟨k0, v0⟩ := hd
    by_cases h0 : k0 = k
    · subst h0
      simp [mapSet, mapGet, h]
    · by_cases h1 : k0 = k1
      · subst h1
        simp [mapSet, mapGet, h0]
      · simp [mapSet, mapGet, h0, h1, ih]

theorem recordsGet_recordsSet_same (records : RecordsMap) (n t : String) (data : List Record) :
    recordsGet (recordsSet records n t data) n t = some data := by
  unfold recordsSet recordsGet
  cases h : mapGet records n <;> simp [mapGet_mapSet_same]

theorem recordsGet_recordsSet_ne (records : RecordsMap) (n t n1 t1 : String)
    (data : List Record) (h : ¬ (n = n1 ∧ t = t1)) :
    recordsGet (recordsSet records n t data) n1 t1 = recordsGet records n1 t1 := by
  unfold recordsSet recordsGet
  by_cases hn : n = n1
  · subst hn
    have ht : t ≠ t1 := fun ht => h ⟨rfl, ht⟩
    cases hg : mapGet records n <;>
      simp [mapGet_mapSet_same, mapGet_mapSet_ne _ _ _ _ ht, mapGet, ht]
  · cases hg : mapGet records n <;> simp [mapGet_mapSet_ne _ _ _ _ hn]

/-! ## Building a patch: the last endpoint of a group decides the group -/

theorem foldl_recordsSet_other (key1 key2 : Endpoint → String) (val : Endpoint → List Record)
    (n t : String) (post : List Endpoint) :
    ∀ records : RecordsMap, (∀ e1 ∈ post, ¬ (key1 e1 = n ∧ key2 e1 = t)) →
      recordsGet (post.foldl (fun r e => recordsSet r (key1 e) (key2 e) (val e)) records) n t
        = recordsGet records n t := by
  induction post with
  | nil => intro records _; rfl
  | cons hd tl ih =>
    intro records h
    rw [List.foldl_cons, ih _ (fun e1 he1 => h e1 (List.mem_cons_of_mem _ he1))]
    exact recordsGet_recordsSet_ne _ _ _ _ _ _ (h hd (List.mem_cons_self _ _))

theorem foldl_recordsSet_last (key1 key2 : Endpoint → String) (val : Endpoint → List Record)
    (pre post : List Endpoint) (e : Endpoint) (records : RecordsMap)
    (h : ∀ e1 ∈ post, ¬ (key1 e1 = key1 e ∧ key2 e1 = key2 e)) :
    recordsGet ((pre ++ e :: post).foldl
        (fun r e => recordsSet r (key1 e) (key2 e) (val e)) records) (key1 e) (key2 e)
      = some (val e) := by
  rw [List.foldl_append, List.foldl_cons, foldl_recordsSet_other key1 key2 val _ _ post _ h]
  exact recordsGet_recordsSet_same _ _ _ _

theorem createData_eq (zone : Zone) (zoneId : String) (e : Endpoint) :
    createData zone zoneId e = targetRecords e ++
      (recordsGet zone.Records (getAbionDnsName e.DNSName zoneId) e.RecordType).getD [] := by
  cases h1 : mapGet zone.Records (getAbionDnsName e.DNSName zoneId) with
  | none => simp [createData, recordsGet, h1]
  | some byType =>
    cases h2 : mapGet byType e.RecordType <;> simp [createData, recordsGet, h1, h2]

theorem targetRecords_eq (e : Endpoint) :
    targetRecords e = e.Targets.map (fun target =>
      ({ Data := formatTarget e target,
         TTL := if e.ttlIsConfigured = true then e.RecordTTL else 0 } : Record)) := by
  unfold targetRecords
  apply List.map_congr_left
  intro target _
  unfold createRecord
  by_cases h : e.ttlIsConfigured = true <;> simp [h]

/-! ## The stages, zone by zone -/

theorem processCreateActions_append {σ : Type} (p : AbionProvider σ)
    (before rest : List (String × List Endpoint)) :
    ∀ st : σ, (processCreateActions p before st).err = none →
      processCreateActions p (before ++ rest) st =
        { err := (processCreateActions p rest (processCreateActions p before st).st).err,
          st := (processCreateActions p rest (processCreateActions p before st).st).st,
          calls := (processCreateActions p before st).calls ++
            (processCreateActions p rest (processCreateActions p before st).st).calls } := by
  induction before with
  | nil => intro st _; simp [processCreateActions]
  | cons hd tl ih =>
    obtain ⟨zoneId, eps⟩ := hd
    intro st h
    rw [List.cons_append]
    simp only [processCreateActions] at h ⊢
    split at h
    · simp at h
    · rename_i zone st1 hz
      by_cases hd : p.DryRun = true
      · simp only [hd, if_true] at h ⊢
        rw [ih _ h]
        simp
      · simp only [hd] at h ⊢
        simp only [Bool.false_eq_true, if_false] at h ⊢
        split at h
        · simp at h
        · rename_i hs
          simp only [hs]
          rw [ih _ h]
          simp

theorem submitPatchZone_calls {σ : Type} (p : AbionProvider σ) (zoneId : String)
    (records : RecordsMap) (st : σ) :
    (submitPatchZone p zoneId records st).calls =
      [Call.patchZone zoneId { Data := { ID := zoneId, Records := records } }] := by
  simp only [submitPatchZone]
  split <;> rfl

theorem processCreateActions_head {σ : Type} (p : AbionProvider σ) (zoneId : String)
    (eps : List Endpoint) (after : List (String × List Endpoint)) (st st1 : σ) (zone : Zone)
    (hdry : p.DryRun = false) (hfetch : p.Client.GetZone st zoneId = (Except.ok zone, st1)) :
    ∃ rest, (processCreateActions p ((zoneId, eps) :: after) st).calls =
      Call.getZone zoneId ::
        Call.patchZone zoneId { Data := { ID := zoneId, Records := createRecords zoneId zone eps } }
          :: rest := by
  simp only [processCreateActions, hfetch, hdry]
  simp only [Bool.false_eq_true, if_false]
  split
  · exact ⟨[], by simp [submitPatchZone_calls]⟩
  · exact ⟨_, by simp only [submitPatchZone_calls]; rfl⟩

/-- C1: create merge.  Whenever the create stage reaches a zone (the zones before it were
processed without error), its fetch succeeds and dry run is off, the stage fetches the zone and
then submits one patch for it; and for a create endpoint `e` that is the only one addressed to
its (local name, record type) group, the group submitted under
`(getAbionDnsName(e.DNSName, zoneId), e.RecordType)` is one record per target of `e`, in target
order (`formatTarget` data, the endpoint's ttl when configured, otherwise unset), followed by
the records the fetched zone already holds in that group, in their order (none when the zone
has no such group). -/
theorem create_merge {σ : Type} (p : AbionProvider σ)
    (before after : List (String × List Endpoint)) (zoneId : String)
    (pre post : List Endpoint) (e : Endpoint) (st st1 : σ) (zone : Zone)
    (hdry : p.DryRun = false)
    (hbefore : (processCreateActions p before st).err = none)
    (hfetch : p.Client.GetZone (processCreateActions p before st).st zoneId
      = (Except.ok zone, st1))
    (honly : ∀ e1 ∈ pre ++ post,
      ¬ (getAbionDnsName e1.DNSName zoneId = getAbionDnsName e.DNSName zoneId ∧
          e1.RecordType = e.RecordType)) :
    (∃ rest,
      (processCreateActions p (before ++ (zoneId, pre ++ e :: post) :: after) st).calls =
        (processCreateActions p before st).calls ++
          Call.getZone zoneId ::
          Call.patchZone zoneId
            { Data := { ID := zoneId,
                        Records := createRecords zoneId zone (pre ++ e :: post) } } :: rest) ∧
    recordsGet (createRecords zoneId zone (pre ++ e :: post))
        (getAbionDnsName e.DNSName zoneId) e.RecordType =
      some (e.Targets.map (fun target =>
          ({ Data := formatTarget e target,
             TTL := if e.ttlIsConfigured = true then e.RecordTTL else 0 } : Record)) ++
        (recordsGet zone.Records (getAbionDnsName e.DNSName zoneId) e.RecordType).getD []) := by
  constructor
  · obtain ⟨rest, hrest⟩ :=
      processCreateActions_head p zoneId (pre ++ e :: post) after _ st1 zone hdry hfetch
    refine ⟨rest, ?_⟩
    rw [processCreateActions_append p before _ st hbefore]
    simp only [hrest]
  · unfold createRecords
    rw [foldl_recordsSet_last (fun e => getAbionDnsName e.DNSName zoneId)
      (fun e => e.RecordType) (createData zone zoneId) pre post e []
      (fun e1 he1 => honly e1 (List.mem_append_right _ he1))]
    rw [createData_eq, targetRecords_eq]

theorem create_merge_witness :
    (processCreateActions
        (mockProvider [] { ID := "abion.test", Records := [("@", [("TXT", [⟨"v1", 3600⟩])])] })
        [("abion.test", [endpointOf "abion.test" "TXT" ["v2"]])] ()).calls =
      [Call.getZone "abion.test",
       Call.patchZone "abion.test"
        { Data := { ID := "abion.test",
                    Records := [("@", [("TXT", [⟨"v2", 0⟩, ⟨"v1", 3600⟩])])] } }] ∧
    recordsGet
        (createRecords "abion.test"
          { ID := "abion.test", Records := [("@", [("TXT", [⟨"v1", 3600⟩])])] }
          [endpointOf "abion.test" "TXT" ["v2"]]) "@" "TXT" =
      some [⟨"v2", 0⟩, ⟨"v1", 3600⟩] :=
  ⟨by decide,
    (create_merge
      (mockProvider [] { ID := "abion.test", Records := [("@", [("TXT", [⟨"v1", 3600⟩])])] })
      [] [] "abion.test" [] [] (endpointOf "abion.test" "TXT" ["v2"]) () ()
      { ID := "abion.test", Records := [("@", [("TXT", [⟨"v1", 3600⟩])])] }
      rfl rfl rfl (by simp)).2⟩

/-! ## Update merge -/

theorem processUpdateActions_append {σ : Type} (p : AbionProvider σ)
    (olds before rest : List (String × List Endpoint)) :
    ∀ st : σ, (processUpdateActions p olds before st).err = none →
      processUpdateActions p olds (before ++ rest) st =
        { err := (processUpdateActions p olds rest (processUpdateActions p olds before st).st).err,
          st := (processUpdateActions p olds rest (processUpdateActions p olds before st).st).st,
          calls := (processUpdateActions p olds before st).calls ++
            (processUpdateActions p olds rest (processUpdateActions p olds before st).st).calls } := by
  induction before with
  | nil => intro st _; simp [processUpdateActions]
  | cons hd tl ih =>
    obtain ⟨zoneId, eps⟩ := hd
    intro st h
    rw [List.cons_append]
    simp only [processUpdateActions] at h ⊢
    split at h
    · rw [ih _ h]
      simp
    · by_cases hd : p.DryRun = true
      · simp only [hd, if_true] at h ⊢
        rw [ih _ h]
        simp
      · simp only [hd] at h ⊢
        simp only [Bool.false_eq_true, if_false] at h ⊢
        split at h
        · simp at h
        · rename_i hs
          simp only [hs]
          rw [ih _ h]
          simp

theorem processUpdateActions_head {σ : Type} (p : AbionProvider σ)
    (olds : List (String × List Endpoint)) (zoneId : String)
    (eps : List Endpoint) (after : List (String × List Endpoint)) (st st1 : σ) (zone : Zone)
    (hdry : p.DryRun = false) (hfetch : p.Client.GetZone st zoneId = (Except.ok zone, st1)) :
    ∃ rest, (processUpdateActions p olds ((zoneId, eps) :: after) st).calls =
      Call.getZone zoneId ::
        Call.patchZone zoneId
          { Data := { ID := zoneId, Records := updateRecords zoneId zone olds eps } } :: rest := by
  simp only [processUpdateActions, hfetch, hdry]
  simp only [Bool.false_eq_true, if_false]
  split
  · exact ⟨[], by simp [submitPatchZone_calls]⟩
  · exact ⟨_, by simp only [submitPatchZone_calls]; rfl⟩

theorem oldTargetMatches_iff (olds : List (String × List Endpoint)) (recordType : String)
    (r : Record) :
    oldTargetMatches olds recordType r = true ↔
      ∃ entry ∈ olds, ∃ old ∈ entry.2, old.RecordType = recordType ∧
        ∃ oldTarget ∈ old.Targets, r.Data = formatTarget old oldTarget := by
  simp [oldTargetMatches, List.any_eq_true]

theorem not_oldTargetMatches_eq (olds : List (String × List Endpoint)) (recordType : String)
    (r : Record) :
    (!oldTargetMatches olds recordType r) =
      decide (∀ entry ∈ olds, ∀ old ∈ entry.2, old.RecordType = recordType →
        ∀ oldTarget ∈ old.Targets, r.Data ≠ formatTarget old oldTarget) := by
  rw [Bool.eq_iff_iff]
  simp only [Bool.not_eq_true', decide_eq_true_eq, ← Bool.not_eq_true, oldTargetMatches_iff]
  constructor
  · intro h entry he old ho ht target htg heq
    exact h ⟨entry, he, old, ho, ht, target, htg, heq⟩
  · rintro h ⟨entry, he, old, ho, ht, target, htg, heq⟩
    exact h entry he old ho ht target htg heq

theorem updateData_of_group (zone : Zone) (zoneId : String)
    (olds : List (String × List Endpoint)) (e : Endpoint) (current : List Record)
    (h : recordsGet zone.Records (getAbionDnsName e.DNSName zoneId) e.RecordType
      = some current) :
    updateData zone zoneId olds e =
      targetRecords e ++ current.filter (fun r => !oldTargetMatches olds e.RecordType r) := by
  unfold recordsGet at h
  cases h1 : mapGet zone.Records (getAbionDnsName e.DNSName zoneId) with
  | none => simp [h1] at h
  | some byType =>
    simp only [h1] at h
    simp [updateData, h1, h]

theorem updateData_of_no_group (zone : Zone) (zoneId : String)
    (olds : List (String × List Endpoint)) (e : Endpoint)
    (h : recordsGet zone.Records (getAbionDnsName e.DNSName zoneId) e.RecordType = none) :
    updateData zone zoneId olds e = [] := by
  unfold recordsGet at h
  cases h1 : mapGet zone.Records (getAbionDnsName e.DNSName zoneId) with
  | none => simp [updateData, h1]
  | some byType =>
    simp only [h1] at h
    simp [updateData, h1, h]

/-- C2: update merge.  Whenever the update stage reaches a zone, its fetch succeeds and dry
run is off, the stage fetches the zone and then submits one patch for it; and for an
update-new endpoint `e` that is the only one addressed to its group, with the group present in
the fetched zone, the submitted group is one record per target of `e` (normalised by
`formatTarget`, in target order) followed by exactly those current records of the group whose
data equals no normalised target of any update-old endpoint of the same record type in the
whole of `updatesByDomainOld`, in their original order. -/
theorem update_merge {σ : Type} (p : AbionProvider σ)
    (updatesByDomainOld before after : List (String × List Endpoint)) (zoneId : String)
    (pre post : List Endpoint) (e : Endpoint) (st st1 : σ) (currentZone : Zone)
    (current : List Record)
    (hdry : p.DryRun = false)
    (hbefore : (processUpdateActions p updatesByDomainOld before st).err = none)
    (hfetch : p.Client.GetZone (processUpdateActions p updatesByDomainOld before st).st zoneId
      = (Except.ok currentZone, st1))
    (honly : ∀ e1 ∈ pre ++ post,
      ¬ (getAbionDnsName e1.DNSName zoneId = getAbionDnsName e.DNSName zoneId ∧
          e1.RecordType = e.RecordType))
    (hgroup : recordsGet currentZone.Records (getAbionDnsName e.DNSName zoneId) e.RecordType
      = some current) :
    (∃ rest,
      (processUpdateActions p updatesByDomainOld
          (before ++ (zoneId, pre ++ e :: post) :: after) st).calls =
        (processUpdateActions p updatesByDomainOld before st).calls ++
          Call.getZone zoneId ::
          Call.patchZone zoneId
            { Data := { ID := zoneId,
                        Records := updateRecords zoneId currentZone updatesByDomainOld
                          (pre ++ e :: post) } } :: rest) ∧
    recordsGet (updateRecords zoneId currentZone updatesByDomainOld (pre ++ e :: post))
        (getAbionDnsName e.DNSName zoneId) e.RecordType =
      some (e.Targets.map (fun target =>
          ({ Data := formatTarget e target,
             TTL := if e.ttlIsConfigured = true then e.RecordTTL else 0 } : Record)) ++
        current.filter (fun r =>
          decide (∀ entry ∈ updatesByDomainOld, ∀ old ∈ entry.2,
            old.RecordType = e.RecordType →
              ∀ oldTarget ∈ old.Targets, r.Data ≠ formatTarget old oldTarget))) := by
  constructor
  · obtain ⟨rest, hrest⟩ := processUpdateActions_head p updatesByDomainOld zoneId
      (pre ++ e :: post) after _ st1 currentZone hdry hfetch
    refine ⟨rest, ?_⟩
    rw [processUpdateActions_append p updatesByDomainOld before _ st hbefore]
    simp only [hrest]
  · unfold updateRecords
    rw [foldl_recordsSet_last (fun e => getAbionDnsName e.DNSName zoneId)
      (fun e => e.RecordType) (updateData currentZone zoneId updatesByDomainOld) pre post e []
      (fun e1 he1 => honly e1 (List.mem_append_right _ he1))]
    rw [updateData_of_group _ _ _ _ _ hgroup, targetRecords_eq]
    simp only [not_oldTargetMatches_eq]

theorem update_merge_witness :
    (processUpdateActions
        (mockProvider []
          { ID := "abion.test",
            Records := [("@", [("A", [⟨"172.16.0.0", 3600⟩])]),
                        ("www", [("A", [⟨"172.16.0.1", 3600⟩])])] })
        [("abion.test", [endpointOf "www.abion.test" "A" ["172.16.0.1"]])]
        [("abion.test", [endpointOf "www.abion.test" "A" ["172.16.0.2"]])] ()).calls =
      [Call.getZone "abion.test",
       Call.patchZone "abion.test"
        { Data := { ID := "abion.test",
                    Records := [("www", [("A", [⟨"172.16.0.2", 0⟩])])] } }] ∧
    recordsGet
        (updateRecords "abion.test"
          { ID := "abion.test",
            Records := [("@", [("A", [⟨"172.16.0.0", 3600⟩])]),
                        ("www", [("A", [⟨"172.16.0.1", 3600⟩])])] }
          [("abion.test", [endpointOf "www.abion.test" "A" ["172.16.0.1"]])]
          [endpointOf "www.abion.test" "A" ["172.16.0.2"]]) "www" "A" =
      some [⟨"172.16.0.2", 0⟩] :=
  ⟨by decide,
    (update_merge
      (mockProvider []
        { ID := "abion.test",
          Records := [("@", [("A", [⟨"172.16.0.0", 3600⟩])]),
                      ("www", [("A", [⟨"172.16.0.1", 3600⟩])])] })
      [("abion.test", [endpointOf "www.abion.test" "A" ["172.16.0.1"]])]
      [] [] "abion.test" [] [] (endpointOf "www.abion.test" "A" ["172.16.0.2"]) () ()
      { ID := "abion.test",
        Records := [("@", [("A", [⟨"172.16.0.0", 3600⟩])]),
                    ("www", [("A", [⟨"172.16.0.1", 3600⟩])])] }
      [⟨"172.16.0.1", 3600⟩]
      rfl rfl rfl (by simp) (by decide)).2⟩

/-- C4, the code at the failing inputs.  (1) The fetched zone holds no records at `"www"`:
for the update-new endpoint `www.abion.test A [172.16.0.2]` the stage submits the empty group
under `("www", "A")`, which does not start with the record of the endpoint's target: the
records of the new targets are built inside the tests for the existing group.  (2) Two
update-new endpoints address the group `("www", "A")`: the submitted group starts with the
record of the second endpoint, not with that of the first, whose list was replaced. -/
theorem update_group_need_not_start_with_new_records :
    ((processUpdateActions
        (mockProvider []
          { ID := "abion.test", Records := [("@", [("A", [⟨"172.16.0.0", 3600⟩])])] })
        []
        [("abion.test", [endpointOf "www.abion.test" "A" ["172.16.0.2"]])] ()).calls =
      [Call.getZone "abion.test",
       Call.patchZone "abion.test"
        { Data := { ID := "abion.test", Records := [("www", [("A", [])])] } }] ∧
     targetRecords (endpointOf "www.abion.test" "A" ["172.16.0.2"]) = [⟨"172.16.0.2", 0⟩] ∧
     ¬ ∃ kept : List Record, ([] : List Record) = [⟨"172.16.0.2", 0⟩] ++ kept) ∧
    ((processUpdateActions
        (mockProvider []
          { ID := "abion.test", Records := [("www", [("A", [⟨"172.16.0.1", 3600⟩])])] })
        []
        [("abion.test", [endpointOf "www.abion.test" "A" ["172.16.0.2"],
                         endpointOf "www.abion.test" "A" ["172.16.0.3"]])] ()).calls =
      [Call.getZone "abion.test",
       Call.patchZone "abion.test"
        { Data := { ID := "abion.test",
                    Records := [("www", [("A", [⟨"172.16.0.3", 0⟩, ⟨"172.16.0.1", 3600⟩])])] } }] ∧
     ¬ ∃ kept : List Record,
        ([⟨"172.16.0.3", 0⟩, ⟨"172.16.0.1", 3600⟩] : List Record) =
          [⟨"172.16.0.2", 0⟩] ++ kept) := by
  refine ⟨⟨by decide, by decide, ?_⟩, by decide, ?_⟩
  · rintro ⟨kept, h⟩
    simp at h
  · rintro ⟨kept, h⟩
    simp at h

/-- The update group of an endpoint `e` that is the only update-new endpoint addressed to its
group, in a zone the update stage reaches and fetches with dry run off: the submitted group
starts with one record per target of `e` (normalised) when the fetched zone holds that group;
when the zone holds no records at that local name or none of that record type, the submitted
group is empty. -/
theorem update_group_starts_with_new_records {σ : Type} (p : AbionProvider σ)
    (updatesByDomainOld before after : List (String × List Endpoint)) (zoneId : String)
    (pre post : List Endpoint) (e : Endpoint) (st st1 : σ) (currentZone : Zone)
    (hdry : p.DryRun = false)
    (hbefore : (processUpdateActions p updatesByDomainOld before st).err = none)
    (hfetch : p.Client.GetZone (processUpdateActions p updatesByDomainOld before st).st zoneId
      = (Except.ok currentZone, st1))
    (honly : ∀ e1 ∈ pre ++ post,
      ¬ (getAbionDnsName e1.DNSName zoneId = getAbionDnsName e.DNSName zoneId ∧
          e1.RecordType = e.RecordType)) :
    (∃ rest,
      (processUpdateActions p updatesByDomainOld
          (before ++ (zoneId, pre ++ e :: post) :: after) st).calls =
        (processUpdateActions p updatesByDomainOld before st).calls ++
          Call.getZone zoneId ::
          Call.patchZone zoneId
            { Data := { ID := zoneId,
                        Records := updateRecords zoneId currentZone updatesByDomainOld
                          (pre ++ e :: post) } } :: rest) ∧
    ∃ kept : List Record,
      recordsGet (updateRecords zoneId currentZone updatesByDomainOld (pre ++ e :: post))
          (getAbionDnsName e.DNSName zoneId) e.RecordType =
        some (if (recordsGet currentZone.Records
                    (getAbionDnsName e.DNSName zoneId) e.RecordType).isSome = true
              then e.Targets.map (fun target =>
                    ({ Data := formatTarget e target,
                       TTL := if e.ttlIsConfigured = true then e.RecordTTL else 0 } : Record)) ++ kept
              else []) := by
  constructor
  · obtain ⟨rest, hrest⟩ := processUpdateActions_head p updatesByDomainOld zoneId
      (pre ++ e :: post) after _ st1 currentZone hdry hfetch
    refine ⟨rest, ?_⟩
    rw [processUpdateActions_append p updatesByDomainOld before _ st hbefore]
    simp only [hrest]
  · unfold updateRecords
    rw [foldl_recordsSet_last (fun e => getAbionDnsName e.DNSName zoneId)
      (fun e => e.RecordType) (updateData currentZone zoneId updatesByDomainOld) pre post e []
      (fun e1 he1 => honly e1 (List.mem_append_right _ he1))]
    cases hg : recordsGet currentZone.Records (getAbionDnsName e.DNSName zoneId) e.RecordType with
    | none =>
      refine ⟨[], ?_⟩
      rw [updateData_of_no_group _ _ _ _ hg]
      simp
    | some current =>
      refine ⟨current.filter (fun r => !oldTargetMatches updatesByDomainOld e.RecordType r), ?_⟩
      rw [updateData_of_group _ _ _ _ _ hg, targetRecords_eq]
      simp

theorem update_group_starts_with_new_records_witness :
    ∃ kept : List Record,
      recordsGet
          (updateRecords "abion.test"
            { ID := "abion.test", Records := [("www", [("A", [⟨"172.16.0.1", 3600⟩])])] }
            [] [endpointOf "www.abion.test" "A" ["172.16.0.2"]]) "www" "A" =
        some ([⟨"172.16.0.2", 0⟩] ++ kept) :=
  (update_group_starts_with_new_records
    (mockProvider []
      { ID := "abion.test", Records := [("www", [("A", [⟨"172.16.0.1", 3600⟩])])] })
    [] [] [] "abion.test" [] [] (endpointOf "www.abion.test" "A" ["172.16.0.2"]) () ()
    { ID := "abion.test", Records := [("www", [("A", [⟨"172.16.0.1", 3600⟩])])] }
    rfl rfl rfl (by simp)).2

/-- C5, the code at the failing input: two create endpoints address the group `("@", "A")` of
a zone without records; the one patch of the stage carries the record of the second endpoint
only, and the target of the first endpoint is submitted nowhere. -/
theorem create_same_group_submits_last_endpoint_only :
    (processCreateActions (mockProvider [] { ID := "abion.test", Records := [] })
        [("abion.test", [endpointOf "abion.test" "A" ["172.16.0.0"],
                         endpointOf "abion.test" "A" ["172.16.0.1"]])] ()).calls =
      [Call.getZone "abion.test",
       Call.patchZone "abion.test"
        { Data := { ID := "abion.test", Records := [("@", [("A", [⟨"172.16.0.1", 0⟩])])] } }] := by
  decide

/-! ## Delete merge -/

theorem processDeleteActions_append {σ : Type} (p : AbionProvider σ)
    (before rest : List (String × List Endpoint)) :
    ∀ st : σ, (processDeleteActions p before st).err = none →
      processDeleteActions p (before ++ rest) st =
        { err := (processDeleteActions p rest (processDeleteActions p before st).st).err,
          st := (processDeleteActions p rest (processDeleteActions p before st).st).st,
          calls := (processDeleteActions p before st).calls ++
            (processDeleteActions p rest (processDeleteActions p before st).st).calls } := by
  induction before with
  | nil => intro st _; simp [processDeleteActions]
  | cons hd tl ih =>
    obtain ⟨zoneId, eps⟩ := hd
    intro st h
    rw [List.cons_append]
    simp only [processDeleteActions] at h ⊢
    split at h
    · rw [ih _ h]
      simp
    · by_cases hd : p.DryRun = true
      · simp only [hd, if_true] at h ⊢
        rw [ih _ h]
        simp
      · simp only [hd] at h ⊢
        simp only [Bool.false_eq_true, if_false] at h ⊢
        split at h
        · simp at h
        · rename_i hs
          simp only [hs]
          rw [ih _ h]
          simp

theorem processDeleteActions_head {σ : Type} (p : AbionProvider σ) (zoneId : String)
    (eps : List Endpoint) (after : List (String × List Endpoint)) (st st1 : σ) (zone : Zone)
    (hdry : p.DryRun = false) (hfetch : p.Client.GetZone st zoneId = (Except.ok zone, st1)) :
    ∃ rest, (processDeleteActions p ((zoneId, eps) :: after) st).calls =
      Call.getZone zoneId ::
        Call.patchZone zoneId
          { Data := { ID := zoneId, Records := deleteRecords zoneId zone eps } } :: rest := by
  simp only [processDeleteActions, hfetch, hdry]
  simp only [Bool.false_eq_true, if_false]
  split
  · exact ⟨[], by simp [submitPatchZone_calls]⟩
  · exact ⟨_, by simp only [submitPatchZone_calls]; rfl⟩

theorem deleteStep_of_group (zoneId : String) (state : RecordsMap × RecordsMap)
    (e : Endpoint) (existing : List Record)
    (h : recordsGet state.2 (getAbionDnsName e.DNSName zoneId) e.RecordType = some existing) :
    deleteStep zoneId state e =
      (recordsSet state.1 (getAbionDnsName e.DNSName zoneId) e.RecordType
          (slicesDeleteFunc existing
            (fun r => decide (r.Data ∈ e.Targets.map (fun t => formatTarget e t)))).1,
        recordsSet state.2 (getAbionDnsName e.DNSName zoneId) e.RecordType
          (slicesDeleteFunc existing
            (fun r => decide (r.Data ∈ e.Targets.map (fun t => formatTarget e t)))).2) := by
  unfold recordsGet at h
  cases h1 : mapGet state.2 (getAbionDnsName e.DNSName zoneId) with
  | none => simp [h1] at h
  | some byType =>
    simp only [h1] at h
    simp only [deleteStep, h1, h, recordsSet]

theorem deleteStep_of_no_group (zoneId : String) (state : RecordsMap × RecordsMap)
    (e : Endpoint)
    (h : recordsGet state.2 (getAbionDnsName e.DNSName zoneId) e.RecordType = none) :
    deleteStep zoneId state e =
      (recordsSet state.1 (getAbionDnsName e.DNSName zoneId) e.RecordType [], state.2) := by
  unfold recordsGet at h
  cases h1 : mapGet state.2 (getAbionDnsName e.DNSName zoneId) with
  | none => simp only [deleteStep, h1]
  | some byType =>
    simp only [h1] at h
    simp only [deleteStep, h1, h]

theorem deleteStep_other (zoneId : String) (state : RecordsMap × RecordsMap) (e : Endpoint)
    (n t : String) (h : ¬ (getAbionDnsName e.DNSName zoneId = n ∧ e.RecordType = t)) :
    recordsGet (deleteStep zoneId state e).1 n t = recordsGet state.1 n t ∧
    recordsGet (deleteStep zoneId state e).2 n t = recordsGet state.2 n t := by
  cases hg : recordsGet state.2 (getAbionDnsName e.DNSName zoneId) e.RecordType with
  | none =>
    rw [deleteStep_of_no_group _ _ _ hg]
    exact ⟨recordsGet_recordsSet_ne _ _ _ _ _ _ h, rfl⟩
  | some existing =>
    rw [deleteStep_of_group _ _ _ _ hg]
    exact ⟨recordsGet_recordsSet_ne _ _ _ _ _ _ h, recordsGet_recordsSet_ne _ _ _ _ _ _ h⟩

theorem foldl_deleteStep_other (zoneId n t : String) (eps : List Endpoint) :
    ∀ state : RecordsMap × RecordsMap,
      (∀ e1 ∈ eps, ¬ (getAbionDnsName e1.DNSName zoneId = n ∧ e1.RecordType = t)) →
      recordsGet (eps.foldl (deleteStep zoneId) state).1 n t = recordsGet state.1 n t ∧
      recordsGet (eps.foldl (deleteStep zoneId) state).2 n t = recordsGet state.2 n t := by
  induction eps with
  | nil => intro state _; exact ⟨rfl, rfl⟩
  | cons hd tl ih =>
    intro state h
    rw [List.foldl_cons]
    have h1 := ih (deleteStep zoneId state hd) (fun e1 he1 => h e1 (List.mem_cons_of_mem _ he1))
    have h2 := deleteStep_other zoneId state hd n t (h hd (List.mem_cons_self _ _))
    exact ⟨h1.1.trans h2.1, h1.2.trans h2.2⟩

theorem deleteRecords_only (zoneId : String) (currentZone : Zone) (pre post : List Endpoint)
    (e : Endpoint)
    (honly : ∀ e1 ∈ pre ++ post,
      ¬ (getAbionDnsName e1.DNSName zoneId = getAbionDnsName e.DNSName zoneId ∧
          e1.RecordType = e.RecordType))
    (current : List Record)
    (hgroup : recordsGet currentZone.Records (getAbionDnsName e.DNSName zoneId) e.RecordType
      = some current) :
    recordsGet (deleteRecords zoneId currentZone (pre ++ e :: post))
        (getAbionDnsName e.DNSName zoneId) e.RecordType =
      some (current.filter (fun r =>
        !decide (r.Data ∈ e.Targets.map (fun t => formatTarget e t)))) := by
  unfold deleteRecords
  rw [List.foldl_append, List.foldl_cons]
  have hpre := foldl_deleteStep_other zoneId (getAbionDnsName e.DNSName zoneId) e.RecordType pre
    ([], currentZone.Records) (fun e1 he1 => honly e1 (List.mem_append_left _ he1))
  have hpost := foldl_deleteStep_other zoneId (getAbionDnsName e.DNSName zoneId) e.RecordType
    post (deleteStep zoneId (pre.foldl (deleteStep zoneId) ([], currentZone.Records)) e)
    (fun e1 he1 => honly e1 (List.mem_append_right _ he1))
  rw [hpost.1, deleteStep_of_group _ _ _ current (hpre.2.trans hgroup)]
  rw [recordsGet_recordsSet_same]
  rfl

/-- C3: delete merge.  Whenever the delete stage reaches a zone, its fetch succeeds and dry
run is off, the stage fetches the zone and then submits one patch for it; and for a
delete endpoint `e` that is the only one addressed to its group, with the group present in the
fetched zone, the submitted group is the current record list of the group without the records
whose data is one of the normalised targets of `e`: every other record is kept as it is, in
the original order. -/
theorem delete_merge {σ : Type} (p : AbionProvider σ)
    (before after : List (String × List Endpoint)) (zoneId : String)
    (pre post : List Endpoint) (e : Endpoint) (st st1 : σ) (currentZone : Zone)
    (current : List Record)
    (hdry : p.DryRun = false)
    (hbefore : (processDeleteActions p before st).err = none)
    (hfetch : p.Client.GetZone (processDeleteActions p before st).st zoneId
      = (Except.ok currentZone, st1))
    (honly : ∀ e1 ∈ pre ++ post,
      ¬ (getAbionDnsName e1.DNSName zoneId = getAbionDnsName e.DNSName zoneId ∧
          e1.RecordType = e.RecordType))
    (hgroup : recordsGet currentZone.Records (getAbionDnsName e.DNSName zoneId) e.RecordType
      = some current) :
    (∃ rest,
      (processDeleteActions p (before ++ (zoneId, pre ++ e :: post) :: after) st).calls =
        (processDeleteActions p before st).calls ++
          Call.getZone zoneId ::
          Call.patchZone zoneId
            { Data := { ID := zoneId,
                        Records := deleteRecords zoneId currentZone (pre ++ e :: post) } }
            :: rest) ∧
    recordsGet (deleteRecords zoneId currentZone (pre ++ e :: post))
        (getAbionDnsName e.DNSName zoneId) e.RecordType =
      some (current.filter (fun r =>
        decide (r.Data ∉ e.Targets.map (fun target => formatTarget e target)))) := by
  constructor
  · obtain ⟨rest, hrest⟩ :=
      processDeleteActions_head p zoneId (pre ++ e :: post) after _ st1 currentZone hdry hfetch
    refine ⟨rest, ?_⟩
    rw [processDeleteActions_append p before _ st hbefore]
    simp only [hrest]
  · rw [deleteRecords_only zoneId currentZone pre post e honly current hgroup]
    congr 2
    funext r
    by_cases hr : r.Data ∈ e.Targets.map (fun target => formatTarget e target) <;> simp [hr]

theorem delete_merge_witness :
    (processDeleteActions
        (mockProvider []
          { ID := "abion.test",
            Records := [("@", [("A", [⟨"172.16.0.0", 3600⟩, ⟨"172.16.0.1", 3600⟩])])] })
        [("abion.test", [endpointOf "abion.test" "A" ["172.16.0.0"]])] ()).calls =
      [Call.getZone "abion.test",
       Call.patchZone "abion.test"
        { Data := { ID := "abion.test",
                    Records := [("@", [("A", [⟨"172.16.0.1", 3600⟩])])] } }] ∧
    recordsGet
        (deleteRecords "abion.test"
          { ID := "abion.test",
            Records := [("@", [("A", [⟨"172.16.0.0", 3600⟩, ⟨"172.16.0.1", 3600⟩])])] }
          [endpointOf "abion.test" "A" ["172.16.0.0"]]) "@" "A" =
      some [⟨"172.16.0.1", 3600⟩] :=
  ⟨by decide,
    (delete_merge
      (mockProvider []
        { ID := "abion.test",
          Records := [("@", [("A", [⟨"172.16.0.0", 3600⟩, ⟨"172.16.0.1", 3600⟩])])] })
      [] [] "abion.test" [] [] (endpointOf "abion.test" "A" ["172.16.0.0"]) () ()
      { ID := "abion.test",
        Records := [("@", [("A", [⟨"172.16.0.0", 3600⟩, ⟨"172.16.0.1", 3600⟩])])] }
      [⟨"172.16.0.0", 3600⟩, ⟨"172.16.0.1", 3600⟩]
      rfl rfl rfl (by simp) (by decide)).2⟩

/-- C6, as stated, fails: in the CNAME group `("www", "CNAME")` the current record has data
`"x"`.  For a delete endpoint with target `"x"`, and for one with target `"x."`, the normal
form of the record data equals the normal form of the target, yet the stage submits the group
with the record still in it. -/
theorem delete_keeps_record_without_trailing_dot :
    formatTarget (endpointOf "www.abion.test" "CNAME" ["x"]) (Record.Data ⟨"x", 3600⟩) =
      formatTarget (endpointOf "www.abion.test" "CNAME" ["x"]) "x" ∧
    (processDeleteActions
        (mockProvider []
          { ID := "abion.test", Records := [("www", [("CNAME", [⟨"x", 3600⟩])])] })
        [("abion.test", [endpointOf "www.abion.test" "CNAME" ["x"]])] ()).calls =
      [Call.getZone "abion.test",
       Call.patchZone "abion.test"
        { Data := { ID := "abion.test",
                    Records := [("www", [("CNAME", [⟨"x", 3600⟩])])] } }] ∧
    formatTarget (endpointOf "www.abion.test" "CNAME" ["x."]) (Record.Data ⟨"x", 3600⟩) =
      formatTarget (endpointOf "www.abion.test" "CNAME" ["x."]) "x." ∧
    (processDeleteActions
        (mockProvider []
          { ID := "abion.test", Records := [("www", [("CNAME", [⟨"x", 3600⟩])])] })
        [("abion.test", [endpointOf "www.abion.test" "CNAME" ["x."]])] ()).calls =
      [Call.getZone "abion.test",
       Call.patchZone "abion.test"
        { Data := { ID := "abion.test",
                    Records := [("www", [("CNAME", [⟨"x", 3600⟩])])] } }] := by
  decide

/-- C6, amended: the delete comparison normalises the targets only.  For a delete endpoint `e`
that is the only one addressed to its group, with the group present in the fetched zone, the
submitted group is a part of the current records, and a current record `r` is removed if and
only if `r.Data` itself equals `formatTarget(e, t)` for some target `t` of `e`. -/
theorem delete_removes_iff_data_is_normalised_target (zoneId : String) (currentZone : Zone)
    (pre post : List Endpoint) (e : Endpoint) (current : List Record)
    (honly : ∀ e1 ∈ pre ++ post,
      ¬ (getAbionDnsName e1.DNSName zoneId = getAbionDnsName e.DNSName zoneId ∧
          e1.RecordType = e.RecordType))
    (hgroup : recordsGet currentZone.Records (getAbionDnsName e.DNSName zoneId) e.RecordType
      = some current) :
    ∃ submitted : List Record,
      recordsGet (deleteRecords zoneId currentZone (pre ++ e :: post))
          (getAbionDnsName e.DNSName zoneId) e.RecordType = some submitted ∧
      submitted.Sublist current ∧
      ∀ r ∈ current,
        r ∉ submitted ↔ ∃ target ∈ e.Targets, r.Data = formatTarget e target := by
  refine ⟨_, deleteRecords_only zoneId currentZone pre post e honly current hgroup,
    List.filter_sublist _, ?_⟩
  intro r hr
  simp only [List.mem_filter, hr, true_and, Bool.not_eq_true', decide_eq_false_iff_not,
    not_not, List.mem_map]
  constructor
  · rintro ⟨target, ht, heq⟩
    exact ⟨target, ht, heq.symm⟩
  · rintro ⟨target, ht, heq⟩
    exact ⟨target, ht, heq.symm⟩

theorem delete_removes_iff_data_is_normalised_target_witness :
    recordsGet
        (deleteRecords "abion.test"
          { ID := "abion.test",
            Records := [("www", [("CNAME", [⟨"x.", 3600⟩, ⟨"x", 3600⟩])])] }
          [endpointOf "www.abion.test" "CNAME" ["x"]]) "www" "CNAME" = some [⟨"x", 3600⟩] ∧
    recordsGet
        (deleteRecords "abion.test"
          { ID := "abion.test",
            Records := [("www", [("CNAME", [⟨"x.", 3600⟩, ⟨"x", 3600⟩])])] }
          [endpointOf "www.abion.test" "CNAME" ["x."]]) "www" "CNAME" = some [⟨"x", 3600⟩] ∧
    ∃ submitted : List Record,
      recordsGet
          (deleteRecords "abion.test"
            { ID := "abion.test",
              Records := [("www", [("CNAME", [⟨"x.", 3600⟩, ⟨"x", 3600⟩])])] }
            [endpointOf "www.abion.test" "CNAME" ["x"]]) "www" "CNAME" = some submitted ∧
      submitted.Sublist [⟨"x.", 3600⟩, ⟨"x", 3600⟩] ∧
      ∀ r ∈ ([⟨"x.", 3600⟩, ⟨"x", 3600⟩] : List Record),
        r ∉ submitted ↔
          ∃ target ∈ ["x"],
            r.Data = formatTarget (endpointOf "www.abion.test" "CNAME" ["x"]) target :=
  ⟨by decide, by decide,
    delete_removes_iff_data_is_normalised_target "abion.test"
      { ID := "abion.test", Records := [("www", [("CNAME", [⟨"x.", 3600⟩, ⟨"x", 3600⟩])])] }
      [] [] (endpointOf "www.abion.test" "CNAME" ["x"]) [⟨"x.", 3600⟩, ⟨"x", 3600⟩]
      (by simp) (by decide)⟩

/-! ## Zone resolver -/

theorem zoneMatches_iff (zoneName hostname : String) :
    zoneMatches zoneName hostname = true ↔
      (hostname = zoneName ∨ HasSuffix hostname ("." ++ zoneName) = true) := by
  simp [zoneMatches]

theorem String_length_eq_zero (s : String) : s.length = 0 ↔ s = "" := by
  constructor
  · intro h
    apply String.ext
    exact List.length_eq_zero.mp h
  · intro h
    rw [h]
    rfl

/-- One round of the loop of `FindZone`. -/
theorem findZone_step_cases (hostname : String) (suitable entry : String × String) :
    let next := (if zoneMatches entry.2 hostname = true then
        if suitable.2 = "" ∨ suitable.2.length < entry.2.length then (entry.1, entry.2)
        else suitable
      else suitable)
    (next = suitable ∨ (next = entry ∧ zoneMatches entry.2 hostname = true)) ∧
    suitable.2.length ≤ next.2.length ∧
    (zoneMatches entry.2 hostname = true → entry.2.length ≤ next.2.length) ∧
    (zoneMatches entry.2 hostname = true → suitable.2 = "" → next = entry) := by
  intro next
  by_cases hm : zoneMatches entry.2 hostname = true
  · by_cases hr : suitable.2 = "" ∨ suitable.2.length < entry.2.length
    · have hnext : next = entry := by simp [next, hm, hr]
      rw [hnext]
      refine ⟨Or.inr ⟨rfl, hm⟩, ?_, fun _ => le_refl _, fun _ _ => rfl⟩
      rcases hr with hr | hr
      · rw [hr]
        exact Nat.zero_le _
      · exact Nat.le_of_lt hr
    · have hnext : next = suitable := by simp [next, hm, hr]
      rw [hnext]
      push_neg at hr
      exact ⟨Or.inl rfl, le_refl _, fun _ => hr.2, fun _ h => absurd h hr.1⟩
  · have hnext : next = suitable := by simp [next, hm]
    rw [hnext]
    exact ⟨Or.inl rfl, le_refl _, fun h => absurd h hm, fun h => absurd h hm⟩

theorem findZone_foldl (hostname : String) (z : ZoneIDName) :
    ∀ suitable : String × String,
      let r := z.foldl (fun suitable entry =>
        if zoneMatches entry.2 hostname = true then
          if suitable.2 = "" ∨ suitable.2.length < entry.2.length then (entry.1, entry.2)
          else suitable
        else suitable) suitable
      (r = suitable ∨ (r ∈ z ∧ zoneMatches r.2 hostname = true)) ∧
      suitable.2.length ≤ r.2.length ∧
      (∀ entry ∈ z, zoneMatches entry.2 hostname = true → entry.2.length ≤ r.2.length) ∧
      (suitable.2 = "" → (∃ entry ∈ z, zoneMatches entry.2 hostname = true) →
        r ∈ z ∧ zoneMatches r.2 hostname = true) := by
  induction z with
  | nil =>
    intro suitable
    simp
  | cons hd tl ih =>
    intro suitable
    simp only [List.foldl_cons]
    obtain ⟨h1, h2, h3, h4⟩ := findZone_step_cases hostname suitable hd
    obtain ⟨i1, i2, i3, i4⟩ := ih (if zoneMatches hd.2 hostname = true then
        if suitable.2 = "" ∨ suitable.2.length < hd.2.length then (hd.1, hd.2)
        else suitable
      else suitable)
    refine ⟨?_, le_trans h2 i2, ?_, ?_⟩
    · rcases i1 with i1 | ⟨i1, i1m⟩
      · rcases h1 with h1 | ⟨h1, h1m⟩
        · exact Or.inl (i1.trans h1)
        · refine Or.inr ⟨?_, ?_⟩
          · rw [i1, h1]
            exact List.mem_cons_self _ _
          · rw [i1, h1]
            exact h1m
      · exact Or.inr ⟨List.mem_cons_of_mem _ i1, i1m⟩
    · intro entry he hm
      rcases List.mem_cons.mp he with he | he
      · subst he
        exact le_trans (h3 hm) i2
      · exact i3 entry he hm
    · intro hs hex
      by_cases hm : zoneMatches hd.2 hostname = true
      · have hnext := h4 hm hs
        rcases i1 with i1 | ⟨i1, i1m⟩
        · refine ⟨?_, ?_⟩
          · rw [i1, hnext]
            exact List.mem_cons_self _ _
          · rw [i1, hnext]
            exact hm
        · exact ⟨List.mem_cons_of_mem _ i1, i1m⟩
      · have hnext : (if zoneMatches hd.2 hostname = true then
            if suitable.2 = "" ∨ suitable.2.length < hd.2.length then (hd.1, hd.2)
            else suitable
          else suitable) = suitable := by simp [hm]
        have hex2 : ∃ entry ∈ tl, zoneMatches entry.2 hostname = true := by
          obtain ⟨entry, he, hem⟩ := hex
          rcases List.mem_cons.mp he with he | he
          · subst he
            exact absurd hem hm
          · exact ⟨entry, he, hem⟩
        have := i4 (by rw [hnext]; exact hs) hex2
        exact ⟨List.mem_cons_of_mem _ this.1, this.2⟩

theorem mem_mapSet {V : Type} (m : List (String × V)) (k : String) (v : V)
    (entry : String × V) (h : entry ∈ mapSet m k v) : entry = (k, v) ∨ entry ∈ m := by
  induction m with
  | nil =>
    simp [mapSet] at h
    exact Or.inl h
  | cons hd tl ih =>
    obtain ⟨k0, v0⟩ := hd
    by_cases hk : k0 = k
    · simp only [mapSet, hk, if_true, List.mem_cons] at h
      rcases h with h | h
      · exact Or.inl h
      · exact Or.inr (List.mem_cons_of_mem _ h)
    · simp only [mapSet, hk, if_false, List.mem_cons] at h
      rcases h with h | h
      · exact Or.inr (h ▸ List.mem_cons_self _ _)
      · rcases ih h with h | h
        · exact Or.inl h
        · exact Or.inr (List.mem_cons_of_mem _ h)

theorem mem_mapSet_self {V : Type} (m : List (String × V)) (k : String) (v : V) :
    (k, v) ∈ mapSet m k v := by
  induction m with
  | nil => simp [mapSet]
  | cons hd tl ih =>
    obtain ⟨k0, v0⟩ := hd
    by_cases hk : k0 = k
    · simp [mapSet, hk]
    · simp only [mapSet, hk, if_false]
      exact List.mem_cons_of_mem _ ih

theorem mem_mapSet_of_ne {V : Type} (m : List (String × V)) (k : String) (v : V)
    (entry : String × V) (h : entry ∈ m) (hne : entry.1 ≠ k) : entry ∈ mapSet m k v := by
  induction m with
  | nil => simp at h
  | cons hd tl ih =>
    obtain ⟨k0, v0⟩ := hd
    by_cases hk : k0 = k
    · simp only [mapSet, hk, if_true]
      rcases List.mem_cons.mp h with h | h
      · subst h
        exact absurd hk hne
      · exact List.mem_cons_of_mem _ h
    · simp only [mapSet, hk, if_false]
      rcases List.mem_cons.mp h with h | h
      · rw [h]
        exact List.mem_cons_self _ _
      · exact List.mem_cons_of_mem _ (ih h)

theorem mem_Add_diagonal (acc : ZoneIDName) (zoneId : String)
    (hdiag : ∀ entry ∈ acc, entry.1 = entry.2) (entry : String × String) :
    entry ∈ acc.Add zoneId zoneId ↔ (entry ∈ acc ∨ entry = (zoneId, zoneId)) := by
  unfold ZoneIDName.Add
  constructor
  · intro h
    rcases mem_mapSet _ _ _ _ h with h | h
    · exact Or.inr h
    · exact Or.inl h
  · rintro (h | h)
    · by_cases hk : entry.1 = zoneId
      · have h2 := hdiag entry h
        have : entry = (zoneId, zoneId) := by
          obtain ⟨a, b⟩ := entry
          simp only at hk h2
          rw [← h2, hk]
        rw [this]
        exact mem_mapSet_self _ _ _
      · exact mem_mapSet_of_ne _ _ _ _ h hk
    · rw [h]
      exact mem_mapSet_self _ _ _

theorem mem_foldl_Add (zoneIds : List String) :
    ∀ acc : ZoneIDName, (∀ entry ∈ acc, entry.1 = entry.2) →
      ∀ entry : String × String,
        entry ∈ zoneIds.foldl (fun m zoneId => m.Add zoneId zoneId) acc ↔
          (entry ∈ acc ∨ (entry.1 = entry.2 ∧ entry.1 ∈ zoneIds)) := by
  induction zoneIds with
  | nil => intro acc _ entry; simp
  | cons hd tl ih =>
    intro acc hdiag entry
    have hdiag2 : ∀ entry ∈ acc.Add hd hd, entry.1 = entry.2 := by
      intro x hx
      rcases (mem_Add_diagonal acc hd hdiag x).mp hx with hx | hx
      · exact hdiag x hx
      · rw [hx]
    rw [List.foldl_cons, ih _ hdiag2, mem_Add_diagonal acc hd hdiag]
    constructor
    · rintro ((h | h) | ⟨h1, h2⟩)
      · exact Or.inl h
      · exact Or.inr ⟨by rw [h], by rw [h]; exact List.mem_cons_self _ _⟩
      · exact Or.inr ⟨h1, List.mem_cons_of_mem _ h2⟩
    · rintro (h | ⟨h1, h2⟩)
      · exact Or.inl (Or.inl h)
      · rcases List.mem_cons.mp h2 with h2 | h2
        · refine Or.inl (Or.inr ?_)
          obtain ⟨a, b⟩ := entry
          simp only at h1 h2
          rw [← h1, h2]
        · exact Or.inr ⟨h1, h2⟩

theorem mem_zoneIdMapperOf (zoneIds : List String) (entry : String × String) :
    entry ∈ zoneIdMapperOf zoneIds ↔ (entry.1 = entry.2 ∧ entry.1 ∈ zoneIds) := by
  unfold zoneIdMapperOf
  rw [mem_foldl_Add zoneIds [] (by simp)]
  simp

theorem FindZone_spec (zoneIds : List String) (dnsName : String) :
    (((zoneIdMapperOf zoneIds).FindZone dnsName) = ("", "") ∨
      ((((zoneIdMapperOf zoneIds).FindZone dnsName).1 =
          ((zoneIdMapperOf zoneIds).FindZone dnsName).2 ∧
        ((zoneIdMapperOf zoneIds).FindZone dnsName).1 ∈ zoneIds) ∧
        zoneMatches ((zoneIdMapperOf zoneIds).FindZone dnsName).2 dnsName = true)) ∧
    (∀ z ∈ zoneIds, zoneMatches z dnsName = true →
      z.length ≤ ((zoneIdMapperOf zoneIds).FindZone dnsName).2.length) ∧
    ((∃ z ∈ zoneIds, zoneMatches z dnsName = true) →
      ((zoneIdMapperOf zoneIds).FindZone dnsName).1 =
          ((zoneIdMapperOf zoneIds).FindZone dnsName).2 ∧
      ((zoneIdMapperOf zoneIds).FindZone dnsName).1 ∈ zoneIds ∧
      zoneMatches ((zoneIdMapperOf zoneIds).FindZone dnsName).2 dnsName = true) := by
  obtain ⟨h1, _, h3, h4⟩ := findZone_foldl dnsName (zoneIdMapperOf zoneIds) ("", "")
  simp only [mem_zoneIdMapperOf] at h1 h3 h4
  refine ⟨h1, ?_, ?_⟩
  · intro z hz hm
    exact h3 (z, z) ⟨rfl, hz⟩ hm
  · rintro ⟨z, hz, hm⟩
    have := h4 trivial ⟨(z, z), ⟨rfl, hz⟩, hm⟩
    exact ⟨this.1.1, this.1.2, this.2⟩

/-- C10, as stated, fails: the client lists the one zone id `""`, which matches `"x."` (the
name ends with `"." + ""`), and the resolver built by `populateZoneIdMapper` answers with the
empty id, its value for "no zone". -/
theorem resolver_returns_no_zone_though_listed_id_matches :
    populateZoneIdMapper (mockProvider [""] { ID := "", Records := [] }) 1 () =
      some (Except.ok (zoneIdMapperOf [""]), (), [Call.getZones 0]) ∧
    ("x." = "" ∨ HasSuffix "x." ("." ++ "") = true) ∧
    ((zoneIdMapperOf [""]).FindZone "x.").1 = "" ∧
    ¬ (((zoneIdMapperOf [""]).FindZone "x.").1 = "" ↔
        ∀ z ∈ [""], ¬ ("x." = z ∨ HasSuffix "x." ("." ++ z) = true)) := by
  refine ⟨rfl, by decide, by decide, ?_⟩
  intro h
  have h2 := h.mp (by decide) "" (by simp)
  exact h2 (by decide)

/-- C10, amended: when the page loop of `populateZoneIdMapper` ends with the zone ids `zoneIds`,
the function returns the resolver over exactly these ids, and for every `dnsName`: if some
listed id `z` matches (`dnsName == z`, or `dnsName` ends with `"." + z`), the resolver returns
a listed id that matches and is at least as long as every listed id that matches; and it
returns the empty id, which stands for "no zone", exactly when no listed id other than the
empty one matches. -/
theorem resolver_returns_longest_match {σ : Type} (p : AbionProvider σ) (fuel : Nat)
    (st st1 : σ) (calls : List Call) (zoneIds : List String) (dnsName : String)
    (hlist : listZoneIds p fuel 0 [] st = some (Except.ok zoneIds, st1, calls)) :
    populateZoneIdMapper p fuel st = some (Except.ok (zoneIdMapperOf zoneIds), st1, calls) ∧
    ((∃ z ∈ zoneIds, dnsName = z ∨ HasSuffix dnsName ("." ++ z) = true) →
      ((zoneIdMapperOf zoneIds).FindZone dnsName).1 ∈ zoneIds ∧
      (dnsName = ((zoneIdMapperOf zoneIds).FindZone dnsName).1 ∨
        HasSuffix dnsName ("." ++ ((zoneIdMapperOf zoneIds).FindZone dnsName).1) = true) ∧
      ∀ z ∈ zoneIds, (dnsName = z ∨ HasSuffix dnsName ("." ++ z) = true) →
        z.length ≤ ((zoneIdMapperOf zoneIds).FindZone dnsName).1.length) ∧
    (((zoneIdMapperOf zoneIds).FindZone dnsName).1 = "" ↔
      ∀ z ∈ zoneIds, (dnsName = z ∨ HasSuffix dnsName ("." ++ z) = true) → z = "") := by
  obtain ⟨h1, h2, h3⟩ := FindZone_spec zoneIds dnsName
  simp only [zoneMatches_iff] at h1 h2 h3
  refine ⟨by simp [populateZoneIdMapper, hlist], ?_, ?_⟩
  · intro hex
    obtain ⟨e1, e2, e3⟩ := h3 hex
    refine ⟨e2, by rw [e1]; exact e3, ?_⟩
    intro z hz hm
    rw [e1]
    exact h2 z hz hm
  · constructor
    · intro hr z hz hm
      have hlen := h2 z hz hm
      have h2e : ((zoneIdMapperOf zoneIds).FindZone dnsName).2 = "" := by
        rcases h1 with h1 | ⟨⟨h1, _⟩, _⟩
        · rw [h1]
        · rw [← h1]
          exact hr
      rw [h2e] at hlen
      exact (String_length_eq_zero z).mp (Nat.le_zero.mp hlen)
    · intro hall
      by_cases hex : ∃ z ∈ zoneIds, dnsName = z ∨ HasSuffix dnsName ("." ++ z) = true
      · obtain ⟨e1, e2, e3⟩ := h3 hex
        exact hall _ e2 (by rw [e1]; exact e3)
      · rcases h1 with h1 | ⟨⟨h1, h1m⟩, h1z⟩
        · rw [h1]
        · exact absurd ⟨_, h1m, by rw [h1]; exact h1z⟩ hex

theorem resolver_returns_longest_match_witness :
    listZoneIds (mockProvider ["a.b.test", "b.test"] { ID := "", Records := [] }) 1 0 [] () =
      some (Except.ok ["a.b.test", "b.test"], (), [Call.getZones 0]) ∧
    populateZoneIdMapper (mockProvider ["a.b.test", "b.test"] { ID := "", Records := [] }) 1 () =
      some (Except.ok (zoneIdMapperOf ["a.b.test", "b.test"]), (), [Call.getZones 0]) ∧
    ((zoneIdMapperOf ["a.b.test", "b.test"]).FindZone "x.a.b.test").1 = "a.b.test" ∧
    ((zoneIdMapperOf ["abion.test"]).FindZone "www.abion.test").1 = "abion.test" :=
  ⟨rfl,
    (resolver_returns_longest_match
      (mockProvider ["a.b.test", "b.test"] { ID := "", Records := [] }) 1 () ()
      [Call.getZones 0] ["a.b.test", "b.test"] "x.a.b.test" rfl).1,
    by decide, by decide⟩

/-! ## Target normaliser -/

theorem HasSuffix_dot_iff (t : String) :
    HasSuffix t "." = true ↔ ∃ l : String, t = l ++ "." := by
  constructor
  · exact eq_append_of_HasSuffix t "."
  · rintro ⟨l, rfl⟩
    exact HasSuffix_append l "."

/-- C12: target normalisation rule.  For an endpoint of record type CNAME, `formatTarget`
returns `t` when `t` already ends with `"."` and `t + "."` otherwise; for an endpoint of any
other record type it returns `t` unchanged.  So a CNAME `"x"` becomes `"x."`, a CNAME `"x."`
stays `"x."`, and the A target `"172.16.0.0"` stays as it is. -/
theorem formatTarget_rule (e : Endpoint) (t : String) :
    (e.RecordType = "CNAME" → (∃ l : String, t = l ++ ".") → formatTarget e t = t) ∧
    (e.RecordType = "CNAME" → (¬ ∃ l : String, t = l ++ ".") → formatTarget e t = t ++ ".") ∧
    (e.RecordType ≠ "CNAME" → formatTarget e t = t) ∧
    formatTarget (endpointOf "a.abion.test" "CNAME" []) "x" = "x." ∧
    formatTarget (endpointOf "a.abion.test" "CNAME" []) "x." = "x." ∧
    formatTarget (endpointOf "a.abion.test" "A" []) "172.16.0.0" = "172.16.0.0" := by
  refine ⟨?_, ?_, ?_, by decide, by decide, by decide⟩
  · intro hc hs
    have := (HasSuffix_dot_iff t).mpr hs
    simp [formatTarget, hc, this]
  · intro hc hs
    have : ¬ HasSuffix t "." = true := fun h => hs ((HasSuffix_dot_iff t).mp h)
    simp [formatTarget, hc, this]
  · intro hc
    simp [formatTarget, hc]

theorem formatTarget_rule_witness :
    ("CNAME" = "CNAME" ∧ (∃ l : String, "abion.test." = l ++ ".") ∧
      formatTarget (endpointOf "www.abion.test" "CNAME" []) "abion.test." = "abion.test.") ∧
    ("CNAME" = "CNAME" ∧ (¬ ∃ l : String, "abion.test" = l ++ ".") ∧
      formatTarget (endpointOf "www.abion.test" "CNAME" []) "abion.test" = "abion.test" ++ ".") ∧
    ("A" ≠ "CNAME" ∧
      formatTarget (endpointOf "www.abion.test" "A" []) "172.16.0.0" = "172.16.0.0") :=
  ⟨⟨rfl, ⟨"abion.test", by decide⟩,
      (formatTarget_rule (endpointOf "www.abion.test" "CNAME" []) "abion.test.").1 rfl
        ⟨"abion.test", by decide⟩⟩,
    ⟨rfl, fun h => absurd ((HasSuffix_dot_iff "abion.test").mpr h) (by decide),
      (formatTarget_rule (endpointOf "www.abion.test" "CNAME" []) "abion.test").2.1 rfl
        (fun h => absurd ((HasSuffix_dot_iff "abion.test").mpr h) (by decide))⟩,
    ⟨by decide,
      (formatTarget_rule (endpointOf "www.abion.test" "A" []) "172.16.0.0").2.2.1 (by decide)⟩⟩

/-- C13: target normalisation is idempotent for every endpoint, of any record type, and every
target: `formatTarget(e, formatTarget(e, t)) = formatTarget(e, t)`. -/
theorem formatTarget_idempotent (e : Endpoint) (t : String) :
    formatTarget e (formatTarget e t) = formatTarget e t := by
  by_cases hc : e.RecordType = "CNAME"
  · by_cases hs : HasSuffix t "." = true
    · simp [formatTarget, hc, hs]
    · have h1 : formatTarget e t = t ++ "." := by simp [formatTarget, hc, hs]
      rw [h1]
      simp [formatTarget, hc, HasSuffix_append t "."]
  · simp [formatTarget, hc]

/-! ## Partition by zone -/

theorem mem_of_mapGet_eq_some {V : Type} (m : List (String × V)) (k : String) (v : V)
    (h : mapGet m k = some v) : (k, v) ∈ m := by
  induction m with
  | nil => simp [mapGet] at h
  | cons hd tl ih =>
    obtain ⟨k0, v0⟩ := hd
    by_cases hk : k0 = k
    · simp only [mapGet, hk, if_true, Option.some.injEq] at h
      rw [hk, h]
      exact List.mem_cons_self _ _
    · simp only [mapGet, hk, if_false] at h
      exact List.mem_cons_of_mem _ (ih h)

theorem mapGet_eq_none_iff {V : Type} (m : List (String × V)) (k : String) :
    mapGet m k = none ↔ k ∉ m.map (fun entry => entry.1) := by
  induction m with
  | nil => simp [mapGet]
  | cons hd tl ih =>
    obtain ⟨k0, v0⟩ := hd
    by_cases hk : k0 = k
    · simp [mapGet, hk]
    · simp only [mapGet, hk, if_false, ih, List.map_cons, List.mem_cons, not_or]
      constructor
      · intro h
        exact ⟨fun h2 => hk h2.symm, h⟩
      · intro h
        exact h.2

theorem keys_mapSet {V : Type} (m : List (String × V)) (k : String) (v : V) :
    (mapSet m k v).map (fun entry => entry.1) =
      if k ∈ m.map (fun entry => entry.1) then m.map (fun entry => entry.1)
      else m.map (fun entry => entry.1) ++ [k] := by
  induction m with
  | nil => simp [mapSet]
  | cons hd tl ih =>
    obtain ⟨k0, v0⟩ := hd
    by_cases hk : k0 = k
    · simp [mapSet, hk]
    · have hk2 : ¬ k = k0 := fun h => hk h.symm
      simp only [mapSet, hk, if_false, List.map_cons, ih, List.mem_cons, hk2, false_or]
      split <;> simp

theorem nodup_keys_mapSet {V : Type} (m : List (String × V)) (k : String) (v : V)
    (h : (m.map (fun entry => entry.1)).Nodup) :
    ((mapSet m k v).map (fun entry => entry.1)).Nodup := by
  rw [keys_mapSet]
  split
  · exact h
  · rename_i hk
    rw [List.nodup_append]
    refine ⟨h, List.nodup_singleton k, ?_⟩
    intro a ha hb
    rw [List.mem_singleton] at hb
    exact hk (hb ▸ ha)

theorem sum_lengths_mapSet {α : Type} (m : List (String × List α)) (k : String)
    (v : List α) :
    ((mapSet m k v).map (fun entry => entry.2.length)).sum +
        ((mapGet m k).getD []).length =
      (m.map (fun entry => entry.2.length)).sum + v.length := by
  induction m with
  | nil => simp [mapSet, mapGet]
  | cons hd tl ih =>
    obtain ⟨k0, v0⟩ := hd
    by_cases hk : k0 = k
    · simp [mapSet, mapGet, hk]
      omega
    · simp only [mapSet, mapGet, hk, if_false, List.map_cons, List.sum_cons]
      omega

/-- Membership in a bucket map whose keys are distinct is what `mapGet` reads. -/
theorem mapGet_of_mem_nodup {V : Type} (m : List (String × V)) (k : String) (v : V)
    (hnd : (m.map (fun entry => entry.1)).Nodup) (h : (k, v) ∈ m) : mapGet m k = some v := by
  induction m with
  | nil => simp at h
  | cons hd tl ih =>
    obtain ⟨k0, v0⟩ := hd
    simp only [List.map_cons, List.nodup_cons] at hnd
    rcases List.mem_cons.mp h with h | h
    · simp only [Prod.mk.injEq] at h
      simp [mapGet, h.1, h.2]
    · have hk : k0 ≠ k := by
        intro hk
        apply hnd.1
        rw [hk]
        exact List.mem_map.mpr ⟨(k, v), h, rfl⟩
      simp only [mapGet, hk, if_false]
      exact ih hnd.2 h

theorem bucket_fold_get (res : Endpoint → String) (eps : List Endpoint) :
    ∀ (m : List (String × List Endpoint)) (k : String),
      (mapGet (eps.foldl (fun acc ep =>
          if res ep = "" then acc
          else mapSet acc (res ep) ((mapGet acc (res ep)).getD [] ++ [ep])) m) k).getD [] =
        (mapGet m k).getD [] ++
          (if k = "" then [] else eps.filter (fun ep => decide (res ep = k))) := by
  induction eps with
  | nil => intro m k; simp
  | cons hd tl ih =>
    intro m k
    rw [List.foldl_cons, ih]
    by_cases h0 : res hd = ""
    · by_cases hk : k = ""
      · simp [h0, hk]
      · have hk2 : ¬ "" = k := fun h => hk h.symm
        simp [h0, hk, List.filter_cons, hk2]
    · by_cases hk : res hd = k
      · have hk0 : ¬ k = "" := fun h => h0 (hk.trans h)
        simp only [h0, if_false, hk, mapGet_mapSet_same, Option.getD_some, hk0,
          List.filter_cons, decide_True, if_true, List.append_assoc, List.singleton_append]
      · simp only [h0, if_false, mapGet_mapSet_ne _ _ _ _ hk, List.filter_cons, hk,
          decide_False]
        simp

theorem bucket_fold_inv (res : Endpoint → String) (eps : List Endpoint) :
    ∀ m : List (String × List Endpoint),
      ((m.map (fun entry => entry.1)).Nodup ∧
        ∀ entry ∈ m, entry.2 ≠ [] ∧ entry.1 ≠ "" ∧ ∀ ep ∈ entry.2, res ep = entry.1) →
      (((eps.foldl (fun acc ep =>
          if res ep = "" then acc
          else mapSet acc (res ep) ((mapGet acc (res ep)).getD [] ++ [ep])) m).map
            (fun entry => entry.1)).Nodup ∧
        ∀ entry ∈ eps.foldl (fun acc ep =>
          if res ep = "" then acc
          else mapSet acc (res ep) ((mapGet acc (res ep)).getD [] ++ [ep])) m,
          entry.2 ≠ [] ∧ entry.1 ≠ "" ∧ ∀ ep ∈ entry.2, res ep = entry.1) := by
  induction eps with
  | nil => intro m h; exact h
  | cons hd tl ih =>
    intro m h
    rw [List.foldl_cons]
    apply ih
    by_cases h0 : res hd = ""
    · simp only [h0, if_true]
      exact h
    · simp only [h0, if_false]
      refine ⟨nodup_keys_mapSet _ _ _ h.1, ?_⟩
      intro entry he
      rcases mem_mapSet _ _ _ _ he with he | he
      · rw [he]
        refine ⟨by simp, h0, ?_⟩
        intro ep hep
        rcases List.mem_append.mp hep with hep | hep
        · cases hg : mapGet m (res hd) with
          | none => simp [hg] at hep
          | some old =>
            simp only [hg, Option.getD_some] at hep
            exact (h.2 _ (mem_of_mapGet_eq_some _ _ _ hg)).2.2 ep hep
        · rw [List.mem_singleton.mp hep]
      · exact h.2 entry he

theorem bucket_fold_sum (res : Endpoint → String) (eps : List Endpoint) :
    ∀ m : List (String × List Endpoint),
      ((eps.foldl (fun acc ep =>
          if res ep = "" then acc
          else mapSet acc (res ep) ((mapGet acc (res ep)).getD [] ++ [ep])) m).map
            (fun entry => entry.2.length)).sum =
        (m.map (fun entry => entry.2.length)).sum +
          (eps.filter (fun ep => decide (res ep ≠ ""))).length := by
  induction eps with
  | nil => intro m; simp
  | cons hd tl ih =>
    intro m
    rw [List.foldl_cons, ih]
    by_cases h0 : res hd = ""
    · simp [h0, List.filter_cons]
    · have hs := sum_lengths_mapSet m (res hd) ((mapGet m (res hd)).getD [] ++ [hd])
      simp only [h0, if_false, List.filter_cons, ne_eq, not_false_eq_true, decide_True,
        if_true, List.length_cons]
      simp only [List.length_append, List.length_singleton] at hs
      omega

theorem endpointsByZone_nil (endpoints : List Endpoint) :
    endpointsByZone [] endpoints = [] := by
  unfold endpointsByZone
  induction endpoints with
  | nil => rfl
  | cons hd tl ih =>
    rw [List.foldl_cons]
    have : (ZoneIDName.FindZone [] hd.DNSName).1 = "" := rfl
    simp only [this, if_true]
    exact ih

/-- C11: partition by zone.  For every resolver and every endpoint list: the bucket of a zone
id holds exactly the endpoints whose name resolves to that id, each occurrence once and in
input order; no bucket is keyed by the empty id and every endpoint of a bucket resolves to
the key of the bucket, so an endpoint that resolves to no zone is in no bucket; the keys are
distinct and no bucket is empty; the bucket sizes add up to the number of
resolvable endpoints; and an empty resolver gives no bucket. -/
theorem endpointsByZone_partition (zoneNameIDMapper : ZoneIDName) (endpoints : List Endpoint) :
    (∀ zoneID : String,
      (mapGet (endpointsByZone zoneNameIDMapper endpoints) zoneID).getD [] =
        if zoneID = "" then []
        else endpoints.filter (fun ep =>
          decide ((zoneNameIDMapper.FindZone ep.DNSName).1 = zoneID))) ∧
    (∀ entry ∈ endpointsByZone zoneNameIDMapper endpoints,
      entry.1 ≠ "" ∧ entry.2 ≠ [] ∧
      mapGet (endpointsByZone zoneNameIDMapper endpoints) entry.1 = some entry.2 ∧
      ∀ ep ∈ entry.2, (zoneNameIDMapper.FindZone ep.DNSName).1 = entry.1) ∧
    ((endpointsByZone zoneNameIDMapper endpoints).map (fun entry => entry.1)).Nodup ∧
    ((endpointsByZone zoneNameIDMapper endpoints).map (fun entry => entry.2.length)).sum =
      (endpoints.filter (fun ep =>
        decide ((zoneNameIDMapper.FindZone ep.DNSName).1 ≠ ""))).length ∧
    endpointsByZone [] endpoints = [] := by
  have hinv := bucket_fold_inv (fun ep => (zoneNameIDMapper.FindZone ep.DNSName).1) endpoints []
    ⟨by simp, by simp⟩
  refine ⟨?_, ?_, hinv.1, ?_, ?_⟩
  · intro zoneID
    have := bucket_fold_get (fun ep => (zoneNameIDMapper.FindZone ep.DNSName).1) endpoints []
      zoneID
    simpa [mapGet] using this
  · intro entry he
    obtain ⟨h1, h2, h3⟩ := hinv.2 entry he
    exact ⟨h2, h1, mapGet_of_mem_nodup _ _ _ hinv.1 he, h3⟩
  · have := bucket_fold_sum (fun ep => (zoneNameIDMapper.FindZone ep.DNSName).1) endpoints []
    simpa using this
  · exact endpointsByZone_nil endpoints

theorem endpointsByZone_partition_witness :
    endpointsByZone [("abion.test", "abion.test")]
        [endpointOf "abion.test" "A" [], endpointOf "other.example" "A" [],
         endpointOf "www.abion.test" "A" []] =
      [("abion.test", [endpointOf "abion.test" "A" [], endpointOf "www.abion.test" "A" []])] ∧
    ((endpointsByZone [("abion.test", "abion.test")]
        [endpointOf "abion.test" "A" [], endpointOf "other.example" "A" [],
         endpointOf "www.abion.test" "A" []]).map (fun entry => entry.2.length)).sum =
      ([endpointOf "abion.test" "A" [], endpointOf "other.example" "A" [],
        endpointOf "www.abion.test" "A" []].filter (fun ep =>
          decide ((ZoneIDName.FindZone [("abion.test", "abion.test")] ep.DNSName).1 ≠ ""))).length :=
  ⟨by decide,
    (endpointsByZone_partition [("abion.test", "abion.test")]
      [endpointOf "abion.test" "A" [], endpointOf "other.example" "A" [],
       endpointOf "www.abion.test" "A" []]).2.2.2.1⟩

/-! ## Dry run -/

theorem listZoneIds_no_patch {σ : Type} (p : AbionProvider σ) (fuel : Nat) :
    ∀ (offset : Int) (zoneIds : List String) (st : σ) (r : Except GoError (List String))
      (st1 : σ) (calls : List Call),
      listZoneIds p fuel offset zoneIds st = some (r, st1, calls) →
      calls.countP Call.isPatchZone = 0 := by
  induction fuel with
  | zero => intro offset zoneIds st r st1 calls h; simp [listZoneIds] at h
  | succ n ih =>
    intro offset zoneIds st r st1 calls h
    simp only [listZoneIds] at h
    split at h
    · simp only [Option.some.injEq, Prod.mk.injEq] at h
      rw [← h.2.2]
      rfl
    · split at h
      · simp only [Option.some.injEq, Prod.mk.injEq] at h
        rw [← h.2.2]
        rfl
      · split at h
        · simp at h
        · rename_i r2 st2 calls2 hrec
          simp only [Option.some.injEq, Prod.mk.injEq] at h
          rw [← h.2.2, List.countP_cons, ih _ _ _ _ _ _ hrec]
          rfl

theorem populateZoneIdMapper_no_patch {σ : Type} (p : AbionProvider σ) (fuel : Nat) (st : σ)
    (r : Except GoError ZoneIDName) (st1 : σ) (calls : List Call)
    (h : populateZoneIdMapper p fuel st = some (r, st1, calls)) :
    calls.countP Call.isPatchZone = 0 := by
  unfold populateZoneIdMapper at h
  split at h
  · simp at h
  · rename_i err st2 calls2 hl
    simp only [Option.some.injEq, Prod.mk.injEq] at h
    rw [← h.2.2]
    exact listZoneIds_no_patch p fuel _ _ _ _ _ _ hl
  · rename_i ids st2 calls2 hl
    simp only [Option.some.injEq, Prod.mk.injEq] at h
    rw [← h.2.2]
    exact listZoneIds_no_patch p fuel _ _ _ _ _ _ hl

theorem processCreateActions_dry_run {σ : Type} (p : AbionProvider σ)
    (hdry : p.DryRun = true) (zs : List (String × List Endpoint)) :
    ∀ st : σ, (processCreateActions p zs st).calls.countP Call.isPatchZone = 0 := by
  induction zs with
  | nil => intro st; rfl
  | cons hd tl ih =>
    obtain ⟨zoneId, eps⟩ := hd
    intro st
    simp only [processCreateActions, hdry, if_true]
    split
    · rfl
    · rw [List.countP_cons, ih]
      rfl

theorem processUpdateActions_dry_run {σ : Type} (p : AbionProvider σ)
    (hdry : p.DryRun = true) (olds zs : List (String × List Endpoint)) :
    ∀ st : σ, (processUpdateActions p olds zs st).calls.countP Call.isPatchZone = 0 := by
  induction zs with
  | nil => intro st; rfl
  | cons hd tl ih =>
    obtain ⟨zoneId, eps⟩ := hd
    intro st
    simp only [processUpdateActions, hdry, if_true]
    split
    · rw [List.countP_cons, ih]
      rfl
    · rw [List.countP_cons, ih]
      rfl

theorem processDeleteActions_dry_run {σ : Type} (p : AbionProvider σ)
    (hdry : p.DryRun = true) (zs : List (String × List Endpoint)) :
    ∀ st : σ, (processDeleteActions p zs st).calls.countP Call.isPatchZone = 0 := by
  induction zs with
  | nil => intro st; rfl
  | cons hd tl ih =>
    obtain ⟨zoneId, eps⟩ := hd
    intro st
    simp only [processDeleteActions, hdry, if_true]
    split
    · rw [List.countP_cons, ih]
      rfl
    · rw [List.countP_cons, ih]
      rfl

/-- C14: dry run.  With `DryRun` on, for every input and every behaviour of the client, each
of `processCreateActions`, `processUpdateActions` and `processDeleteActions` makes no
`PatchZone` call, and neither does `ApplyChanges`, whatever the order in which the stages
visit their maps: when it returns, its calls hold no `PatchZone`, and it fails to return only
when the page loop of `populateZoneIdMapper` does not end within the bound. -/
theorem dry_run_never_patches {σ : Type} (p : AbionProvider σ) (hdry : p.DryRun = true) :
    (∀ (createsByDomain : List (String × List Endpoint)) (st : σ),
      (processCreateActions p createsByDomain st).calls.countP Call.isPatchZone = 0) ∧
    (∀ (updatesByDomainOld updatesByDomainNew : List (String × List Endpoint)) (st : σ),
      (processUpdateActions p updatesByDomainOld updatesByDomainNew st).calls.countP
        Call.isPatchZone = 0) ∧
    (∀ (deletesByDomain : List (String × List Endpoint)) (st : σ),
      (processDeleteActions p deletesByDomain st).calls.countP Call.isPatchZone = 0) ∧
    (∀ (visit : List (String × List Endpoint) → List (String × List Endpoint)) (fuel : Nat)
      (changes : Changes) (st : σ),
      match ApplyChanges p visit fuel changes st with
      | some o => o.calls.countP Call.isPatchZone = 0
      | none => populateZoneIdMapper p fuel st = none) := by
  refine ⟨processCreateActions_dry_run p hdry, processUpdateActions_dry_run p hdry,
    processDeleteActions_dry_run p hdry, ?_⟩
  intro visit fuel changes st
  cases hpop : populateZoneIdMapper p fuel st with
  | none => simp [ApplyChanges, hpop]
  | some res =>
    obtain ⟨r, st1, calls⟩ := res
    have hc := populateZoneIdMapper_no_patch p fuel st r st1 calls hpop
    cases r with
    | error err =>
      simp only [ApplyChanges, hpop]
      exact hc
    | ok mapper =>
      simp only [ApplyChanges, hpop]
      cases hce : (processCreateActions p (visit (endpointsByZone mapper changes.Create))
        st1).err with
      | some e =>
        simp only [List.countP_append, hc, processCreateActions_dry_run p hdry]
      | none =>
        simp only
        cases hue : (processUpdateActions p (endpointsByZone mapper changes.UpdateOld)
          (visit (endpointsByZone mapper changes.UpdateNew))
          (processCreateActions p (visit (endpointsByZone mapper changes.Create)) st1).st).err with
        | some e =>
          simp only [List.countP_append, hc, processCreateActions_dry_run p hdry,
            processUpdateActions_dry_run p hdry]
        | none =>
          simp only [List.countP_append, hc, processCreateActions_dry_run p hdry,
            processUpdateActions_dry_run p hdry, processDeleteActions_dry_run p hdry]

theorem dry_run_never_patches_witness :
    (dryRunProvider ["abion.test"]
        { ID := "abion.test", Records := [("@", [("A", [⟨"172.16.0.0", 3600⟩])])] }).DryRun
      = true ∧
    (ApplyChanges
        (dryRunProvider ["abion.test"]
          { ID := "abion.test", Records := [("@", [("A", [⟨"172.16.0.0", 3600⟩])])] })
        id 1
        { Create := [endpointOf "www.abion.test" "A" ["172.16.0.1"]],
          UpdateNew := [endpointOf "abion.test" "A" ["172.16.0.2"]],
          UpdateOld := [endpointOf "abion.test" "A" ["172.16.0.0"]],
          Delete := [endpointOf "abion.test" "A" ["172.16.0.0"]] } ()).map
        (fun o => (o.err, o.calls)) =
      some (none, [Call.getZones 0, Call.getZone "abion.test", Call.getZone "abion.test",
        Call.getZone "abion.test"]) ∧
    (processCreateActions
        (dryRunProvider ["abion.test"]
          { ID := "abion.test", Records := [("@", [("A", [⟨"172.16.0.0", 3600⟩])])] })
        [("abion.test", [endpointOf "www.abion.test" "A" ["172.16.0.1"]])] ()).calls.countP
      Call.isPatchZone = 0 :=
  ⟨rfl, by decide,
    (dry_run_never_patches
      (dryRunProvider ["abion.test"]
        { ID := "abion.test", Records := [("@", [("A", [⟨"172.16.0.0", 3600⟩])])] }) rfl).1
      [("abion.test", [endpointOf "www.abion.test" "A" ["172.16.0.1"]])] ()⟩

/-! ## Error handling of the stages -/

theorem processUpdateActions_all_fetches_fail {σ : Type} (p : AbionProvider σ)
    (hfail : ∀ (st : σ) (name : String), ∃ err st1, p.Client.GetZone st name = (Except.error err, st1))
    (olds zs : List (String × List Endpoint)) :
    ∀ st : σ, (processUpdateActions p olds zs st).err = none ∧
      (processUpdateActions p olds zs st).calls = zs.map (fun entry => Call.getZone entry.1) := by
  induction zs with
  | nil => intro st; exact ⟨rfl, rfl⟩
  | cons hd tl ih =>
    obtain ⟨zoneId, eps⟩ := hd
    intro st
    obtain ⟨err, st1, hf⟩ := hfail st zoneId
    simp only [processUpdateActions, hf, List.map_cons]
    exact ⟨(ih st1).1, by rw [(ih st1).2]⟩

theorem processDeleteActions_all_fetches_fail {σ : Type} (p : AbionProvider σ)
    (hfail : ∀ (st : σ) (name : String), ∃ err st1, p.Client.GetZone st name = (Except.error err, st1))
    (zs : List (String × List Endpoint)) :
    ∀ st : σ, (processDeleteActions p zs st).err = none ∧
      (processDeleteActions p zs st).calls = zs.map (fun entry => Call.getZone entry.1) := by
  induction zs with
  | nil => intro st; exact ⟨rfl, rfl⟩
  | cons hd tl ih =>
    obtain ⟨zoneId, eps⟩ := hd
    intro st
    obtain ⟨err, st1, hf⟩ := hfail st zoneId
    simp only [processDeleteActions, hf, List.map_cons]
    exact ⟨(ih st1).1, by rw [(ih st1).2]⟩

/-- C15: a fetch failure in the update stage and in the delete stage is isolated.  When the
stage reaches a zone and `GetZone` fails for it, the stage makes no call for that zone but
the fetch, goes on with the remaining zones from the state the failed fetch left, and returns
whatever the remaining zones give: the failed fetch adds no error.  With a client whose every
`GetZone` fails, both stages fetch each zone once, submit nothing and return `nil`. -/
theorem fetch_failure_is_isolated {σ : Type} (p : AbionProvider σ) :
    (∀ (updatesByDomainOld before rest : List (String × List Endpoint)) (zoneId : String)
      (updateEndpointsNew : List Endpoint) (st st1 : σ) (err : GoError),
      (processUpdateActions p updatesByDomainOld before st).err = none →
      p.Client.GetZone (processUpdateActions p updatesByDomainOld before st).st zoneId
        = (Except.error err, st1) →
      processUpdateActions p updatesByDomainOld
          (before ++ (zoneId, updateEndpointsNew) :: rest) st =
        { err := (processUpdateActions p updatesByDomainOld rest st1).err,
          st := (processUpdateActions p updatesByDomainOld rest st1).st,
          calls := (processUpdateActions p updatesByDomainOld before st).calls ++
            Call.getZone zoneId :: (processUpdateActions p updatesByDomainOld rest st1).calls }) ∧
    (∀ (before rest : List (String × List Endpoint)) (zoneId : String)
      (deleteEndpoints : List Endpoint) (st st1 : σ) (err : GoError),
      (processDeleteActions p before st).err = none →
      p.Client.GetZone (processDeleteActions p before st).st zoneId
        = (Except.error err, st1) →
      processDeleteActions p (before ++ (zoneId, deleteEndpoints) :: rest) st =
        { err := (processDeleteActions p rest st1).err,
          st := (processDeleteActions p rest st1).st,
          calls := (processDeleteActions p before st).calls ++
            Call.getZone zoneId :: (processDeleteActions p rest st1).calls }) ∧
    ((∀ (st : σ) (name : String),
        ∃ err st1, p.Client.GetZone st name = (Except.error err, st1)) →
      ∀ (updatesByDomainOld zones : List (String × List Endpoint)) (st : σ),
        (processUpdateActions p updatesByDomainOld zones st).err = none ∧
        (processUpdateActions p updatesByDomainOld zones st).calls =
          zones.map (fun entry => Call.getZone entry.1) ∧
        (processDeleteActions p zones st).err = none ∧
        (processDeleteActions p zones st).calls =
          zones.map (fun entry => Call.getZone entry.1)) := by
  refine ⟨?_, ?_, ?_⟩
  · intro olds before rest zoneId eps st st1 err hb hf
    rw [processUpdateActions_append p olds before _ st hb]
    simp only [processUpdateActions, hf]
  · intro before rest zoneId eps st st1 err hb hf
    rw [processDeleteActions_append p before _ st hb]
    simp only [processDeleteActions, hf]
  · intro hfail olds zones st
    exact ⟨(processUpdateActions_all_fetches_fail p hfail olds zones st).1,
      (processUpdateActions_all_fetches_fail p hfail olds zones st).2,
      (processDeleteActions_all_fetches_fail p hfail zones st).1,
      (processDeleteActions_all_fetches_fail p hfail zones st).2⟩

theorem fetch_failure_is_isolated_witness :
    (∀ (st : Unit) (name : String), ∃ err st1,
      (fetchFailingProvider ["abion.test"]).Client.GetZone st name = (Except.error err, st1)) ∧
    (processUpdateActions (fetchFailingProvider ["abion.test"]) []
        [("abion.test", [endpointOf "abion.test" "A" ["172.16.0.0"]])] ()).err = none ∧
    (processUpdateActions (fetchFailingProvider ["abion.test"]) []
        [("abion.test", [endpointOf "abion.test" "A" ["172.16.0.0"]])] ()).calls =
      [Call.getZone "abion.test"] ∧
    (processDeleteActions (fetchFailingProvider ["abion.test"])
        [("abion.test", [endpointOf "abion.test" "A" ["172.16.0.0"]])] ()).err = none ∧
    (processDeleteActions (fetchFailingProvider ["abion.test"])
        [("abion.test", [endpointOf "abion.test" "A" ["172.16.0.0"]])] ()).calls =
      [Call.getZone "abion.test"] :=
  ⟨fun _ _ => ⟨_, _, rfl⟩,
    (fetch_failure_is_isolated (fetchFailingProvider ["abion.test"])).2.2
      (fun _ _ => ⟨_, _, rfl⟩) []
      [("abion.test", [endpointOf "abion.test" "A" ["172.16.0.0"]])] ()⟩

/-- C16: a fetch failure in the create stage is fatal for the pass.  When the create stage
reaches a zone and `GetZone` fails for it, `processCreateActions` returns that error and its
last call is the failed fetch: nothing is submitted for the zone and no later zone is
touched.  `ApplyChanges` then returns the same error and its calls are those of
`populateZoneIdMapper` followed by those of the create stage: the update stage and the delete
stage make no fetch and no patch. -/
theorem create_fetch_failure_is_fatal {σ : Type} (p : AbionProvider σ) :
    (∀ (before rest : List (String × List Endpoint)) (zoneId : String)
      (createEndpoints : List Endpoint) (st st1 : σ) (err : GoError),
      (processCreateActions p before st).err = none →
      p.Client.GetZone (processCreateActions p before st).st zoneId
        = (Except.error err, st1) →
      processCreateActions p (before ++ (zoneId, createEndpoints) :: rest) st =
        { err := some err, st := st1,
          calls := (processCreateActions p before st).calls ++ [Call.getZone zoneId] }) ∧
    (∀ (visit : List (String × List Endpoint) → List (String × List Endpoint)) (fuel : Nat)
      (changes : Changes) (st st0 st1 : σ) (zoneNameIDMapper : ZoneIDName)
      (calls0 : List Call) (before rest : List (String × List Endpoint)) (zoneId : String)
      (createEndpoints : List Endpoint) (err : GoError),
      populateZoneIdMapper p fuel st = some (Except.ok zoneNameIDMapper, st0, calls0) →
      visit (endpointsByZone zoneNameIDMapper changes.Create) =
        before ++ (zoneId, createEndpoints) :: rest →
      (processCreateActions p before st0).err = none →
      p.Client.GetZone (processCreateActions p before st0).st zoneId
        = (Except.error err, st1) →
      ApplyChanges p visit fuel changes st =
        some { err := some err, st := st1,
               calls := calls0 ++
                 ((processCreateActions p before st0).calls ++ [Call.getZone zoneId]) }) := by
  have hstage : ∀ (before rest : List (String × List Endpoint)) (zoneId : String)
      (createEndpoints : List Endpoint) (st st1 : σ) (err : GoError),
      (processCreateActions p before st).err = none →
      p.Client.GetZone (processCreateActions p before st).st zoneId
        = (Except.error err, st1) →
      processCreateActions p (before ++ (zoneId, createEndpoints) :: rest) st =
        { err := some err, st := st1,
          calls := (processCreateActions p before st).calls ++ [Call.getZone zoneId] } := by
    intro before rest zoneId eps st st1 err hb hf
    rw [processCreateActions_append p before _ st hb]
    simp only [processCreateActions, hf]
  refine ⟨hstage, ?_⟩
  intro visit fuel changes st st0 st1 mapper calls0 before rest zoneId eps err hpop hvisit hb hf
  simp only [ApplyChanges, hpop, hvisit, hstage before rest zoneId eps st0 st1 err hb hf]

theorem create_fetch_failure_is_fatal_witness :
    (processCreateActions (fetchFailingProvider ["abion.test"]) [] ()).err = none ∧
    (fetchFailingProvider ["abion.test"]).Client.GetZone () "abion.test" =
      (Except.error (GoError.api 503 "Service Unavailable"), ()) ∧
    ApplyChanges (fetchFailingProvider ["abion.test"]) id 1
        { Create := [endpointOf "www.abion.test" "A" ["172.16.0.1"]],
          UpdateNew := [endpointOf "abion.test" "A" ["172.16.0.2"]],
          UpdateOld := [endpointOf "abion.test" "A" ["172.16.0.0"]],
          Delete := [endpointOf "abion.test" "A" ["172.16.0.0"]] } () =
      some { err := some (GoError.api 503 "Service Unavailable"), st := (),
             calls := [Call.getZones 0] ++ ([] ++ [Call.getZone "abion.test"]) } :=
  ⟨rfl, rfl,
    (create_fetch_failure_is_fatal (fetchFailingProvider ["abion.test"])).2 id 1
      { Create := [endpointOf "www.abion.test" "A" ["172.16.0.1"]],
        UpdateNew := [endpointOf "abion.test" "A" ["172.16.0.2"]],
        UpdateOld := [endpointOf "abion.test" "A" ["172.16.0.0"]],
        Delete := [endpointOf "abion.test" "A" ["172.16.0.0"]] } () () ()
      (zoneIdMapperOf ["abion.test"]) [Call.getZones 0] [] [] "abion.test"
      [endpointOf "www.abion.test" "A" ["172.16.0.1"]]
      (GoError.api 503 "Service Unavailable") rfl (by decide) rfl rfl⟩

theorem submitPatchZone_of_error {σ : Type} (p : AbionProvider σ) (zoneId : String)
    (records : RecordsMap) (st st1 : σ) (err : GoError)
    (h : p.Client.PatchZone st zoneId { Data := { ID := zoneId, Records := records } }
      = (some err, st1)) :
    submitPatchZone p zoneId records st =
      { err := some (GoError.wrapped "error updating zone " err), st := st1,
        calls := [Call.patchZone zoneId { Data := { ID := zoneId, Records := records } }] } := by
  simp only [submitPatchZone, h]

/-- C17: a submission failure is reported.  With `DryRun` off, when a stage reaches a zone,
the fetch of the zone succeeds and `PatchZone` answers the patch of the zone with an error,
the stage returns that error wrapped by `submitPatchZone` ("error updating zone ..."), and
the failed patch is its last call: no zone after it is fetched or patched.  This holds for
`processCreateActions`, `processUpdateActions` and `processDeleteActions`. -/
theorem patch_failure_is_reported {σ : Type} (p : AbionProvider σ) (hdry : p.DryRun = false) :
    (∀ (before rest : List (String × List Endpoint)) (zoneId : String)
      (createEndpoints : List Endpoint) (st st1 st2 : σ) (zone : Zone) (err : GoError),
      (processCreateActions p before st).err = none →
      p.Client.GetZone (processCreateActions p before st).st zoneId = (Except.ok zone, st1) →
      p.Client.PatchZone st1 zoneId
          { Data := { ID := zoneId, Records := createRecords zoneId zone createEndpoints } }
        = (some err, st2) →
      processCreateActions p (before ++ (zoneId, createEndpoints) :: rest) st =
        { err := some (GoError.wrapped "error updating zone " err), st := st2,
          calls := (processCreateActions p before st).calls ++
            [Call.getZone zoneId,
             Call.patchZone zoneId
              { Data := { ID := zoneId,
                          Records := createRecords zoneId zone createEndpoints } }] }) ∧
    (∀ (updatesByDomainOld before rest : List (String × List Endpoint)) (zoneId : String)
      (updateEndpointsNew : List Endpoint) (st st1 st2 : σ) (zone : Zone) (err : GoError),
      (processUpdateActions p updatesByDomainOld before st).err = none →
      p.Client.GetZone (processUpdateActions p updatesByDomainOld before st).st zoneId
        = (Except.ok zone, st1) →
      p.Client.PatchZone st1 zoneId
          { Data := { ID := zoneId,
                      Records := updateRecords zoneId zone updatesByDomainOld
                        updateEndpointsNew } }
        = (some err, st2) →
      processUpdateActions p updatesByDomainOld
          (before ++ (zoneId, updateEndpointsNew) :: rest) st =
        { err := some (GoError.wrapped "error updating zone " err), st := st2,
          calls := (processUpdateActions p updatesByDomainOld before st).calls ++
            [Call.getZone zoneId,
             Call.patchZone zoneId
              { Data := { ID := zoneId,
                          Records := updateRecords zoneId zone updatesByDomainOld
                            updateEndpointsNew } }] }) ∧
    (∀ (before rest : List (String × List Endpoint)) (zoneId : String)
      (deleteEndpoints : List Endpoint) (st st1 st2 : σ) (zone : Zone) (err : GoError),
      (processDeleteActions p before st).err = none →
      p.Client.GetZone (processDeleteActions p before st).st zoneId = (Except.ok zone, st1) →
      p.Client.PatchZone st1 zoneId
          { Data := { ID := zoneId, Records := deleteRecords zoneId zone deleteEndpoints } }
        = (some err, st2) →
      processDeleteActions p (before ++ (zoneId, deleteEndpoints) :: rest) st =
        { err := some (GoError.wrapped "error updating zone " err), st := st2,
          calls := (processDeleteActions p before st).calls ++
            [Call.getZone zoneId,
             Call.patchZone zoneId
              { Data := { ID := zoneId,
                          Records := deleteRecords zoneId zone deleteEndpoints } }] }) := by
  refine ⟨?_, ?_, ?_⟩
  · intro before rest zoneId eps st st1 st2 zone err hb hf hp
    rw [processCreateActions_append p before _ st hb]
    simp only [processCreateActions, hf, hdry, submitPatchZone_of_error p _ _ _ _ _ hp]
    simp
  · intro olds before rest zoneId eps st st1 st2 zone err hb hf hp
    rw [processUpdateActions_append p olds before _ st hb]
    simp only [processUpdateActions, hf, hdry, submitPatchZone_of_error p _ _ _ _ _ hp]
    simp
  · intro before rest zoneId eps st st1 st2 zone err hb hf hp
    rw [processDeleteActions_append p before _ st hb]
    simp only [processDeleteActions, hf, hdry, submitPatchZone_of_error p _ _ _ _ _ hp]
    simp

theorem patch_failure_is_reported_witness :
    (patchFailingProvider []
        { ID := "abion.test", Records := [("@", [("TXT", [⟨"Existing TXT data", 3600⟩])])] }).DryRun
      = false ∧
    processCreateActions
        (patchFailingProvider []
          { ID := "abion.test", Records := [("@", [("TXT", [⟨"Existing TXT data", 3600⟩])])] })
        ([] ++ ("abion.test", [endpointOf "abion.test" "A" ["172.16.0.0"]]) ::
          [("abion.example", [endpointOf "abion.example" "A" ["172.16.0.9"]])]) () =
      { err := some (GoError.wrapped "error updating zone "
                (GoError.api 503 "Service Unavailable")),
        st := (),
        calls := [] ++
          [Call.getZone "abion.test",
           Call.patchZone "abion.test"
            { Data := { ID := "abion.test",
                        Records := createRecords "abion.test"
                          { ID := "abion.test",
                            Records := [("@", [("TXT", [⟨"Existing TXT data", 3600⟩])])] }
                          [endpointOf "abion.test" "A" ["172.16.0.0"]] } }] } :=
  ⟨rfl,
    (patch_failure_is_reported
      (patchFailingProvider []
        { ID := "abion.test", Records := [("@", [("TXT", [⟨"Existing TXT data", 3600⟩])])] })
      rfl).1 []
      [("abion.example", [endpointOf "abion.example" "A" ["172.16.0.9"]])] "abion.test"
      [endpointOf "abion.test" "A" ["172.16.0.0"]] () () ()
      { ID := "abion.test", Records := [("@", [("TXT", [⟨"Existing TXT data", 3600⟩])])] }
      (GoError.api 503 "Service Unavailable") rfl rfl rfl⟩

/-! ## Pagination -/

theorem listZoneIds_of_PageRun {σ : Type} (p : AbionProvider σ) (offset : Int) (st st1 : σ)
    (pages : List ZonesResponse) (offsets : List Int) (err : Option GoError)
    (hrun : PageRun p.Client offset st pages offsets err st1) :
    ∀ (zoneIds : List String) (fuel : Nat), offsets.length ≤ fuel →
      listZoneIds p fuel offset zoneIds st =
        some ((match err with
                | none => Except.ok (zoneIds ++ pageZoneIds pages)
                | some e => Except.error e), st1, offsets.map Call.getZones) := by
  induction hrun with
  | fail offset st st1 e h =>
    intro zoneIds fuel hf
    cases fuel with
    | zero => simp at hf
    | succ n => simp only [listZoneIds, h, List.map_cons, List.map_nil]
  | last offset st st1 page h hend =>
    intro zoneIds fuel hf
    cases fuel with
    | zero => simp at hf
    | succ n =>
      simp only [listZoneIds, h, hend, if_true, List.map_cons, List.map_nil, pageZoneIds,
        List.flatten_cons, List.flatten_nil, List.append_nil]
  | next offset st st1 st2 page pages offsets e h hmore _ ih =>
    intro zoneIds fuel hf
    cases fuel with
    | zero => simp at hf
    | succ n =>
      have hn : offsets.length ≤ n := by
        simp only [List.length_cons] at hf
        omega
      simp only [listZoneIds, h, hmore, if_false, ih _ n hn, List.map_cons]
      cases e <;> simp [pageZoneIds]

theorem pageOffsets_of_PageRun {σ : Type} (c : ApiClient σ) (offset : Int) (st st1 : σ)
    (pages : List ZonesResponse) (offsets : List Int) (err : Option GoError)
    (hrun : PageRun c offset st pages offsets err st1) (hok : err = none) :
    offsets = pageOffsets offset pages := by
  induction hrun with
  | fail offset st st1 e h => simp at hok
  | last offset st st1 page h hend => rfl
  | next offset st st1 st2 page pages offsets e h hmore _ ih =>
    simp only [pageOffsets, ih hok]

theorem PageRun_exists {σ : Type} (c : ApiClient σ) (bound : Int)
    (hclient : ∀ (st : σ) (offset : Int), ∃ page st1,
      c.GetZones st offset = (Except.ok page, st1) ∧ page.Total ≤ bound ∧
        (offset < page.Total → page.Data ≠ [])) (n : Nat) :
    ∀ (offset : Int) (st : σ), (bound - offset).toNat ≤ n →
      ∃ pages offsets st1, PageRun c offset st pages offsets none st1 ∧
        offsets.length ≤ n + 1 := by
  induction n with
  | zero =>
    intro offset st hn
    obtain ⟨page, st1, hg, ht, _⟩ := hclient st offset
    refine ⟨[page], [offset], st1, PageRun.last offset st st1 page hg ?_, by simp⟩
    omega
  | succ m ih =>
    intro offset st hn
    obtain ⟨page, st1, hg, ht, hne⟩ := hclient st offset
    by_cases hend : page.Total ≤ offset + (page.Data.length : Int)
    · exact ⟨[page], [offset], st1, PageRun.last offset st st1 page hg hend, by simp⟩
    · have hlt : offset < page.Total := by omega
      have hlen : 0 < page.Data.length := List.length_pos.mpr (hne hlt)
      obtain ⟨pages, offsets, st2, hrun, hl⟩ :=
        ih (offset + (page.Data.length : Int)) st1 (by omega)
      refine ⟨page :: pages, offset :: offsets, st2,
        PageRun.next offset st st1 st2 page pages offsets none hg hend hrun, ?_⟩
      simp only [List.length_cons]
      omega

theorem PageRun_lengths {σ : Type} (c : ApiClient σ) (offset : Int) (st st1 : σ)
    (pages : List ZonesResponse) (offsets : List Int) (err : Option GoError)
    (hrun : PageRun c offset st pages offsets err st1) (hok : err = none) :
    offsets.length = pages.length := by
  rw [pageOffsets_of_PageRun c offset st st1 pages offsets err hrun hok]
  clear hrun
  induction pages generalizing offset with
  | nil => rfl
  | cons hd tl ih => simp [pageOffsets, ih]

theorem populateZoneIdMapper_of_PageRun {σ : Type} (p : AbionProvider σ) (st st1 : σ)
    (pages : List ZonesResponse) (offsets : List Int)
    (hrun : PageRun p.Client 0 st pages offsets none st1) :
    offsets = pageOffsets 0 pages ∧
    (∀ fuel : Nat, pages.length ≤ fuel →
      populateZoneIdMapper p fuel st =
        some (Except.ok (zoneIdMapperOf (pageZoneIds pages)), st1,
          offsets.map Call.getZones)) ∧
    (∀ entry : String × String,
      entry ∈ zoneIdMapperOf (pageZoneIds pages) ↔
        (entry.1 = entry.2 ∧ entry.1 ∈ pageZoneIds pages)) := by
  refine ⟨pageOffsets_of_PageRun _ _ _ _ _ _ _ hrun rfl, ?_, mem_zoneIdMapperOf _⟩
  intro fuel hf
  have hlen := PageRun_lengths _ _ _ _ _ _ _ hrun rfl
  have := listZoneIds_of_PageRun p 0 st st1 pages offsets none hrun [] fuel (by omega)
  simp only [populateZoneIdMapper, this, List.nil_append]

theorem listZoneIds_growing (fuel : Nat) :
    ∀ (offset : Int) (zoneIds : List String) (st : Unit),
      listZoneIds growingProvider fuel offset zoneIds st = none := by
  induction fuel with
  | zero => intro offset zoneIds st; rfl
  | succ n ih =>
    intro offset zoneIds st
    have hg : growingProvider.Client.GetZones st offset =
        (Except.ok { Data := [{ ID := "abion.test", Records := [] }], Total := offset + 2 },
          st) := rfl
    simp [listZoneIds, hg, ih]

/-- C19, as stated, fails: every `GetZones` call of the client succeeds and returns a zone
(so at least one zone whenever the requested offset is below the total it reports), but the
total it reports is always two more than the requested offset.  The offset never reaches the
reported total and `populateZoneIdMapper` does not return, whatever the bound on the number of
pages. -/
theorem growing_total_never_returns :
    (∀ (st : Unit) (offset : Int), ∃ page st1,
      growingProvider.Client.GetZones st offset = (Except.ok page, st1) ∧
        (offset < page.Total → page.Data ≠ [])) ∧
    ∀ fuel : Nat, populateZoneIdMapper growingProvider fuel () = none := by
  constructor
  · intro st offset
    exact ⟨_, st, rfl, fun _ => by simp⟩
  · intro fuel
    simp [populateZoneIdMapper, listZoneIds_growing]

/-- C19, amended: pagination collapse.  (1) For every client whose `GetZones` calls all
succeed, report totals that never exceed some `bound` (the total may change from call to
call), and return at least one zone whenever the requested offset is below the reported
total, `populateZoneIdMapper` terminates after at most `bound + 1` requests: there are pages,
answered by the client to requests at the offsets 0, n1, n1 + n2, ..., each later offset still
below the total reported before it and the offset after the last page at or above the total of
that page, such that with any bound of at least that many pages the function makes exactly
these requests and returns the resolver that contains exactly the ids of the zones of these
pages.  (2) For every client, whenever the loop ends without an error, the requests were made
at these offsets and the function returns that resolver.  (3) For every client, when a
`GetZones` call of the loop fails, the function returns that error, and no resolver, right
after the failed request. -/
theorem pagination_collapse {σ : Type} (p : AbionProvider σ) :
    (∀ (bound : Int) (st : σ),
      (∀ (st : σ) (offset : Int), ∃ page st1,
        p.Client.GetZones st offset = (Except.ok page, st1) ∧ page.Total ≤ bound ∧
          (offset < page.Total → page.Data ≠ [])) →
      ∃ pages offsets st1,
        PageRun p.Client 0 st pages offsets none st1 ∧
        offsets.length ≤ bound.toNat + 1 ∧
        offsets = pageOffsets 0 pages ∧
        (∀ fuel : Nat, pages.length ≤ fuel →
          populateZoneIdMapper p fuel st =
            some (Except.ok (zoneIdMapperOf (pageZoneIds pages)), st1,
              offsets.map Call.getZones)) ∧
        (∀ entry : String × String,
          entry ∈ zoneIdMapperOf (pageZoneIds pages) ↔
            (entry.1 = entry.2 ∧ entry.1 ∈ pageZoneIds pages))) ∧
    (∀ (st st1 : σ) (pages : List ZonesResponse) (offsets : List Int),
      PageRun p.Client 0 st pages offsets none st1 →
      offsets = pageOffsets 0 pages ∧
      (∀ fuel : Nat, pages.length ≤ fuel →
        populateZoneIdMapper p fuel st =
          some (Except.ok (zoneIdMapperOf (pageZoneIds pages)), st1,
            offsets.map Call.getZones)) ∧
      (∀ entry : String × String,
        entry ∈ zoneIdMapperOf (pageZoneIds pages) ↔
          (entry.1 = entry.2 ∧ entry.1 ∈ pageZoneIds pages))) ∧
    (∀ (st st1 : σ) (pages : List ZonesResponse) (offsets : List Int) (err : GoError),
      PageRun p.Client 0 st pages offsets (some err) st1 →
      ∀ fuel : Nat, offsets.length ≤ fuel →
        populateZoneIdMapper p fuel st =
          some (Except.error err, st1, offsets.map Call.getZones)) := by
  refine ⟨?_, ?_, ?_⟩
  · intro bound st hclient
    obtain ⟨pages, offsets, st1, hrun, hlen⟩ :=
      PageRun_exists p.Client bound hclient (bound - 0).toNat 0 st (le_refl _)
    obtain ⟨h1, h2, h3⟩ := populateZoneIdMapper_of_PageRun p st st1 pages offsets hrun
    exact ⟨pages, offsets, st1, hrun, by simpa using hlen, h1, h2, h3⟩
  · intro st st1 pages offsets hrun
    exact populateZoneIdMapper_of_PageRun p st st1 pages offsets hrun
  · intro st st1 pages offsets err hrun fuel hf
    have := listZoneIds_of_PageRun p 0 st st1 pages offsets (some err) hrun [] fuel hf
    simp only [populateZoneIdMapper, this]

theorem pagination_collapse_witness :
    populateZoneIdMapper
        (shiftingProvider ["a.test", "b.test", "c.test", "d.test"] 2
          { ID := "", Records := [] }) 2 0 =
      some (Except.ok (zoneIdMapperOf ["a.test", "b.test", "c.test", "d.test"]), 2,
        [Call.getZones 0, Call.getZones 2]) ∧
    (∃ pages offsets st1,
      PageRun (shiftingProvider ["a.test", "b.test", "c.test", "d.test"] 2
          { ID := "", Records := [] }).Client
        0 0 pages offsets none st1 ∧
      offsets.length ≤ (4 : Int).toNat + 1 ∧
      offsets = pageOffsets 0 pages ∧
      (∀ fuel : Nat, pages.length ≤ fuel →
        populateZoneIdMapper
            (shiftingProvider ["a.test", "b.test", "c.test", "d.test"] 2
              { ID := "", Records := [] })
            fuel 0 =
          some (Except.ok (zoneIdMapperOf (pageZoneIds pages)), st1,
            offsets.map Call.getZones)) ∧
      (∀ entry : String × String,
        entry ∈ zoneIdMapperOf (pageZoneIds pages) ↔
          (entry.1 = entry.2 ∧ entry.1 ∈ pageZoneIds pages))) ∧
    populateZoneIdMapper
        ({ Client := mockClient (Except.error (GoError.api 503 "Service Unavailable"))
             (Except.ok { ID := "", Records := [] }) none,
           DryRun := false } : AbionProvider Unit) 1 () =
      some (Except.error (GoError.api 503 "Service Unavailable"), (),
        [(0 : Int)].map Call.getZones) :=
  ⟨rfl,
    (pagination_collapse
      (shiftingProvider ["a.test", "b.test", "c.test", "d.test"] 2
        { ID := "", Records := [] })).1 4 0
      (fun st offset => ⟨_, st + 1, rfl, by
        show (if st = 0 then ((4 : Nat) : Int) - 1 else ((4 : Nat) : Int)) ≤ 4
        split <;> decide, fun h => by
        have h4 : offset < 4 := by
          have : (if st = 0 then ((4 : Nat) : Int) - 1 else ((4 : Nat) : Int)) ≤ 4 := by
            split <;> decide
          exact lt_of_lt_of_le h this
        have h3 : offset.toNat = 0 ∨ offset.toNat = 1 ∨ offset.toNat = 2 ∨
            offset.toNat = 3 := by omega
        rcases h3 with h3 | h3 | h3 | h3 <;> simp [shiftingProvider, h3]⟩),
    (pagination_collapse
      ({ Client := mockClient (Except.error (GoError.api 503 "Service Unavailable"))
           (Except.ok { ID := "", Records := [] }) none,
         DryRun := false } : AbionProvider Unit)).2.2 () () [] [0]
      (GoError.api 503 "Service Unavailable")
      (PageRun.fail 0 () () (GoError.api 503 "Service Unavailable") rfl) 1 (by decide)⟩

/-! ## Full-state read -/

theorem recordsOfZones_of_fetched {σ : Type} (p : AbionProvider σ)
    (mk : String → String → Int → String → Endpoint) (zones : List Zone) (st st1 : σ)
    (fetched : List (String × Zone)) (hf : ZonesFetched p.Client zones st fetched st1) :
    ∀ endpoints : List Endpoint,
      recordsOfZones p mk zones endpoints st =
        (Except.ok (endpoints ++ fetchedEndpoints mk fetched), st1,
          zones.map (fun zoneData => Call.getZone zoneData.ID)) := by
  induction hf with
  | nil st => intro endpoints; simp [recordsOfZones, fetchedEndpoints]
  | cons zoneData rest st st1 st2 zone fetched h _ ih =>
    intro endpoints
    simp only [recordsOfZones, h, ih, fetchedEndpoints, List.map_cons, List.flatten_cons,
      List.append_assoc]

theorem recordsLoop_of_run {σ : Type} (p : AbionProvider σ)
    (mk : String → String → Int → String → Endpoint) (offset : Int) (st st1 : σ)
    (fetched : List (List (String × Zone)))
    (hrun : RecordsRun p.Client offset st fetched st1) :
    ∀ (endpoints : List Endpoint) (fuel : Nat), fetched.length ≤ fuel →
      ∃ calls, recordsLoop p mk fuel offset endpoints st =
        some (Except.ok (endpoints ++ fetchedEndpoints mk fetched.flatten), st1, calls) := by
  induction hrun with
  | last offset st st1 st2 page fetched h hzones hend =>
    intro endpoints fuel hf
    cases fuel with
    | zero => simp at hf
    | succ n =>
      refine ⟨Call.getZones offset :: page.Data.map (fun zoneData => Call.getZone zoneData.ID),
        ?_⟩
      simp only [recordsLoop, h, recordsOfZones_of_fetched p mk _ _ _ _ hzones, hend, if_true,
        List.flatten_cons, List.flatten_nil, List.append_nil]
  | next offset st st1 st2 st3 page fetched rest h hzones hmore _ ih =>
    intro endpoints fuel hf
    cases fuel with
    | zero => simp at hf
    | succ n =>
      have hn : rest.length ≤ n := by
        simp only [List.length_cons] at hf
        omega
      obtain ⟨calls, hc⟩ := ih (endpoints ++ fetchedEndpoints mk fetched) n hn
      refine ⟨Call.getZones offset ::
        (page.Data.map (fun zoneData => Call.getZone zoneData.ID) ++ calls), ?_⟩
      have happ : fetchedEndpoints mk (fetched ++ rest.flatten) =
          fetchedEndpoints mk fetched ++ fetchedEndpoints mk rest.flatten := by
        simp [fetchedEndpoints]
      simp only [recordsLoop, h, recordsOfZones_of_fetched p mk _ _ _ _ hzones, hmore,
        if_false, hc, List.flatten_cons, happ, List.append_assoc]

theorem zoneEndpoints_length (mk : String → String → Int → String → Endpoint)
    (zoneId : String) (zone : Zone) :
    (zoneEndpoints mk zoneId zone).length = zoneRecordCount zone := by
  simp only [zoneEndpoints, zoneRecordCount, List.length_flatten, List.map_map]
  congr 1
  apply List.map_congr_left
  intro byName _
  simp only [Function.comp, List.length_flatten, List.map_map]
  congr 1
  apply List.map_congr_left
  intro byType _
  simp

theorem fetchedEndpoints_length (mk : String → String → Int → String → Endpoint)
    (fetched : List (String × Zone)) :
    (fetchedEndpoints mk fetched).length = (fetched.map (fun f => zoneRecordCount f.2)).sum := by
  simp only [fetchedEndpoints, List.length_flatten, List.map_map]
  congr 1
  apply List.map_congr_left
  intro f _
  simp [zoneEndpoints_length]

theorem mem_fetchedEndpoints (fetched : List (String × Zone)) (ep : Endpoint)
    (h : ep ∈ fetchedEndpoints NewEndpointWithTTL fetched) :
    ∃ f ∈ fetched, ∃ byName ∈ f.2.Records, ∃ byType ∈ byName.2, ∃ recordDetail ∈ byType.2,
      ep = { DNSName := getExternalDnsDnsName byName.1 f.1, Targets := [recordDetail.Data],
             RecordType := byType.1, RecordTTL := recordDetail.TTL } := by
  simp only [fetchedEndpoints, zoneEndpoints, List.mem_flatten, List.mem_map] at h
  obtain ⟨l, ⟨f, hf, rfl⟩, hl⟩ := h
  simp only [List.mem_flatten, List.mem_map] at hl
  obtain ⟨l2, ⟨byName, hbn, rfl⟩, hl2⟩ := hl
  simp only [List.mem_flatten, List.mem_map] at hl2
  obtain ⟨l3, ⟨byType, hbt, rfl⟩, hl3⟩ := hl2
  simp only [List.mem_map] at hl3
  obtain ⟨rd, hrd, rfl⟩ := hl3
  exact ⟨f, hf, byName, hbn, byType, hbt, rd, hrd, rfl⟩

theorem recordsLoop_stuck (fuel : Nat) :
    ∀ endpoints : List Endpoint,
      recordsLoop stuckProvider NewEndpointWithTTL fuel 0 endpoints () = none := by
  induction fuel with
  | zero => intro endpoints; rfl
  | succ n ih =>
    intro endpoints
    have hg : stuckProvider.Client.GetZones () 0 =
      (Except.ok { Data := [], Total := 1 }, ()) := rfl
    simp only [recordsLoop, hg, recordsOfZones, List.length_nil]
    have h0 : ¬ ((1 : Int) ≤ 0 + ((0 : Nat) : Int)) := by decide
    simp only [h0, if_false]
    have h00 : (0 : Int) + ((0 : Nat) : Int) = 0 := by decide
    rw [h00, ih]

/-- C18, as stated, fails: every `GetZones` and every `GetZone` call of the client succeeds,
but each page is empty while the reported total is 1, so the offset never reaches the total
and `Records` returns nothing, whatever the bound on the number of pages. -/
theorem records_need_not_return :
    (∀ (st : Unit) (offset : Int), ∃ page st1,
      stuckProvider.Client.GetZones st offset = (Except.ok page, st1)) ∧
    (∀ (st : Unit) (name : String), ∃ zone st1,
      stuckProvider.Client.GetZone st name = (Except.ok zone, st1)) ∧
    ∀ fuel : Nat, Records stuckProvider NewEndpointWithTTL fuel () = none :=
  ⟨fun _ _ => ⟨_, _, rfl⟩, fun _ _ => ⟨_, _, rfl⟩, fun fuel => recordsLoop_stuck fuel []⟩

/-- C18, amended: full-state read.  When every `GetZones` and every `GetZone` call succeeds
and the page loop ends, `Records` returns, with any bound of at least that many pages,
exactly one endpoint per (local name, record type, record) triple of every listed zone, built
by `NewEndpointWithTTL` from `getExternalDnsDnsName(local name, zone id)`, the record type,
the ttl and the data of the record; the number of endpoints is the number of records of all
fetched snapshots; and with the constructor of the spec every endpoint carries that DNS name,
that record type and the data of its record as its one target. -/
theorem records_flatten_listed_zones {σ : Type} (p : AbionProvider σ) (st st1 : σ)
    (fetched : List (List (String × Zone)))
    (hrun : RecordsRun p.Client 0 st fetched st1) :
    (∀ (newEndpointWithTTL : String → String → Int → String → Endpoint) (fuel : Nat),
      fetched.length ≤ fuel →
      ∃ calls, Records p newEndpointWithTTL fuel st =
        some (Except.ok (fetchedEndpoints newEndpointWithTTL fetched.flatten), st1, calls)) ∧
    (∀ newEndpointWithTTL : String → String → Int → String → Endpoint,
      (fetchedEndpoints newEndpointWithTTL fetched.flatten).length =
        (fetched.flatten.map (fun f => zoneRecordCount f.2)).sum) ∧
    (∀ ep ∈ fetchedEndpoints NewEndpointWithTTL fetched.flatten,
      ∃ f ∈ fetched.flatten, ∃ byName ∈ f.2.Records, ∃ byType ∈ byName.2,
        ∃ recordDetail ∈ byType.2,
          ep = { DNSName := getExternalDnsDnsName byName.1 f.1,
                 Targets := [recordDetail.Data],
                 RecordType := byType.1, RecordTTL := recordDetail.TTL }) := by
  refine ⟨?_, fun mk => fetchedEndpoints_length mk _, fun ep hep => mem_fetchedEndpoints _ ep hep⟩
  intro mk fuel hf
  obtain ⟨calls, hc⟩ := recordsLoop_of_run p mk 0 st st1 fetched hrun [] fuel hf
  exact ⟨calls, by simpa [Records] using hc⟩

theorem records_flatten_listed_zones_witness :
    Records
        (mockProvider ["abion.test"]
          { ID := "abion.test",
            Records := [("@", [("A", [⟨"172.16.0.0", 3600⟩])]),
                        ("www", [("A", [⟨"172.16.0.1", 3600⟩])])] })
        NewEndpointWithTTL 1 () =
      some (Except.ok
        [{ DNSName := "abion.test", Targets := ["172.16.0.0"], RecordType := "A",
           RecordTTL := 3600 },
         { DNSName := "www.abion.test", Targets := ["172.16.0.1"], RecordType := "A",
           RecordTTL := 3600 }], (), [Call.getZones 0, Call.getZone "abion.test"]) ∧
    Records (mockProvider [] { ID := "", Records := [] }) NewEndpointWithTTL 1 () =
      some (Except.ok [], (), [Call.getZones 0]) ∧
    (fetchedEndpoints NewEndpointWithTTL
        [("abion.test",
          ({ ID := "abion.test",
             Records := [("@", [("A", [⟨"172.16.0.0", 3600⟩])]),
                         ("www", [("A", [⟨"172.16.0.1", 3600⟩])])] } : Zone))]).length = 2 :=
  ⟨rfl, rfl,
    (records_flatten_listed_zones
      (mockProvider ["abion.test"]
        { ID := "abion.test",
          Records := [("@", [("A", [⟨"172.16.0.0", 3600⟩])]),
                      ("www", [("A", [⟨"172.16.0.1", 3600⟩])])] }) () ()
      [[("abion.test",
          { ID := "abion.test",
            Records := [("@", [("A", [⟨"172.16.0.0", 3600⟩])]),
                        ("www", [("A", [⟨"172.16.0.1", 3600⟩])])] })]]
      (RecordsRun.last 0 () () () _ _ rfl
        (ZonesFetched.cons _ _ () () () _ _ rfl (ZonesFetched.nil ()))
        (by decide))).2.1 NewEndpointWithTTL⟩

/-! ## A second pass -/

/-- C20, as stated, fails.  (1) The store holds TXT `[v1]` at `"@"` of `abion.test` and the
changeset creates TXT `v2` there: the first pass leaves the group `[v2, v1]`, the second pass
with the same changeset leaves `[v2, v2, v1]`.  (2) The store holds A `[172.16.0.1]` at
`"www"` and the changeset updates it to `172.16.0.2`: the first pass leaves `[172.16.0.2]`,
the second pass `[172.16.0.2, 172.16.0.2]`. -/
theorem second_pass_changes_groups :
    ((ApplyChanges storeProvider id 1
        { Create := [endpointOf "abion.test" "TXT" ["v2"]], UpdateNew := [], UpdateOld := [],
          Delete := [] }
        [("abion.test", [("@", [("TXT", [⟨"v1", 3600⟩])])])]).map (fun o => (o.err, o.st)) =
      some (none, [("abion.test", [("@", [("TXT", [⟨"v2", 0⟩, ⟨"v1", 3600⟩])])])]) ∧
     (ApplyChanges storeProvider id 1
        { Create := [endpointOf "abion.test" "TXT" ["v2"]], UpdateNew := [], UpdateOld := [],
          Delete := [] }
        [("abion.test", [("@", [("TXT", [⟨"v2", 0⟩, ⟨"v1", 3600⟩])])])]).map
          (fun o => (o.err, o.st)) =
      some (none,
        [("abion.test", [("@", [("TXT", [⟨"v2", 0⟩, ⟨"v2", 0⟩, ⟨"v1", 3600⟩])])])])) ∧
    ((ApplyChanges storeProvider id 1
        { Create := [], UpdateNew := [endpointOf "www.abion.test" "A" ["172.16.0.2"]],
          UpdateOld := [endpointOf "www.abion.test" "A" ["172.16.0.1"]], Delete := [] }
        [("abion.test", [("www", [("A", [⟨"172.16.0.1", 3600⟩])])])]).map
          (fun o => (o.err, o.st)) =
      some (none, [("abion.test", [("www", [("A", [⟨"172.16.0.2", 0⟩])])])]) ∧
     (ApplyChanges storeProvider id 1
        { Create := [], UpdateNew := [endpointOf "www.abion.test" "A" ["172.16.0.2"]],
          UpdateOld := [endpointOf "www.abion.test" "A" ["172.16.0.1"]], Delete := [] }
        [("abion.test", [("www", [("A", [⟨"172.16.0.2", 0⟩])])])]).map
          (fun o => (o.err, o.st)) =
      some (none,
        [("abion.test", [("www", [("A", [⟨"172.16.0.2", 0⟩, ⟨"172.16.0.2", 0⟩])])])])) :=
  ⟨⟨rfl, rfl⟩, ⟨rfl, rfl⟩⟩

theorem recordsGet_foldr_recordsSet (name : String) (byType : List (String × List Record))
    (base : RecordsMap) (n t : String) :
    recordsGet (byType.foldr
        (fun bt records => recordsSet records name bt.1 bt.2) base) n t =
      if name = n then
        (match mapGet byType t with
          | some data => some data
          | none => recordsGet base n t)
      else recordsGet base n t := by
  induction byType with
  | nil => simp [mapGet]
  | cons hd tl ih =>
    obtain ⟨t0, d0⟩ := hd
    rw [List.foldr_cons]
    by_cases hn : name = n
    · by_cases ht : t0 = t
      · subst hn
        subst ht
        simp [recordsGet_recordsSet_same, mapGet]
      · rw [recordsGet_recordsSet_ne _ _ _ _ _ _ (fun h => ht h.2), ih]
        simp [hn, mapGet, ht]
    · rw [recordsGet_recordsSet_ne _ _ _ _ _ _ (fun h => hn h.1), ih]
      simp [hn]

theorem recordsGet_applyPatch (zoneRecords patch : RecordsMap) (n t : String)
    (data : List Record) (h : recordsGet patch n t = some data) :
    recordsGet (applyPatch zoneRecords patch) n t = some data := by
  induction patch with
  | nil => simp [recordsGet, mapGet] at h
  | cons hd tl ih =>
    obtain ⟨name, byType⟩ := hd
    unfold applyPatch
    rw [List.foldr_cons, recordsGet_foldr_recordsSet]
    by_cases hn : name = n
    · have h2 : mapGet byType t = some data := by
        simpa [recordsGet, mapGet, hn] using h
      simp [hn, h2]
    · have h2 : recordsGet tl n t = some data := by
        simpa [recordsGet, mapGet, hn] using h
      simp only [hn, if_false]
      exact ih h2

theorem deleteRecords_only_of_no_group (zoneId : String) (currentZone : Zone)
    (pre post : List Endpoint) (e : Endpoint)
    (honly : ∀ e1 ∈ pre ++ post,
      ¬ (getAbionDnsName e1.DNSName zoneId = getAbionDnsName e.DNSName zoneId ∧
          e1.RecordType = e.RecordType))
    (hgroup : recordsGet currentZone.Records (getAbionDnsName e.DNSName zoneId) e.RecordType
      = none) :
    recordsGet (deleteRecords zoneId currentZone (pre ++ e :: post))
        (getAbionDnsName e.DNSName zoneId) e.RecordType = some [] := by
  unfold deleteRecords
  rw [List.foldl_append, List.foldl_cons]
  have hpre := foldl_deleteStep_other zoneId (getAbionDnsName e.DNSName zoneId) e.RecordType pre
    ([], currentZone.Records) (fun e1 he1 => honly e1 (List.mem_append_left _ he1))
  have hpost := foldl_deleteStep_other zoneId (getAbionDnsName e.DNSName zoneId) e.RecordType
    post (deleteStep zoneId (pre.foldl (deleteStep zoneId) ([], currentZone.Records)) e)
    (fun e1 he1 => honly e1 (List.mem_append_right _ he1))
  rw [hpost.1, deleteStep_of_no_group _ _ _ (hpre.2.trans hgroup)]
  exact recordsGet_recordsSet_same _ _ _ _

/-- A second run of a stage's merge against the zone in which the groups
submitted by the first run have replaced the zone's groups.  For an endpoint `e` that is the
only endpoint of the stage addressed to its group: the delete merge submits the same group
again; the create merge submits the first group with one record per target of `e` once more
in front; and the update merge, when the zone held the group before the first run, submits a
group with exactly the same records as the first one, as a set.  So in every stage the second group
holds the same records as the first, but the lists of the create and the update stage need
not be equal. -/
theorem second_merge_keeps_the_records (zoneId : String) (zone : Zone)
    (updatesByDomainOld : List (String × List Endpoint)) (pre post : List Endpoint)
    (e : Endpoint)
    (honly : ∀ e1 ∈ pre ++ post,
      ¬ (getAbionDnsName e1.DNSName zoneId = getAbionDnsName e.DNSName zoneId ∧
          e1.RecordType = e.RecordType)) :
    (recordsGet
        (deleteRecords zoneId
          (zone.patched (deleteRecords zoneId zone (pre ++ e :: post))) (pre ++ e :: post))
        (getAbionDnsName e.DNSName zoneId) e.RecordType =
      recordsGet (deleteRecords zoneId zone (pre ++ e :: post))
        (getAbionDnsName e.DNSName zoneId) e.RecordType) ∧
    (∃ first : List Record,
      recordsGet (createRecords zoneId zone (pre ++ e :: post))
        (getAbionDnsName e.DNSName zoneId) e.RecordType = some first ∧
      recordsGet
        (createRecords zoneId
          (zone.patched (createRecords zoneId zone (pre ++ e :: post))) (pre ++ e :: post))
        (getAbionDnsName e.DNSName zoneId) e.RecordType = some (targetRecords e ++ first) ∧
      ∀ r, r ∈ targetRecords e ++ first ↔ r ∈ first) ∧
    (∀ current : List Record,
      recordsGet zone.Records (getAbionDnsName e.DNSName zoneId) e.RecordType = some current →
      ∃ first second : List Record,
      recordsGet (updateRecords zoneId zone updatesByDomainOld (pre ++ e :: post))
        (getAbionDnsName e.DNSName zoneId) e.RecordType = some first ∧
      recordsGet
        (updateRecords zoneId
          (zone.patched (updateRecords zoneId zone updatesByDomainOld (pre ++ e :: post)))
          updatesByDomainOld (pre ++ e :: post))
        (getAbionDnsName e.DNSName zoneId) e.RecordType = some second ∧
      ∀ r, r ∈ second ↔ r ∈ first) := by
  have hpost : ∀ e1 ∈ post,
      ¬ (getAbionDnsName e1.DNSName zoneId = getAbionDnsName e.DNSName zoneId ∧
          e1.RecordType = e.RecordType) := fun e1 he1 => honly e1 (List.mem_append_right _ he1)
  refine ⟨?_, ?_, ?_⟩
  · cases hgroup : recordsGet zone.Records (getAbionDnsName e.DNSName zoneId) e.RecordType with
    | none =>
      have h1 := deleteRecords_only_of_no_group zoneId zone pre post e honly hgroup
      have hz : recordsGet
          (zone.patched (deleteRecords zoneId zone (pre ++ e :: post))).Records
          (getAbionDnsName e.DNSName zoneId) e.RecordType = _ :=
        recordsGet_applyPatch zone.Records _ _ _ _ h1
      rw [deleteRecords_only zoneId _ pre post e honly _ hz, h1]
      rfl
    | some current =>
      have h1 := deleteRecords_only zoneId zone pre post e honly current hgroup
      have hz : recordsGet
          (zone.patched (deleteRecords zoneId zone (pre ++ e :: post))).Records
          (getAbionDnsName e.DNSName zoneId) e.RecordType = _ :=
        recordsGet_applyPatch zone.Records _ _ _ _ h1
      rw [deleteRecords_only zoneId _ pre post e honly _ hz, h1, List.filter_filter]
      simp
  · have h1 : recordsGet (createRecords zoneId zone (pre ++ e :: post))
        (getAbionDnsName e.DNSName zoneId) e.RecordType = some (createData zone zoneId e) :=
      foldl_recordsSet_last (fun e => getAbionDnsName e.DNSName zoneId)
        (fun e => e.RecordType) (createData zone zoneId) pre post e [] hpost
    have hz : recordsGet (zone.patched (createRecords zoneId zone (pre ++ e :: post))).Records
        (getAbionDnsName e.DNSName zoneId) e.RecordType = _ :=
      recordsGet_applyPatch zone.Records _ _ _ _ h1
    refine ⟨createData zone zoneId e, h1, ?_, ?_⟩
    · have h2 : recordsGet
          (createRecords zoneId
            (zone.patched (createRecords zoneId zone (pre ++ e :: post))) (pre ++ e :: post))
          (getAbionDnsName e.DNSName zoneId) e.RecordType =
            some (createData (zone.patched (createRecords zoneId zone (pre ++ e :: post)))
              zoneId e) :=
        foldl_recordsSet_last (fun e => getAbionDnsName e.DNSName zoneId)
          (fun e => e.RecordType)
          (createData (zone.patched (createRecords zoneId zone (pre ++ e :: post))) zoneId)
          pre post e [] hpost
      rw [h2, createData_eq, hz]
      rfl
    · intro r
      rw [createData_eq]
      simp only [List.mem_append]
      tauto
  · intro current hgroup
    have h1 : recordsGet (updateRecords zoneId zone updatesByDomainOld (pre ++ e :: post))
        (getAbionDnsName e.DNSName zoneId) e.RecordType =
          some (updateData zone zoneId updatesByDomainOld e) :=
      foldl_recordsSet_last (fun e => getAbionDnsName e.DNSName zoneId)
        (fun e => e.RecordType) (updateData zone zoneId updatesByDomainOld) pre post e [] hpost
    have hz : recordsGet
        (zone.patched (updateRecords zoneId zone updatesByDomainOld (pre ++ e :: post))).Records
        (getAbionDnsName e.DNSName zoneId) e.RecordType = _ :=
      recordsGet_applyPatch zone.Records _ _ _ _ h1
    have h2 : recordsGet
        (updateRecords zoneId
          (zone.patched (updateRecords zoneId zone updatesByDomainOld (pre ++ e :: post)))
          updatesByDomainOld (pre ++ e :: post))
        (getAbionDnsName e.DNSName zoneId) e.RecordType =
          some (updateData
            (zone.patched (updateRecords zoneId zone updatesByDomainOld (pre ++ e :: post)))
            zoneId updatesByDomainOld e) :=
      foldl_recordsSet_last (fun e => getAbionDnsName e.DNSName zoneId)
        (fun e => e.RecordType)
        (updateData (zone.patched (updateRecords zoneId zone updatesByDomainOld
          (pre ++ e :: post))) zoneId updatesByDomainOld)
        pre post e [] hpost
    refine ⟨_, _, h1, h2, ?_⟩
    intro r
    rw [updateData_of_group _ _ _ _ _ hz, updateData_of_group _ _ _ _ _ hgroup]
    simp only [List.mem_append, List.mem_filter]
    tauto

theorem second_merge_keeps_the_records_witness :
    (∀ e1 ∈ ([] : List Endpoint) ++ [],
      ¬ (getAbionDnsName e1.DNSName "abion.test" =
            getAbionDnsName (endpointOf "abion.test" "TXT" ["v2"]).DNSName "abion.test" ∧
          e1.RecordType = (endpointOf "abion.test" "TXT" ["v2"]).RecordType)) ∧
    ∃ first : List Record,
      recordsGet
        (createRecords "abion.test"
          { ID := "abion.test", Records := [("@", [("TXT", [⟨"v1", 3600⟩])])] }
          [endpointOf "abion.test" "TXT" ["v2"]]) "@" "TXT" = some first ∧
      recordsGet
        (createRecords "abion.test"
          (Zone.patched { ID := "abion.test", Records := [("@", [("TXT", [⟨"v1", 3600⟩])])] }
            (createRecords "abion.test"
              { ID := "abion.test", Records := [("@", [("TXT", [⟨"v1", 3600⟩])])] }
              [endpointOf "abion.test" "TXT" ["v2"]]))
          [endpointOf "abion.test" "TXT" ["v2"]]) "@" "TXT" =
        some (targetRecords (endpointOf "abion.test" "TXT" ["v2"]) ++ first) ∧
      ∀ r, r ∈ targetRecords (endpointOf "abion.test" "TXT" ["v2"]) ++ first ↔ r ∈ first :=
  ⟨by simp,
    (second_merge_keeps_the_records "abion.test"
      { ID := "abion.test", Records := [("@", [("TXT", [⟨"v1", 3600⟩])])] } [] [] []
      (endpointOf "abion.test" "TXT" ["v2"]) (by simp)).2.1⟩

/-! ## Delete with several endpoints on one group -/

/-- C22, evaluated on the code: the fetched group `("@", "A")` is `[a, b, c]`, one delete
endpoint targets `a` and another one of the same group targets `b`.  The one patch of the
stage carries the group `[c, {Data: "", TTL: 0}]`, not `[c]`: after the first endpoint the
zone's own slice, rewritten in place by `slices.DeleteFunc`, reads `[b, c, {"" 0}]`, and the
second endpoint filters that slice and replaces the first endpoint's list.  With the slice as
fetched the second endpoint alone would give `[a, c]`.  One delete endpoint with both targets
submits `[c]`. -/
theorem delete_same_group_twice_submits_zero_record :
    (processDeleteActions
        (mockProvider []
          { ID := "abion.test",
            Records := [("@", [("A", [⟨"a", 3600⟩, ⟨"b", 3600⟩, ⟨"c", 3600⟩])])] })
        [("abion.test", [endpointOf "abion.test" "A" ["a"], endpointOf "abion.test" "A" ["b"]])]
        ()).calls =
      [Call.getZone "abion.test",
       Call.patchZone "abion.test"
        { Data := { ID := "abion.test",
                    Records := [("@", [("A", [⟨"c", 3600⟩, ⟨"", 0⟩])])] } }] ∧
    deleteStep "abion.test"
        ([], [("@", [("A", [⟨"a", 3600⟩, ⟨"b", 3600⟩, ⟨"c", 3600⟩])])])
        (endpointOf "abion.test" "A" ["a"]) =
      ([("@", [("A", [⟨"b", 3600⟩, ⟨"c", 3600⟩])])],
        [("@", [("A", [⟨"b", 3600⟩, ⟨"c", 3600⟩, ⟨"", 0⟩])])]) ∧
    deleteRecords "abion.test"
        { ID := "abion.test",
          Records := [("@", [("A", [⟨"a", 3600⟩, ⟨"b", 3600⟩, ⟨"c", 3600⟩])])] }
        [endpointOf "abion.test" "A" ["b"]] =
      [("@", [("A", [⟨"a", 3600⟩, ⟨"c", 3600⟩])])] ∧
    deleteRecords "abion.test"
        { ID := "abion.test",
          Records := [("@", [("A", [⟨"a", 3600⟩, ⟨"b", 3600⟩, ⟨"c", 3600⟩])])] }
        [endpointOf "abion.test" "A" ["a", "b"]] =
      [("@", [("A", [⟨"c", 3600⟩])])] := by
  refine ⟨by decide, rfl, by decide, by decide⟩

/-! ## Patch scope -/

theorem isSome_recordsGet_recordsSet (records : RecordsMap) (n t n1 t1 : String)
    (data : List Record) :
    (recordsGet (recordsSet records n t data) n1 t1).isSome = true ↔
      (n = n1 ∧ t = t1) ∨ (recordsGet records n1 t1).isSome = true := by
  by_cases h : n = n1 ∧ t = t1
  · obtain ⟨h1, h2⟩ := h
    subst h1
    subst h2
    simp [recordsGet_recordsSet_same]
  · rw [recordsGet_recordsSet_ne _ _ _ _ _ _ h]
    simp [h]

theorem isSome_foldl_recordsSet (key1 key2 : Endpoint → String) (val : Endpoint → List Record)
    (eps : List Endpoint) :
    ∀ (records : RecordsMap) (n t : String),
      (recordsGet (eps.foldl (fun r e => recordsSet r (key1 e) (key2 e) (val e)) records)
          n t).isSome = true ↔
        (recordsGet records n t).isSome = true ∨ ∃ e ∈ eps, key1 e = n ∧ key2 e = t := by
  induction eps with
  | nil => intro records n t; simp
  | cons hd tl ih =>
    intro records n t
    rw [List.foldl_cons, ih, isSome_recordsGet_recordsSet]
    simp only [List.mem_cons, exists_eq_or_imp]
    tauto

theorem isSome_createRecords (zoneId : String) (zone : Zone) (eps : List Endpoint)
    (n t : String) :
    (recordsGet (createRecords zoneId zone eps) n t).isSome = true ↔
      ∃ e ∈ eps, getAbionDnsName e.DNSName zoneId = n ∧ e.RecordType = t := by
  have h := isSome_foldl_recordsSet (fun e => getAbionDnsName e.DNSName zoneId)
    (fun e => e.RecordType) (createData zone zoneId) eps [] n t
  simpa [createRecords, recordsGet, mapGet] using h

theorem isSome_updateRecords (zoneId : String) (zone : Zone)
    (olds : List (String × List Endpoint)) (eps : List Endpoint) (n t : String) :
    (recordsGet (updateRecords zoneId zone olds eps) n t).isSome = true ↔
      ∃ e ∈ eps, getAbionDnsName e.DNSName zoneId = n ∧ e.RecordType = t := by
  have h := isSome_foldl_recordsSet (fun e => getAbionDnsName e.DNSName zoneId)
    (fun e => e.RecordType) (updateData zone zoneId olds) eps [] n t
  simpa [updateRecords, recordsGet, mapGet] using h

theorem deleteStep_fst (zoneId : String) (state : RecordsMap × RecordsMap) (e : Endpoint) :
    ∃ data, (deleteStep zoneId state e).1 =
      recordsSet state.1 (getAbionDnsName e.DNSName zoneId) e.RecordType data := by
  cases h1 : mapGet state.2 (getAbionDnsName e.DNSName zoneId) with
  | none => exact ⟨[], by simp only [deleteStep, h1]⟩
  | some byType =>
    cases h2 : mapGet byType e.RecordType with
    | none => exact ⟨[], by simp only [deleteStep, h1, h2]⟩
    | some existing =>
      exact ⟨(slicesDeleteFunc existing (fun r =>
        decide (r.Data ∈ e.Targets.map (fun target => formatTarget e target)))).1,
        by simp only [deleteStep, h1, h2]⟩

theorem isSome_foldl_deleteStep (zoneId : String) (eps : List Endpoint) :
    ∀ (state : RecordsMap × RecordsMap) (n t : String),
      (recordsGet (eps.foldl (deleteStep zoneId) state).1 n t).isSome = true ↔
        (recordsGet state.1 n t).isSome = true ∨
          ∃ e ∈ eps, getAbionDnsName e.DNSName zoneId = n ∧ e.RecordType = t := by
  induction eps with
  | nil => intro state n t; simp
  | cons hd tl ih =>
    intro state n t
    obtain ⟨data, hdata⟩ := deleteStep_fst zoneId state hd
    rw [List.foldl_cons, ih, hdata, isSome_recordsGet_recordsSet]
    simp only [List.mem_cons, exists_eq_or_imp]
    tauto

theorem isSome_deleteRecords (zoneId : String) (zone : Zone) (eps : List Endpoint)
    (n t : String) :
    (recordsGet (deleteRecords zoneId zone eps) n t).isSome = true ↔
      ∃ e ∈ eps, getAbionDnsName e.DNSName zoneId = n ∧ e.RecordType = t := by
  have h := isSome_foldl_deleteStep zoneId eps ([], zone.Records) n t
  simpa [deleteRecords, recordsGet, mapGet] using h

theorem patches_of_shape {σ : Type} (stage : List (String × List Endpoint) → σ → Outcome σ)
    (records : String → Zone → List Endpoint → RecordsMap)
    (hnil : ∀ st : σ, (stage [] st).calls = [])
    (hcons : ∀ (zoneId : String) (eps : List Endpoint) (rest : List (String × List Endpoint))
      (st : σ),
      (stage ((zoneId, eps) :: rest) st).calls = [Call.getZone zoneId] ∨
      (∃ st1, (stage ((zoneId, eps) :: rest) st).calls =
        Call.getZone zoneId :: (stage rest st1).calls) ∨
      (∃ zone, (stage ((zoneId, eps) :: rest) st).calls =
        [Call.getZone zoneId,
         Call.patchZone zoneId { Data := { ID := zoneId, Records := records zoneId zone eps } }]) ∨
      (∃ zone st2, (stage ((zoneId, eps) :: rest) st).calls =
        Call.getZone zoneId ::
          Call.patchZone zoneId { Data := { ID := zoneId, Records := records zoneId zone eps } }
            :: (stage rest st2).calls))
    (zs : List (String × List Endpoint)) :
    ∀ st : σ,
      (∀ (zoneId : String) (patch : ZoneRequest),
        Call.patchZone zoneId patch ∈ (stage zs st).calls →
        ∃ eps zone, (zoneId, eps) ∈ zs ∧
          patch = { Data := { ID := zoneId, Records := records zoneId zone eps } }) ∧
      (∀ zoneId : String,
        (stage zs st).calls.countP (Call.isPatchZoneFor zoneId) ≤
          zs.countP (fun entry => decide (entry.1 = zoneId))) := by
  induction zs with
  | nil =>
    intro st
    rw [hnil]
    simp
  | cons hd tl ih =>
    obtain ⟨z, eps⟩ := hd
    intro st
    rcases hcons z eps tl st with h | ⟨st1, h⟩ | ⟨zone, h⟩ | ⟨zone, st2, h⟩
    · rw [h]
      constructor
      · intro zoneId patch hmem
        simp at hmem
      · intro zoneId
        simp [List.countP_cons, Call.isPatchZoneFor]
    · rw [h]
      constructor
      · intro zoneId patch hmem
        simp only [List.mem_cons] at hmem
        rcases hmem with hmem | hmem
        · cases hmem
        · obtain ⟨eps1, zone1, h1, h2⟩ := (ih st1).1 zoneId patch hmem
          exact ⟨eps1, zone1, List.mem_cons_of_mem _ h1, h2⟩
      · intro zoneId
        have := (ih st1).2 zoneId
        simp only [List.countP_cons, Call.isPatchZoneFor]
        simp only [Bool.false_eq_true, if_false, Nat.add_zero]
        omega
    · rw [h]
      constructor
      · intro zoneId patch hmem
        simp only [List.mem_cons, List.mem_singleton] at hmem
        rcases hmem with hmem | hmem | hmem
        · cases hmem
        · cases hmem
          exact ⟨eps, zone, List.mem_cons_self _ _, rfl⟩
        · simp at hmem
      · intro zoneId
        by_cases hz : z = zoneId
        · simp [List.countP_cons, Call.isPatchZoneFor, hz]
        · simp [List.countP_cons, Call.isPatchZoneFor, hz]
    · rw [h]
      constructor
      · intro zoneId patch hmem
        simp only [List.mem_cons] at hmem
        rcases hmem with hmem | hmem | hmem
        · cases hmem
        · cases hmem
          exact ⟨eps, zone, List.mem_cons_self _ _, rfl⟩
        · obtain ⟨eps1, zone1, h1, h2⟩ := (ih st2).1 zoneId patch hmem
          exact ⟨eps1, zone1, List.mem_cons_of_mem _ h1, h2⟩
      · intro zoneId
        have := (ih st2).2 zoneId
        by_cases hz : z = zoneId
        · simp only [List.countP_cons, Call.isPatchZoneFor, hz, decide_True, if_true]
          simp only [Bool.false_eq_true, if_false, Nat.add_zero]
          omega
        · simp only [List.countP_cons, Call.isPatchZoneFor, hz, decide_False]
          simp only [Bool.false_eq_true, if_false, Nat.add_zero]
          omega

theorem processCreateActions_shape {σ : Type} (p : AbionProvider σ)
    (zoneId : String) (eps : List Endpoint) (rest : List (String × List Endpoint)) (st : σ) :
    (processCreateActions p ((zoneId, eps) :: rest) st).calls = [Call.getZone zoneId] ∨
    (∃ st1, (processCreateActions p ((zoneId, eps) :: rest) st).calls =
      Call.getZone zoneId :: (processCreateActions p rest st1).calls) ∨
    (∃ zone, (processCreateActions p ((zoneId, eps) :: rest) st).calls =
      [Call.getZone zoneId,
       Call.patchZone zoneId
        { Data := { ID := zoneId, Records := createRecords zoneId zone eps } }]) ∨
    (∃ zone st2, (processCreateActions p ((zoneId, eps) :: rest) st).calls =
      Call.getZone zoneId ::
        Call.patchZone zoneId
          { Data := { ID := zoneId, Records := createRecords zoneId zone eps } }
          :: (processCreateActions p rest st2).calls) := by
  rcases hf : p.Client.GetZone st zoneId with ⟨r, st1⟩
  cases r with
  | error err =>
    have hc : (processCreateActions p ((zoneId, eps) :: rest) st).calls = [Call.getZone zoneId] := by
      simp only [processCreateActions, hf]
    exact Or.inl hc
  | ok zone =>
    by_cases hd : p.DryRun = true
    · have hc : (processCreateActions p ((zoneId, eps) :: rest) st).calls =
          Call.getZone zoneId :: (processCreateActions p rest st1).calls := by
        simp only [processCreateActions, hf, hd, if_true]
      exact Or.inr (Or.inl ⟨st1, hc⟩)
    · simp only [processCreateActions, hf, hd]
      simp only [Bool.false_eq_true, if_false]
      split
      · simp only [submitPatchZone_calls]
        exact Or.inr (Or.inr (Or.inl ⟨zone, rfl⟩))
      · simp only [submitPatchZone_calls]
        exact Or.inr (Or.inr (Or.inr ⟨zone, _, rfl⟩))

theorem processCreateActions_patches {σ : Type} (p : AbionProvider σ)
    (zs : List (String × List Endpoint)) (st : σ) :
    (∀ (zoneId : String) (patch : ZoneRequest),
      Call.patchZone zoneId patch ∈ (processCreateActions p zs st).calls →
      ∃ eps zone, (zoneId, eps) ∈ zs ∧
        patch = { Data := { ID := zoneId, Records := createRecords zoneId zone eps } }) ∧
    (∀ zoneId : String,
      (processCreateActions p zs st).calls.countP (Call.isPatchZoneFor zoneId) ≤
        zs.countP (fun entry => decide (entry.1 = zoneId))) :=
  patches_of_shape (processCreateActions p)
    (fun zoneId zone eps => createRecords zoneId zone eps)
    (fun _ => by simp only [processCreateActions])
    (processCreateActions_shape p) zs st

theorem processUpdateActions_shape {σ : Type} (p : AbionProvider σ)
    (olds : List (String × List Endpoint))
    (zoneId : String) (eps : List Endpoint) (rest : List (String × List Endpoint)) (st : σ) :
    (processUpdateActions p olds ((zoneId, eps) :: rest) st).calls = [Call.getZone zoneId] ∨
    (∃ st1, (processUpdateActions p olds ((zoneId, eps) :: rest) st).calls =
      Call.getZone zoneId :: (processUpdateActions p olds rest st1).calls) ∨
    (∃ zone, (processUpdateActions p olds ((zoneId, eps) :: rest) st).calls =
      [Call.getZone zoneId,
       Call.patchZone zoneId
        { Data := { ID := zoneId, Records := updateRecords zoneId zone olds eps } }]) ∨
    (∃ zone st2, (processUpdateActions p olds ((zoneId, eps) :: rest) st).calls =
      Call.getZone zoneId ::
        Call.patchZone zoneId
          { Data := { ID := zoneId, Records := updateRecords zoneId zone olds eps } }
          :: (processUpdateActions p olds rest st2).calls) := by
  rcases hf : p.Client.GetZone st zoneId with ⟨r, st1⟩
  cases r with
  | error err =>
    have hc : (processUpdateActions p olds ((zoneId, eps) :: rest) st).calls =
        Call.getZone zoneId :: (processUpdateActions p olds rest st1).calls := by
      simp only [processUpdateActions, hf]
    exact Or.inr (Or.inl ⟨st1, hc⟩)
  | ok zone =>
    by_cases hd : p.DryRun = true
    · have hc : (processUpdateActions p olds ((zoneId, eps) :: rest) st).calls =
          Call.getZone zoneId :: (processUpdateActions p olds rest st1).calls := by
        simp only [processUpdateActions, hf, hd, if_true]
      exact Or.inr (Or.inl ⟨st1, hc⟩)
    · simp only [processUpdateActions, hf, hd]
      simp only [Bool.false_eq_true, if_false]
      split
      · simp only [submitPatchZone_calls]
        exact Or.inr (Or.inr (Or.inl ⟨zone, rfl⟩))
      · simp only [submitPatchZone_calls]
        exact Or.inr (Or.inr (Or.inr ⟨zone, _, rfl⟩))

theorem processUpdateActions_patches {σ : Type} (p : AbionProvider σ)
    (olds : List (String × List Endpoint))
    (zs : List (String × List Endpoint)) (st : σ) :
    (∀ (zoneId : String) (patch : ZoneRequest),
      Call.patchZone zoneId patch ∈ (processUpdateActions p olds zs st).calls →
      ∃ eps zone, (zoneId, eps) ∈ zs ∧
        patch = { Data := { ID := zoneId, Records := updateRecords zoneId zone olds eps } }) ∧
    (∀ zoneId : String,
      (processUpdateActions p olds zs st).calls.countP (Call.isPatchZoneFor zoneId) ≤
        zs.countP (fun entry => decide (entry.1 = zoneId))) :=
  patches_of_shape (processUpdateActions p olds)
    (fun zoneId zone eps => updateRecords zoneId zone olds eps)
    (fun _ => by simp only [processUpdateActions])
    (processUpdateActions_shape p olds) zs st

theorem processDeleteActions_shape {σ : Type} (p : AbionProvider σ)
    (zoneId : String) (eps : List Endpoint) (rest : List (String × List Endpoint)) (st : σ) :
    (processDeleteActions p ((zoneId, eps) :: rest) st).calls = [Call.getZone zoneId] ∨
    (∃ st1, (processDeleteActions p ((zoneId, eps) :: rest) st).calls =
      Call.getZone zoneId :: (processDeleteActions p rest st1).calls) ∨
    (∃ zone, (processDeleteActions p ((zoneId, eps) :: rest) st).calls =
      [Call.getZone zoneId,
       Call.patchZone zoneId
        { Data := { ID := zoneId, Records := deleteRecords zoneId zone eps } }]) ∨
    (∃ zone st2, (processDeleteActions p ((zoneId, eps) :: rest) st).calls =
      Call.getZone zoneId ::
        Call.patchZone zoneId
          { Data := { ID := zoneId, Records := deleteRecords zoneId zone eps } }
          :: (processDeleteActions p rest st2).calls) := by
  rcases hf : p.Client.GetZone st zoneId with ⟨r, st1⟩
  cases r with
  | error err =>
    have hc : (processDeleteActions p ((zoneId, eps) :: rest) st).calls =
        Call.getZone zoneId :: (processDeleteActions p rest st1).calls := by
      simp only [processDeleteActions, hf]
    exact Or.inr (Or.inl ⟨st1, hc⟩)
  | ok zone =>
    by_cases hd : p.DryRun = true
    · have hc : (processDeleteActions p ((zoneId, eps) :: rest) st).calls =
          Call.getZone zoneId :: (processDeleteActions p rest st1).calls := by
        simp only [processDeleteActions, hf, hd, if_true]
      exact Or.inr (Or.inl ⟨st1, hc⟩)
    · simp only [processDeleteActions, hf, hd]
      simp only [Bool.false_eq_true, if_false]
      split
      · simp only [submitPatchZone_calls]
        exact Or.inr (Or.inr (Or.inl ⟨zone, rfl⟩))
      · simp only [submitPatchZone_calls]
        exact Or.inr (Or.inr (Or.inr ⟨zone, _, rfl⟩))

theorem processDeleteActions_patches {σ : Type} (p : AbionProvider σ)
    (zs : List (String × List Endpoint)) (st : σ) :
    (∀ (zoneId : String) (patch : ZoneRequest),
      Call.patchZone zoneId patch ∈ (processDeleteActions p zs st).calls →
      ∃ eps zone, (zoneId, eps) ∈ zs ∧
        patch = { Data := { ID := zoneId, Records := deleteRecords zoneId zone eps } }) ∧
    (∀ zoneId : String,
      (processDeleteActions p zs st).calls.countP (Call.isPatchZoneFor zoneId) ≤
        zs.countP (fun entry => decide (entry.1 = zoneId))) :=
  patches_of_shape (processDeleteActions p)
    (fun zoneId zone eps => deleteRecords zoneId zone eps)
    (fun _ => by simp only [processDeleteActions])
    (processDeleteActions_shape p) zs st

theorem countP_key_le_one {V : Type} (m : List (String × V)) (k : String)
    (hnd : (m.map (fun entry => entry.1)).Nodup) :
    m.countP (fun entry => decide (entry.1 = k)) ≤ 1 := by
  induction m with
  | nil => simp
  | cons hd tl ih =>
    obtain ⟨k0, v0⟩ := hd
    simp only [List.map_cons, List.nodup_cons] at hnd
    by_cases hk : k0 = k
    · have h0 : tl.countP (fun entry => decide (entry.1 = k)) = 0 := by
        rw [List.countP_eq_zero]
        intro entry he
        simp only [decide_eq_true_eq]
        intro hek
        apply hnd.1
        rw [hk, ← hek]
        exact List.mem_map.mpr ⟨entry, he, rfl⟩
      simp [List.countP_cons, hk, h0]
    · have := ih hnd.2
      simp only [List.countP_cons, hk, decide_False]
      simp only [Bool.false_eq_true, if_false, Nat.add_zero]
      exact this

theorem endpointsByZone_bucket (zoneNameIDMapper : ZoneIDName) (endpoints : List Endpoint)
    (zoneId : String) (eps : List Endpoint)
    (h : (zoneId, eps) ∈ endpointsByZone zoneNameIDMapper endpoints) :
    zoneId ≠ "" ∧ eps ≠ [] ∧
      eps = endpoints.filter (fun ep =>
        decide ((zoneNameIDMapper.FindZone ep.DNSName).1 = zoneId)) := by
  have hinv := bucket_fold_inv (fun ep => (zoneNameIDMapper.FindZone ep.DNSName).1) endpoints []
    ⟨by simp, by simp⟩
  have hget := bucket_fold_get (fun ep => (zoneNameIDMapper.FindZone ep.DNSName).1) endpoints []
    zoneId
  obtain ⟨h1, h2, _⟩ := hinv.2 (zoneId, eps) h
  have hm : mapGet (endpointsByZone zoneNameIDMapper endpoints) zoneId = some eps :=
    mapGet_of_mem_nodup _ _ _ hinv.1 h
  refine ⟨h2, h1, ?_⟩
  have hm1 : mapGet (endpoints.foldl (fun acc ep =>
      if (zoneNameIDMapper.FindZone ep.DNSName).1 = "" then acc
      else mapSet acc (zoneNameIDMapper.FindZone ep.DNSName).1
        ((mapGet acc (zoneNameIDMapper.FindZone ep.DNSName).1).getD [] ++ [ep])) []) zoneId
      = some eps := hm
  have h2a : ¬ zoneId = "" := h2
  rw [hm1] at hget
  simpa [mapGet, h2a] using hget

theorem endpointsByZone_keys_nodup (zoneNameIDMapper : ZoneIDName) (endpoints : List Endpoint) :
    ((endpointsByZone zoneNameIDMapper endpoints).map (fun entry => entry.1)).Nodup :=
  (bucket_fold_inv (fun ep => (zoneNameIDMapper.FindZone ep.DNSName).1) endpoints []
    ⟨by simp, by simp⟩).1

theorem patchScope_of_patches (zoneNameIDMapper : ZoneIDName) (endpoints : List Endpoint)
    (visit : List (String × List Endpoint) → List (String × List Endpoint))
    (hvisit : ∀ m, (visit m).Perm m)
    (records : String → Zone → List Endpoint → RecordsMap)
    (hkeys : ∀ (zoneId : String) (zone : Zone) (eps : List Endpoint) (n t : String),
      (recordsGet (records zoneId zone eps) n t).isSome = true ↔
        ∃ e ∈ eps, getAbionDnsName e.DNSName zoneId = n ∧ e.RecordType = t)
    (calls : List Call)
    (h1 : ∀ (zoneId : String) (patch : ZoneRequest), Call.patchZone zoneId patch ∈ calls →
      ∃ eps zone, (zoneId, eps) ∈ visit (endpointsByZone zoneNameIDMapper endpoints) ∧
        patch = { Data := { ID := zoneId, Records := records zoneId zone eps } })
    (h2 : ∀ zoneId : String, calls.countP (Call.isPatchZoneFor zoneId) ≤
      (visit (endpointsByZone zoneNameIDMapper endpoints)).countP
        (fun entry => decide (entry.1 = zoneId))) :
    PatchScope zoneNameIDMapper endpoints calls := by
  constructor
  · intro zoneId patch hmem
    obtain ⟨eps, zone, hin, hpatch⟩ := h1 zoneId patch hmem
    have hin1 := (hvisit _).mem_iff.mp hin
    obtain ⟨hne, hnil, hfilter⟩ := endpointsByZone_bucket _ _ _ _ hin1
    refine ⟨by rw [hpatch], hne, ?_, ?_⟩
    · cases heps : eps with
      | nil => exact absurd heps hnil
      | cons e tl =>
        have he : e ∈ eps := by rw [heps]; exact List.mem_cons_self _ _
        rw [hfilter, List.mem_filter] at he
        exact ⟨e, he.1, by simpa using he.2⟩
    · intro dnsName recordType
      rw [hpatch]
      simp only
      rw [hkeys, hfilter]
      constructor
      · rintro ⟨e, he, h3, h4⟩
        rw [List.mem_filter] at he
        exact ⟨e, he.1, by simpa using he.2, h3, h4⟩
      · rintro ⟨e, he, h3, h4, h5⟩
        exact ⟨e, List.mem_filter.mpr ⟨he, by simpa using h3⟩, h4, h5⟩
  · intro zoneId
    refine le_trans (h2 zoneId) ?_
    rw [(hvisit _).countP_eq]
    exact countP_key_le_one _ _ (endpointsByZone_keys_nodup _ _)

theorem processCreateActions_patchesFetchedZones {σ : Type} (p : AbionProvider σ)
    (hdry : p.DryRun = false) (zs : List (String × List Endpoint)) (st : σ) :
    PatchesFetchedZones p (processCreateActions p) zs st := by
  intro before after zoneId eps zone st1 hzs hbefore hfetch
  obtain ⟨rest, hrest⟩ := processCreateActions_head p zoneId eps after _ st1 zone hdry hfetch
  refine ⟨{ Data := { ID := zoneId, Records := createRecords zoneId zone eps } }, ?_⟩
  rw [hzs, processCreateActions_append p before _ st hbefore]
  simp only [hrest]
  simp

theorem processUpdateActions_patchesFetchedZones {σ : Type} (p : AbionProvider σ)
    (olds : List (String × List Endpoint))
    (hdry : p.DryRun = false) (zs : List (String × List Endpoint)) (st : σ) :
    PatchesFetchedZones p (processUpdateActions p olds) zs st := by
  intro before after zoneId eps zone st1 hzs hbefore hfetch
  obtain ⟨rest, hrest⟩ := processUpdateActions_head p olds zoneId eps after _ st1 zone hdry hfetch
  refine ⟨{ Data := { ID := zoneId, Records := updateRecords zoneId zone olds eps } }, ?_⟩
  rw [hzs, processUpdateActions_append p olds before _ st hbefore]
  simp only [hrest]
  simp

theorem processDeleteActions_patchesFetchedZones {σ : Type} (p : AbionProvider σ)
    (hdry : p.DryRun = false) (zs : List (String × List Endpoint)) (st : σ) :
    PatchesFetchedZones p (processDeleteActions p) zs st := by
  intro before after zoneId eps zone st1 hzs hbefore hfetch
  obtain ⟨rest, hrest⟩ := processDeleteActions_head p zoneId eps after _ st1 zone hdry hfetch
  refine ⟨{ Data := { ID := zoneId, Records := deleteRecords zoneId zone eps } }, ?_⟩
  rw [hzs, processDeleteActions_append p before _ st hbefore]
  simp only [hrest]
  simp

theorem bucket_fold_filter (res : Endpoint → String) (eps : List Endpoint) :
    ∀ m : List (String × List Endpoint),
      (eps.filter (fun ep => decide (res ep ≠ ""))).foldl (fun acc ep =>
          if res ep = "" then acc
          else mapSet acc (res ep) ((mapGet acc (res ep)).getD [] ++ [ep])) m =
        eps.foldl (fun acc ep =>
          if res ep = "" then acc
          else mapSet acc (res ep) ((mapGet acc (res ep)).getD [] ++ [ep])) m := by
  induction eps with
  | nil => intro m; rfl
  | cons hd tl ih =>
    intro m
    by_cases h0 : res hd = ""
    · simp only [List.filter_cons, h0, ne_eq, not_true_eq_false, decide_False,
        Bool.false_eq_true, if_false, List.foldl_cons, if_true]
      exact ih m
    · simp only [List.filter_cons, h0, ne_eq, not_false_eq_true, decide_True, if_true,
        List.foldl_cons, if_false]
      exact ih _

theorem endpointsByZone_filter (zoneNameIDMapper : ZoneIDName) (endpoints : List Endpoint) :
    endpointsByZone zoneNameIDMapper (endpoints.filter (fun ep =>
        decide ((zoneNameIDMapper.FindZone ep.DNSName).1 ≠ ""))) =
      endpointsByZone zoneNameIDMapper endpoints :=
  bucket_fold_filter (fun ep => (zoneNameIDMapper.FindZone ep.DNSName).1) endpoints []

theorem ApplyChanges_resolvable {σ : Type} (p : AbionProvider σ)
    (visit : List (String × List Endpoint) → List (String × List Endpoint))
    (fuel : Nat) (changes : Changes) (st st1 : σ) (zoneNameIDMapper : ZoneIDName)
    (calls : List Call)
    (hpop : populateZoneIdMapper p fuel st = some (Except.ok zoneNameIDMapper, st1, calls)) :
    ApplyChanges p visit fuel (changes.resolvable zoneNameIDMapper) st =
      ApplyChanges p visit fuel changes st := by
  simp only [ApplyChanges, hpop, Changes.resolvable, endpointsByZone_filter]

theorem ApplyChanges_calls {σ : Type} (p : AbionProvider σ)
    (visit : List (String × List Endpoint) → List (String × List Endpoint))
    (fuel : Nat) (changes : Changes) (st st1 : σ) (zoneNameIDMapper : ZoneIDName)
    (calls : List Call)
    (hpop : populateZoneIdMapper p fuel st = some (Except.ok zoneNameIDMapper, st1, calls)) :
    ∃ o, ApplyChanges p visit fuel changes st = some o ∧
      o.calls = calls ++
        ((processCreateActions p (visit (endpointsByZone zoneNameIDMapper changes.Create))
            st1).calls ++
          if (processCreateActions p (visit (endpointsByZone zoneNameIDMapper changes.Create))
            st1).err = none then
            (processUpdateActions p (endpointsByZone zoneNameIDMapper changes.UpdateOld)
              (visit (endpointsByZone zoneNameIDMapper changes.UpdateNew))
              (processCreateActions p (visit (endpointsByZone zoneNameIDMapper changes.Create))
                st1).st).calls ++
            if (processUpdateActions p (endpointsByZone zoneNameIDMapper changes.UpdateOld)
              (visit (endpointsByZone zoneNameIDMapper changes.UpdateNew))
              (processCreateActions p (visit (endpointsByZone zoneNameIDMapper changes.Create))
                st1).st).err = none then
              (processDeleteActions p (visit (endpointsByZone zoneNameIDMapper changes.Delete))
                (processUpdateActions p (endpointsByZone zoneNameIDMapper changes.UpdateOld)
                  (visit (endpointsByZone zoneNameIDMapper changes.UpdateNew))
                  (processCreateActions p
                    (visit (endpointsByZone zoneNameIDMapper changes.Create)) st1).st).st).calls
            else []
          else []) := by
  simp only [ApplyChanges, hpop]
  cases hce : (processCreateActions p (visit (endpointsByZone zoneNameIDMapper changes.Create))
    st1).err with
  | some e => exact ⟨_, rfl, by simp⟩
  | none =>
    simp only
    cases hue : (processUpdateActions p (endpointsByZone zoneNameIDMapper changes.UpdateOld)
      (visit (endpointsByZone zoneNameIDMapper changes.UpdateNew))
      (processCreateActions p (visit (endpointsByZone zoneNameIDMapper changes.Create))
        st1).st).err with
    | some e => exact ⟨_, rfl, by simp⟩
    | none => exact ⟨_, rfl, by simp⟩

/-- C21, as stated, fails: with `DryRun` on, the create endpoint `www.abion.test` resolves to
the listed zone `abion.test`, the fetch of that zone succeeds, and the pass ends without error
after the fetch, with no `PatchZone` call: the group `("abion.test", "www", "A")` of the
endpoint is submitted nowhere. -/
theorem dry_run_submits_no_group_of_a_fetched_zone :
    (dryRunProvider ["abion.test"] { ID := "abion.test", Records := [] }).DryRun = true ∧
    populateZoneIdMapper (dryRunProvider ["abion.test"] { ID := "abion.test", Records := [] })
        1 () =
      some (Except.ok [("abion.test", "abion.test")], (), [Call.getZones 0]) ∧
    (ZoneIDName.FindZone [("abion.test", "abion.test")]
        (endpointOf "www.abion.test" "A" ["172.16.0.1"]).DNSName).1 = "abion.test" ∧
    (dryRunProvider ["abion.test"] { ID := "abion.test", Records := [] }).Client.GetZone ()
        "abion.test" = (Except.ok { ID := "abion.test", Records := [] }, ()) ∧
    (ApplyChanges (dryRunProvider ["abion.test"] { ID := "abion.test", Records := [] }) id 1
        { Create := [endpointOf "www.abion.test" "A" ["172.16.0.1"]],
          UpdateNew := [], UpdateOld := [], Delete := [] } ()).map
        (fun o => (o.err, o.calls)) =
      some (none, [Call.getZones 0, Call.getZone "abion.test"]) :=
  ⟨rfl, rfl, by decide, rfl, by decide⟩

/-- C21, amended: patch scope.  Let the resolver be built (`populateZoneIdMapper` returns it)
and let each stage visit the entries of its map in any order (`visit` permutes them).  Then
`ApplyChanges` returns, its calls being those of `populateZoneIdMapper` followed by those of
the create stage `c`, of the update stage `u` when `c` returned no error, and of the delete
stage `d` when `u` returned none either.  In each stage, with `DryRun` on or off, every
`PatchZone` call is for a zone to which an endpoint of the stage (create, update-new, delete)
resolves, the keys of its request are exactly the groups
`(getAbionDnsName(dnsName, zone), recordType)` of the stage's endpoints that resolve to that
zone, and no zone is patched twice.  With `DryRun` off, every zone that a stage reaches and
fetches is patched, so the keys submitted in a stage are exactly the groups of its endpoints
that resolve to a fetched zone; with `DryRun` on, no stage submits anything.  The pass made
for the changeset without the endpoints that resolve to no zone is the same pass: same error,
same calls, same store. -/
theorem patch_scope {σ : Type} (p : AbionProvider σ)
    (visit : List (String × List Endpoint) → List (String × List Endpoint))
    (hvisit : ∀ m, (visit m).Perm m)
    (fuel : Nat) (changes : Changes) (st st1 : σ) (zoneNameIDMapper : ZoneIDName)
    (calls : List Call)
    (hpop : populateZoneIdMapper p fuel st = some (Except.ok zoneNameIDMapper, st1, calls))
    (c u d : Outcome σ)
    (hc : c = processCreateActions p (visit (endpointsByZone zoneNameIDMapper changes.Create))
      st1)
    (hu : u = processUpdateActions p (endpointsByZone zoneNameIDMapper changes.UpdateOld)
      (visit (endpointsByZone zoneNameIDMapper changes.UpdateNew)) c.st)
    (hd : d = processDeleteActions p (visit (endpointsByZone zoneNameIDMapper changes.Delete))
      u.st) :
    (∃ o, ApplyChanges p visit fuel changes st = some o ∧
      o.calls = calls ++
        (c.calls ++ if c.err = none then u.calls ++ (if u.err = none then d.calls else [])
          else [])) ∧
    PatchScope zoneNameIDMapper changes.Create c.calls ∧
    PatchScope zoneNameIDMapper changes.UpdateNew u.calls ∧
    PatchScope zoneNameIDMapper changes.Delete d.calls ∧
    (p.DryRun = false →
      PatchesFetchedZones p (processCreateActions p)
        (visit (endpointsByZone zoneNameIDMapper changes.Create)) st1 ∧
      PatchesFetchedZones p
        (processUpdateActions p (endpointsByZone zoneNameIDMapper changes.UpdateOld))
        (visit (endpointsByZone zoneNameIDMapper changes.UpdateNew)) c.st ∧
      PatchesFetchedZones p (processDeleteActions p)
        (visit (endpointsByZone zoneNameIDMapper changes.Delete)) u.st) ∧
    (p.DryRun = true →
      c.calls.countP Call.isPatchZone = 0 ∧ u.calls.countP Call.isPatchZone = 0 ∧
        d.calls.countP Call.isPatchZone = 0) ∧
    ApplyChanges p visit fuel (changes.resolvable zoneNameIDMapper) st =
      ApplyChanges p visit fuel changes st := by
  subst hd
  subst hu
  subst hc
  refine ⟨ApplyChanges_calls p visit fuel changes st st1 zoneNameIDMapper calls hpop,
    ?_, ?_, ?_, ?_, ?_,
    ApplyChanges_resolvable p visit fuel changes st st1 zoneNameIDMapper calls hpop⟩
  · exact patchScope_of_patches zoneNameIDMapper changes.Create visit hvisit
      (fun zoneId zone eps => createRecords zoneId zone eps)
      (fun zoneId zone eps n t => isSome_createRecords zoneId zone eps n t) _
      (processCreateActions_patches p _ _).1 (processCreateActions_patches p _ _).2
  · exact patchScope_of_patches zoneNameIDMapper changes.UpdateNew visit hvisit
      (fun zoneId zone eps =>
        updateRecords zoneId zone (endpointsByZone zoneNameIDMapper changes.UpdateOld) eps)
      (fun zoneId zone eps n t => isSome_updateRecords zoneId zone _ eps n t) _
      (processUpdateActions_patches p _ _ _).1 (processUpdateActions_patches p _ _ _).2
  · exact patchScope_of_patches zoneNameIDMapper changes.Delete visit hvisit
      (fun zoneId zone eps => deleteRecords zoneId zone eps)
      (fun zoneId zone eps n t => isSome_deleteRecords zoneId zone eps n t) _
      (processDeleteActions_patches p _ _).1 (processDeleteActions_patches p _ _).2
  · intro hdry
    exact ⟨processCreateActions_patchesFetchedZones p hdry _ _,
      processUpdateActions_patchesFetchedZones p _ hdry _ _,
      processDeleteActions_patchesFetchedZones p hdry _ _⟩
  · intro hdry
    exact ⟨processCreateActions_dry_run p hdry _ _, processUpdateActions_dry_run p hdry _ _ _,
      processDeleteActions_dry_run p hdry _ _⟩

theorem patch_scope_witness :
    (∀ m : List (String × List Endpoint), (id m).Perm m) ∧
    populateZoneIdMapper
        (mockProvider ["abion.test"]
          { ID := "abion.test", Records := [("@", [("A", [⟨"172.16.0.0", 3600⟩])])] }) 1 () =
      some (Except.ok [("abion.test", "abion.test")], (), [Call.getZones 0]) ∧
    (ApplyChanges
        (mockProvider ["abion.test"]
          { ID := "abion.test", Records := [("@", [("A", [⟨"172.16.0.0", 3600⟩])])] }) id 1
        { Create := [endpointOf "www.abion.test" "A" ["172.16.0.1"],
                     endpointOf "www.other.example" "A" ["172.16.0.9"]],
          UpdateNew := [], UpdateOld := [],
          Delete := [endpointOf "abion.test" "A" ["172.16.0.0"]] } ()).map
        (fun o => (o.err, o.calls)) =
      some (none,
        [Call.getZones 0,
         Call.getZone "abion.test",
         Call.patchZone "abion.test"
          { Data := { ID := "abion.test",
                      Records := [("www", [("A", [⟨"172.16.0.1", 0⟩])])] } },
         Call.getZone "abion.test",
         Call.patchZone "abion.test"
          { Data := { ID := "abion.test", Records := [("@", [("A", [])])] } }]) ∧
    PatchScope [("abion.test", "abion.test")]
      [endpointOf "www.abion.test" "A" ["172.16.0.1"],
       endpointOf "www.other.example" "A" ["172.16.0.9"]]
      (processCreateActions
        (mockProvider ["abion.test"]
          { ID := "abion.test", Records := [("@", [("A", [⟨"172.16.0.0", 3600⟩])])] })
        (id (endpointsByZone [("abion.test", "abion.test")]
          [endpointOf "www.abion.test" "A" ["172.16.0.1"],
           endpointOf "www.other.example" "A" ["172.16.0.9"]])) ()).calls :=
  ⟨fun m => List.Perm.refl m, rfl, by decide,
    (patch_scope
      (mockProvider ["abion.test"]
        { ID := "abion.test", Records := [("@", [("A", [⟨"172.16.0.0", 3600⟩])])] })
      id (fun m => List.Perm.refl m) 1
      { Create := [endpointOf "www.abion.test" "A" ["172.16.0.1"],
                   endpointOf "www.other.example" "A" ["172.16.0.9"]],
        UpdateNew := [], UpdateOld := [],
        Delete := [endpointOf "abion.test" "A" ["172.16.0.0"]] }
      () () [("abion.test", "abion.test")] [Call.getZones 0] rfl _ _ _ rfl rfl rfl).2.1⟩

/-! ## Two passes over the in-memory store -/

theorem mapGet_mapSet_ne_none {V : Type} (m : List (String × V)) (k k1 : String) (v : V)
    (h : mapGet m k1 ≠ none) : mapGet (mapSet m k v) k1 ≠ none := by
  by_cases hk : k = k1
  · rw [hk, mapGet_mapSet_same]
    simp
  · rw [mapGet_mapSet_ne _ _ _ _ hk]
    exact h

theorem keys_mapSet_of_mapGet {V : Type} (m : List (String × V)) (k : String) (v r : V)
    (h : mapGet m k = some r) :
    (mapSet m k v).map (fun entry => entry.1) = m.map (fun entry => entry.1) := by
  rw [keys_mapSet]
  have hk : k ∈ m.map (fun entry => entry.1) := by
    by_contra hk
    rw [(mapGet_eq_none_iff m k).mpr hk] at h
    simp at h
  simp [hk]

theorem mapGet_perm {V : Type} (l1 l2 : List (String × V)) (k : String)
    (hperm : l1.Perm l2) (hnd : (l2.map (fun entry => entry.1)).Nodup) :
    mapGet l1 k = mapGet l2 k := by
  have hnd1 : (l1.map (fun entry => entry.1)).Nodup :=
    (hperm.map (fun entry => entry.1)).nodup_iff.mpr hnd
  cases h2 : mapGet l2 k with
  | none =>
    rw [mapGet_eq_none_iff] at h2 ⊢
    intro h1
    exact h2 ((hperm.map (fun entry => entry.1)).mem_iff.mp h1)
  | some v =>
    exact mapGet_of_mem_nodup l1 k v hnd1 (hperm.mem_iff.mpr (mem_of_mapGet_eq_some _ _ _ h2))

theorem stage_on_store (stage : List (String × List Endpoint) → List (String × RecordsMap) →
      Outcome (List (String × RecordsMap)))
    (records : String → Zone → List Endpoint → RecordsMap)
    (hnil : ∀ st, (stage [] st).err = none ∧ (stage [] st).st = st)
    (hcons : ∀ (zoneId : String) (eps : List Endpoint) (rest : List (String × List Endpoint))
      (st : List (String × RecordsMap)) (r : RecordsMap), mapGet st zoneId = some r →
      (stage ((zoneId, eps) :: rest) st).err =
        (stage rest (mapSet st zoneId
          (applyPatch r (records zoneId { ID := zoneId, Records := r } eps)))).err ∧
      (stage ((zoneId, eps) :: rest) st).st =
        (stage rest (mapSet st zoneId
          (applyPatch r (records zoneId { ID := zoneId, Records := r } eps)))).st)
    (zs : List (String × List Endpoint)) :
    ∀ st : List (String × RecordsMap),
      (zs.map (fun entry => entry.1)).Nodup →
      (∀ entry ∈ zs, mapGet st entry.1 ≠ none) →
      (stage zs st).err = none ∧
      (stage zs st).st.map (fun entry => entry.1) = st.map (fun entry => entry.1) ∧
      ∀ z : String, mapGet (stage zs st).st z =
        match mapGet st z with
        | none => none
        | some r =>
          match mapGet zs z with
          | some eps => some (applyPatch r (records z { ID := z, Records := r } eps))
          | none => some r := by
  induction zs with
  | nil =>
    intro st _ _
    refine ⟨(hnil st).1, by rw [(hnil st).2], ?_⟩
    intro z
    rw [(hnil st).2]
    cases mapGet st z <;> simp [mapGet]
  | cons hd tl ih =>
    obtain ⟨z0, eps0⟩ := hd
    intro st hnd hkeys
    simp only [List.map_cons, List.nodup_cons] at hnd
    cases hr : mapGet st z0 with
    | none => exact absurd hr (hkeys (z0, eps0) (List.mem_cons_self _ _))
    | some r =>
      obtain ⟨he, hs⟩ := hcons z0 eps0 tl st r hr
      have hkeys1 : ∀ entry ∈ tl, mapGet (mapSet st z0
          (applyPatch r (records z0 { ID := z0, Records := r } eps0))) entry.1 ≠ none :=
        fun entry hent => mapGet_mapSet_ne_none _ _ _ _
          (hkeys entry (List.mem_cons_of_mem _ hent))
      obtain ⟨h1, h2, h3⟩ := ih _ hnd.2 hkeys1
      refine ⟨he.trans h1, ?_, ?_⟩
      · rw [hs, h2]
        exact keys_mapSet_of_mapGet _ _ _ _ hr
      · intro z
        rw [hs, h3]
        by_cases hz : z0 = z
        · subst hz
          have htl : mapGet tl z0 = none := (mapGet_eq_none_iff tl z0).mpr hnd.1
          simp [mapGet_mapSet_same, hr, htl, mapGet]
        · rw [mapGet_mapSet_ne _ _ _ _ hz]
          cases mapGet st z <;> simp [mapGet, hz]

theorem processCreateActions_on_store (zs : List (String × List Endpoint))
    (st : List (String × RecordsMap))
    (hnd : (zs.map (fun entry => entry.1)).Nodup)
    (hkeys : ∀ entry ∈ zs, mapGet st entry.1 ≠ none) :
    (processCreateActions storeProvider zs st).err = none ∧
    (processCreateActions storeProvider zs st).st.map (fun entry => entry.1) =
      st.map (fun entry => entry.1) ∧
    ∀ z : String, mapGet (processCreateActions storeProvider zs st).st z =
      match mapGet st z with
      | none => none
      | some r =>
        match mapGet zs z with
        | some eps => some (applyPatch r (createRecords z { ID := z, Records := r } eps))
        | none => some r :=
  stage_on_store (processCreateActions storeProvider)
    (fun zoneId zone eps => createRecords zoneId zone eps)
    (fun st => by simp [processCreateActions])
    (fun zoneId eps rest st r h => by
      simp [processCreateActions, storeProvider, storeClient, submitPatchZone, h])
    zs st hnd hkeys

theorem processUpdateActions_on_store (olds zs : List (String × List Endpoint))
    (st : List (String × RecordsMap))
    (hnd : (zs.map (fun entry => entry.1)).Nodup)
    (hkeys : ∀ entry ∈ zs, mapGet st entry.1 ≠ none) :
    (processUpdateActions storeProvider olds zs st).err = none ∧
    (processUpdateActions storeProvider olds zs st).st.map (fun entry => entry.1) =
      st.map (fun entry => entry.1) ∧
    ∀ z : String, mapGet (processUpdateActions storeProvider olds zs st).st z =
      match mapGet st z with
      | none => none
      | some r =>
        match mapGet zs z with
        | some eps => some (applyPatch r (updateRecords z { ID := z, Records := r } olds eps))
        | none => some r :=
  stage_on_store (processUpdateActions storeProvider olds)
    (fun zoneId zone eps => updateRecords zoneId zone olds eps)
    (fun st => by simp [processUpdateActions])
    (fun zoneId eps rest st r h => by
      simp [processUpdateActions, storeProvider, storeClient, submitPatchZone, h])
    zs st hnd hkeys

theorem processDeleteActions_on_store (zs : List (String × List Endpoint))
    (st : List (String × RecordsMap))
    (hnd : (zs.map (fun entry => entry.1)).Nodup)
    (hkeys : ∀ entry ∈ zs, mapGet st entry.1 ≠ none) :
    (processDeleteActions storeProvider zs st).err = none ∧
    (processDeleteActions storeProvider zs st).st.map (fun entry => entry.1) =
      st.map (fun entry => entry.1) ∧
    ∀ z : String, mapGet (processDeleteActions storeProvider zs st).st z =
      match mapGet st z with
      | none => none
      | some r =>
        match mapGet zs z with
        | some eps => some (applyPatch r (deleteRecords z { ID := z, Records := r } eps))
        | none => some r :=
  stage_on_store (processDeleteActions storeProvider)
    (fun zoneId zone eps => deleteRecords zoneId zone eps)
    (fun st => by simp [processDeleteActions])
    (fun zoneId eps rest st r h => by
      simp [processDeleteActions, storeProvider, storeClient, submitPatchZone, h])
    zs st hnd hkeys

theorem nodup_keys_recordsSet (records : RecordsMap) (n t : String) (data : List Record)
    (h : (records.map (fun entry => entry.1)).Nodup) :
    ((recordsSet records n t data).map (fun entry => entry.1)).Nodup := by
  unfold recordsSet
  split <;> exact nodup_keys_mapSet _ _ _ h

theorem nodup_keys_foldl_recordsSet (key1 key2 : Endpoint → String)
    (val : Endpoint → List Record) (eps : List Endpoint) :
    ∀ records : RecordsMap, (records.map (fun entry => entry.1)).Nodup →
      ((eps.foldl (fun r e => recordsSet r (key1 e) (key2 e) (val e)) records).map
        (fun entry => entry.1)).Nodup := by
  induction eps with
  | nil => intro records h; exact h
  | cons hd tl ih =>
    intro records h
    rw [List.foldl_cons]
    exact ih _ (nodup_keys_recordsSet _ _ _ _ h)

theorem nodup_keys_foldl_deleteStep (zoneId : String) (eps : List Endpoint) :
    ∀ state : RecordsMap × RecordsMap, (state.1.map (fun entry => entry.1)).Nodup →
      ((eps.foldl (deleteStep zoneId) state).1.map (fun entry => entry.1)).Nodup := by
  induction eps with
  | nil => intro state h; exact h
  | cons hd tl ih =>
    intro state h
    rw [List.foldl_cons]
    apply ih
    obtain ⟨data, hdata⟩ := deleteStep_fst zoneId state hd
    rw [hdata]
    exact nodup_keys_recordsSet _ _ _ _ h

theorem recordsGet_applyPatch_of_none (zoneRecords patch : RecordsMap) (n t : String)
    (hnd : (patch.map (fun entry => entry.1)).Nodup) (h : recordsGet patch n t = none) :
    recordsGet (applyPatch zoneRecords patch) n t = recordsGet zoneRecords n t := by
  induction patch with
  | nil => rfl
  | cons hd tl ih =>
    obtain ⟨name, byType⟩ := hd
    simp only [List.map_cons, List.nodup_cons] at hnd
    unfold applyPatch
    rw [List.foldr_cons, recordsGet_foldr_recordsSet]
    by_cases hn : name = n
    · have h2 : mapGet byType t = none := by
        simpa [recordsGet, mapGet, hn] using h
      have h3 : recordsGet tl n t = none := by
        have : mapGet tl n = none := by
          rw [mapGet_eq_none_iff, ← hn]
          exact hnd.1
        simp [recordsGet, this]
      simp only [hn, if_true, h2]
      exact ih hnd.2 h3
    · have h3 : recordsGet tl n t = none := by
        simpa [recordsGet, mapGet, hn] using h
      simp only [hn, if_false]
      exact ih hnd.2 h3

theorem recordsGet_foldl_recordsSet (key1 key2 : Endpoint → String)
    (val : Endpoint → List Record) (n t : String) (records : RecordsMap)
    (eps : List Endpoint) :
    recordsGet (eps.foldl (fun r e => recordsSet r (key1 e) (key2 e) (val e)) records) n t =
      match (eps.filter (fun e => decide (key1 e = n ∧ key2 e = t))).getLast? with
      | some e => some (val e)
      | none => recordsGet records n t := by
  induction eps using List.reverseRecOn with
  | nil => rfl
  | append_singleton l a ih =>
    rw [List.foldl_append, List.filter_append]
    simp only [List.foldl_cons, List.foldl_nil]
    by_cases ha : key1 a = n ∧ key2 a = t
    · have hf : [a].filter (fun e => decide (key1 e = n ∧ key2 e = t)) = [a] := by
        simp [List.filter_cons, ha]
      rw [hf, List.getLast?_concat, ha.1, ha.2]
      exact recordsGet_recordsSet_same _ _ _ _
    · have hf : [a].filter (fun e => decide (key1 e = n ∧ key2 e = t)) = [] := by
        simp [List.filter_cons, ha]
      rw [hf, List.append_nil, recordsGet_recordsSet_ne _ _ _ _ _ _ ha]
      exact ih

theorem lastAddressed_eq_none (zoneId n t : String) (eps : List Endpoint)
    (h : lastAddressed zoneId n t eps = none) :
    ∀ e ∈ eps, ¬ (getAbionDnsName e.DNSName zoneId = n ∧ e.RecordType = t) := by
  intro e he hade
  unfold lastAddressed at h
  rw [List.getLast?_eq_none_iff] at h
  have : e ∈ eps.filter (fun e =>
      decide (getAbionDnsName e.DNSName zoneId = n ∧ e.RecordType = t)) :=
    List.mem_filter.mpr ⟨he, by simpa using hade⟩
  rw [h] at this
  simp at this

theorem lastAddressed_eq_some (zoneId n t : String) (eps : List Endpoint) (e : Endpoint)
    (h : lastAddressed zoneId n t eps = some e) :
    e ∈ eps ∧ getAbionDnsName e.DNSName zoneId = n ∧ e.RecordType = t := by
  unfold lastAddressed at h
  have hm := List.mem_of_getLast?_eq_some h
  rw [List.mem_filter] at hm
  exact ⟨hm.1, by simpa using hm.2⟩

theorem createGroup_spec (zoneId : String) (r : RecordsMap) (eps : List Endpoint)
    (n t : String) :
    recordsGet (applyPatch r (createRecords zoneId { ID := zoneId, Records := r } eps)) n t =
      createGroup (lastAddressed zoneId n t eps) (recordsGet r n t) := by
  have hpatch := recordsGet_foldl_recordsSet (fun e => getAbionDnsName e.DNSName zoneId)
    (fun e => e.RecordType) (createData { ID := zoneId, Records := r } zoneId) n t [] eps
  have hnd := nodup_keys_foldl_recordsSet (fun e => getAbionDnsName e.DNSName zoneId)
    (fun e => e.RecordType) (createData { ID := zoneId, Records := r } zoneId) eps []
    (by simp)
  cases hl : lastAddressed zoneId n t eps with
  | none =>
    have hl1 : (eps.filter (fun e =>
        decide (getAbionDnsName e.DNSName zoneId = n ∧ e.RecordType = t))).getLast? = none := hl
    rw [hl1] at hpatch
    rw [createGroup]
    exact recordsGet_applyPatch_of_none r _ n t hnd hpatch
  | some e =>
    have hl1 : (eps.filter (fun e =>
        decide (getAbionDnsName e.DNSName zoneId = n ∧ e.RecordType = t))).getLast? =
        some e := hl
    rw [hl1] at hpatch
    obtain ⟨_, hn, ht⟩ := lastAddressed_eq_some zoneId n t eps e hl
    have hp : recordsGet (createRecords zoneId { ID := zoneId, Records := r } eps) n t =
        some (createData { ID := zoneId, Records := r } zoneId e) := hpatch
    rw [createGroup, recordsGet_applyPatch r _ n t _ hp, createData_eq]
    simp only [hn, ht]

theorem updateGroup_spec (zoneId : String) (r : RecordsMap)
    (olds : List (String × List Endpoint)) (eps : List Endpoint) (n t : String) :
    recordsGet (applyPatch r
        (updateRecords zoneId { ID := zoneId, Records := r } olds eps)) n t =
      updateGroup olds (lastAddressed zoneId n t eps) (recordsGet r n t) := by
  have hpatch := recordsGet_foldl_recordsSet (fun e => getAbionDnsName e.DNSName zoneId)
    (fun e => e.RecordType) (updateData { ID := zoneId, Records := r } zoneId olds) n t [] eps
  have hnd := nodup_keys_foldl_recordsSet (fun e => getAbionDnsName e.DNSName zoneId)
    (fun e => e.RecordType) (updateData { ID := zoneId, Records := r } zoneId olds) eps []
    (by simp)
  cases hl : lastAddressed zoneId n t eps with
  | none =>
    have hl1 : (eps.filter (fun e =>
        decide (getAbionDnsName e.DNSName zoneId = n ∧ e.RecordType = t))).getLast? = none := hl
    rw [hl1] at hpatch
    rw [updateGroup]
    exact recordsGet_applyPatch_of_none r _ n t hnd hpatch
  | some e =>
    have hl1 : (eps.filter (fun e =>
        decide (getAbionDnsName e.DNSName zoneId = n ∧ e.RecordType = t))).getLast? =
        some e := hl
    rw [hl1] at hpatch
    obtain ⟨_, hn, ht⟩ := lastAddressed_eq_some zoneId n t eps e hl
    have hp : recordsGet (updateRecords zoneId { ID := zoneId, Records := r } olds eps) n t =
        some (updateData { ID := zoneId, Records := r } zoneId olds e) := hpatch
    rw [recordsGet_applyPatch r _ n t _ hp]
    cases hg : recordsGet r n t with
    | none =>
      have hg1 : recordsGet ({ ID := zoneId, Records := r } : Zone).Records
          (getAbionDnsName e.DNSName zoneId) e.RecordType = none := by
        rw [hn, ht]
        exact hg
      rw [updateData_of_no_group _ _ _ _ hg1]
      rfl
    | some current =>
      have hg1 : recordsGet ({ ID := zoneId, Records := r } : Zone).Records
          (getAbionDnsName e.DNSName zoneId) e.RecordType = some current := by
        rw [hn, ht]
        exact hg
      rw [updateData_of_group _ _ _ _ _ hg1]
      rfl

theorem deleteGroup_spec (zoneId : String) (r : RecordsMap) (eps : List Endpoint)
    (n t : String)
    (hgroups : (eps.map (fun e => (getAbionDnsName e.DNSName zoneId, e.RecordType))).Nodup) :
    recordsGet (applyPatch r (deleteRecords zoneId { ID := zoneId, Records := r } eps)) n t =
      deleteGroup (lastAddressed zoneId n t eps) (recordsGet r n t) := by
  have hnd : ((deleteRecords zoneId { ID := zoneId, Records := r } eps).map
      (fun entry => entry.1)).Nodup :=
    nodup_keys_foldl_deleteStep zoneId eps ([], r) (by simp)
  cases hl : lastAddressed zoneId n t eps with
  | none =>
    have hno := lastAddressed_eq_none zoneId n t eps hl
    have hp : recordsGet (deleteRecords zoneId { ID := zoneId, Records := r } eps) n t = none :=
      (foldl_deleteStep_other zoneId n t eps ([], r) hno).1
    rw [deleteGroup]
    exact recordsGet_applyPatch_of_none r _ n t hnd hp
  | some e =>
    obtain ⟨he, hn, ht⟩ := lastAddressed_eq_some zoneId n t eps e hl
    obtain ⟨pre, post, heq⟩ := List.append_of_mem he
    have honly : ∀ e1 ∈ pre ++ post,
        ¬ (getAbionDnsName e1.DNSName zoneId = getAbionDnsName e.DNSName zoneId ∧
            e1.RecordType = e.RecordType) := by
      intro e1 he1 hsame
      rw [heq, List.map_append, List.map_cons, List.nodup_middle, List.nodup_cons,
        ← List.map_append] at hgroups
      apply hgroups.1
      refine List.mem_map.mpr ⟨e1, he1, ?_⟩
      rw [hsame.1, hsame.2]
    subst hn
    subst ht
    rw [heq]
    cases hg : recordsGet r (getAbionDnsName e.DNSName zoneId) e.RecordType with
    | none =>
      have hp := deleteRecords_only_of_no_group zoneId { ID := zoneId, Records := r } pre post e
        honly hg
      rw [recordsGet_applyPatch r _ _ _ _ hp]
      rfl
    | some current =>
      have hp := deleteRecords_only zoneId { ID := zoneId, Records := r } pre post e
        honly current hg
      rw [recordsGet_applyPatch r _ _ _ _ hp]
      rfl

theorem endpointsByZone_get (zoneNameIDMapper : ZoneIDName) (endpoints : List Endpoint)
    (zoneID : String) :
    (mapGet (endpointsByZone zoneNameIDMapper endpoints) zoneID).getD [] =
      if zoneID = "" then []
      else endpoints.filter (fun ep =>
        decide ((zoneNameIDMapper.FindZone ep.DNSName).1 = zoneID)) := by
  have := bucket_fold_get (fun ep => (zoneNameIDMapper.FindZone ep.DNSName).1) endpoints []
    zoneID
  simpa [mapGet] using this

theorem endpointsByZone_keys_listed (zoneIds : List String) (endpoints : List Endpoint)
    (entry : String × List Endpoint)
    (h : entry ∈ endpointsByZone (zoneIdMapperOf zoneIds) endpoints) : entry.1 ∈ zoneIds := by
  obtain ⟨z, eps⟩ := entry
  obtain ⟨hne, hnil, hfilter⟩ := endpointsByZone_bucket _ _ _ _ h
  cases heps : eps with
  | nil => exact absurd heps hnil
  | cons e tl =>
    have he : e ∈ eps := by rw [heps]; exact List.mem_cons_self _ _
    rw [hfilter, List.mem_filter] at he
    have hz : ((zoneIdMapperOf zoneIds).FindZone e.DNSName).1 = z := by simpa using he.2
    rcases (FindZone_spec zoneIds e.DNSName).1 with h0 | h1
    · rw [h0] at hz
      exact absurd hz.symm hne
    · simp only
      rw [← hz]
      exact h1.1.2

theorem storeGet_after_stage (records : String → Zone → List Endpoint → RecordsMap)
    (group : Option Endpoint → Option (List Record) → Option (List Record))
    (hnone : ∀ g, group none g = g)
    (st0 st1 : List (String × RecordsMap)) (m zs : List (String × List Endpoint))
    (hperm : zs.Perm m) (hnd : (m.map (fun entry => entry.1)).Nodup)
    (hkeys : ∀ entry ∈ m, mapGet st0 entry.1 ≠ none)
    (hst : ∀ z : String, mapGet st1 z =
      match mapGet st0 z with
      | none => none
      | some r =>
        match mapGet zs z with
        | some eps => some (applyPatch r (records z { ID := z, Records := r } eps))
        | none => some r)
    (hspec : ∀ (z : String) (r : RecordsMap) (eps : List Endpoint) (n t : String),
      mapGet m z = some eps →
      recordsGet (applyPatch r (records z { ID := z, Records := r } eps)) n t =
        group (lastAddressed z n t eps) (recordsGet r n t))
    (z n t : String) :
    storeGet st1 z n t =
      group (lastAddressed z n t ((mapGet m z).getD [])) (storeGet st0 z n t) := by
  have hzs : mapGet zs z = mapGet m z := mapGet_perm zs m z hperm hnd
  unfold storeGet
  rw [hst z, hzs]
  cases h0 : mapGet st0 z with
  | none =>
    cases hm : mapGet m z with
    | none => simp [lastAddressed, hnone]
    | some eps => exact absurd h0 (hkeys (z, eps) (mem_of_mapGet_eq_some _ _ _ hm))
  | some r =>
    cases hm : mapGet m z with
    | none => simp [lastAddressed, hnone]
    | some eps => simpa using hspec z r eps n t hm

theorem populateZoneIdMapper_store (fuel : Nat) (st : List (String × RecordsMap)) :
    populateZoneIdMapper storeProvider (fuel + 1) st =
      some (Except.ok (zoneIdMapperOf (st.map (fun entry => entry.1))), st,
        [Call.getZones 0]) := by
  simp [populateZoneIdMapper, listZoneIds, storeProvider, storeClient, Function.comp_def]

theorem create_stage_groups (zoneNameIDMapper : ZoneIDName)
    (visit : List (String × List Endpoint) → List (String × List Endpoint))
    (hvisit : ∀ m, (visit m).Perm m) (endpoints : List Endpoint)
    (st : List (String × RecordsMap))
    (hkeys : ∀ entry ∈ endpointsByZone zoneNameIDMapper endpoints, mapGet st entry.1 ≠ none) :
    (processCreateActions storeProvider (visit (endpointsByZone zoneNameIDMapper endpoints))
      st).err = none ∧
    (processCreateActions storeProvider (visit (endpointsByZone zoneNameIDMapper endpoints))
      st).st.map (fun entry => entry.1) = st.map (fun entry => entry.1) ∧
    ∀ z n t : String,
      storeGet (processCreateActions storeProvider
        (visit (endpointsByZone zoneNameIDMapper endpoints)) st).st z n t =
      createGroup
        (lastAddressed z n t ((mapGet (endpointsByZone zoneNameIDMapper endpoints) z).getD []))
        (storeGet st z n t) := by
  obtain ⟨h1, h2, h3⟩ := processCreateActions_on_store
    (visit (endpointsByZone zoneNameIDMapper endpoints)) st
    (((hvisit _).map (fun entry => entry.1)).nodup_iff.mpr (endpointsByZone_keys_nodup _ _))
    (fun entry hent => hkeys entry ((hvisit _).mem_iff.mp hent))
  refine ⟨h1, h2, ?_⟩
  intro z n t
  exact storeGet_after_stage (fun z zone eps => createRecords z zone eps) createGroup
    (fun _ => rfl) st _ (endpointsByZone zoneNameIDMapper endpoints)
    (visit (endpointsByZone zoneNameIDMapper endpoints)) (hvisit _)
    (endpointsByZone_keys_nodup _ _) hkeys h3
    (fun z r eps n t _ => createGroup_spec z r eps n t) z n t

theorem update_stage_groups (zoneNameIDMapper : ZoneIDName)
    (visit : List (String × List Endpoint) → List (String × List Endpoint))
    (hvisit : ∀ m, (visit m).Perm m) (olds : List (String × List Endpoint))
    (endpoints : List Endpoint) (st : List (String × RecordsMap))
    (hkeys : ∀ entry ∈ endpointsByZone zoneNameIDMapper endpoints, mapGet st entry.1 ≠ none) :
    (processUpdateActions storeProvider olds
      (visit (endpointsByZone zoneNameIDMapper endpoints)) st).err = none ∧
    (processUpdateActions storeProvider olds
      (visit (endpointsByZone zoneNameIDMapper endpoints)) st).st.map (fun entry => entry.1) =
        st.map (fun entry => entry.1) ∧
    ∀ z n t : String,
      storeGet (processUpdateActions storeProvider olds
        (visit (endpointsByZone zoneNameIDMapper endpoints)) st).st z n t =
      updateGroup olds
        (lastAddressed z n t ((mapGet (endpointsByZone zoneNameIDMapper endpoints) z).getD []))
        (storeGet st z n t) := by
  obtain ⟨h1, h2, h3⟩ := processUpdateActions_on_store olds
    (visit (endpointsByZone zoneNameIDMapper endpoints)) st
    (((hvisit _).map (fun entry => entry.1)).nodup_iff.mpr (endpointsByZone_keys_nodup _ _))
    (fun entry hent => hkeys entry ((hvisit _).mem_iff.mp hent))
  refine ⟨h1, h2, ?_⟩
  intro z n t
  exact storeGet_after_stage (fun z zone eps => updateRecords z zone olds eps)
    (updateGroup olds)
    (fun _ => rfl) st _ (endpointsByZone zoneNameIDMapper endpoints)
    (visit (endpointsByZone zoneNameIDMapper endpoints)) (hvisit _)
    (endpointsByZone_keys_nodup _ _) hkeys h3
    (fun z r eps n t _ => updateGroup_spec z r olds eps n t) z n t

theorem delete_stage_groups (zoneNameIDMapper : ZoneIDName)
    (visit : List (String × List Endpoint) → List (String × List Endpoint))
    (hvisit : ∀ m, (visit m).Perm m) (endpoints : List Endpoint)
    (st : List (String × RecordsMap))
    (hkeys : ∀ entry ∈ endpointsByZone zoneNameIDMapper endpoints, mapGet st entry.1 ≠ none)
    (hgroups : ∀ z : String, z ≠ "" →
      ((endpoints.filter (fun e =>
          decide ((zoneNameIDMapper.FindZone e.DNSName).1 = z))).map
        (fun e => (getAbionDnsName e.DNSName z, e.RecordType))).Nodup) :
    (processDeleteActions storeProvider (visit (endpointsByZone zoneNameIDMapper endpoints))
      st).err = none ∧
    (processDeleteActions storeProvider (visit (endpointsByZone zoneNameIDMapper endpoints))
      st).st.map (fun entry => entry.1) = st.map (fun entry => entry.1) ∧
    ∀ z n t : String,
      storeGet (processDeleteActions storeProvider
        (visit (endpointsByZone zoneNameIDMapper endpoints)) st).st z n t =
      deleteGroup
        (lastAddressed z n t ((mapGet (endpointsByZone zoneNameIDMapper endpoints) z).getD []))
        (storeGet st z n t) := by
  obtain ⟨h1, h2, h3⟩ := processDeleteActions_on_store
    (visit (endpointsByZone zoneNameIDMapper endpoints)) st
    (((hvisit _).map (fun entry => entry.1)).nodup_iff.mpr (endpointsByZone_keys_nodup _ _))
    (fun entry hent => hkeys entry ((hvisit _).mem_iff.mp hent))
  refine ⟨h1, h2, ?_⟩
  intro z n t
  exact storeGet_after_stage (fun z zone eps => deleteRecords z zone eps) deleteGroup
    (fun _ => rfl) st _ (endpointsByZone zoneNameIDMapper endpoints)
    (visit (endpointsByZone zoneNameIDMapper endpoints)) (hvisit _)
    (endpointsByZone_keys_nodup _ _) hkeys h3
    (fun z r eps n t hm => by
      obtain ⟨hne, _, hfilter⟩ := endpointsByZone_bucket _ _ _ _
        (mem_of_mapGet_eq_some _ _ _ hm)
      apply deleteGroup_spec
      rw [hfilter]
      exact hgroups z hne) z n t

theorem ApplyChanges_on_store
    (visit : List (String × List Endpoint) → List (String × List Endpoint))
    (hvisit : ∀ m, (visit m).Perm m) (fuel : Nat) (changes : Changes)
    (st : List (String × RecordsMap))
    (hdelete : ∀ z : String, z ≠ "" →
      ((changes.Delete.filter (fun e =>
          decide (((zoneIdMapperOf (st.map (fun entry => entry.1))).FindZone e.DNSName).1 = z))).map
        (fun e => (getAbionDnsName e.DNSName z, e.RecordType))).Nodup) :
    ∃ o, ApplyChanges storeProvider visit (fuel + 1) changes st = some o ∧ o.err = none ∧
      o.st.map (fun entry => entry.1) = st.map (fun entry => entry.1) ∧
      ∀ z n t : String, storeGet o.st z n t =
        deleteGroup
          (lastAddressed z n t ((mapGet (endpointsByZone
            (zoneIdMapperOf (st.map (fun entry => entry.1))) changes.Delete) z).getD []))
          (updateGroup
            (endpointsByZone (zoneIdMapperOf (st.map (fun entry => entry.1))) changes.UpdateOld)
            (lastAddressed z n t ((mapGet (endpointsByZone
              (zoneIdMapperOf (st.map (fun entry => entry.1))) changes.UpdateNew) z).getD []))
            (createGroup
              (lastAddressed z n t ((mapGet (endpointsByZone
                (zoneIdMapperOf (st.map (fun entry => entry.1))) changes.Create) z).getD []))
              (storeGet st z n t))) := by
  have hpop := populateZoneIdMapper_store fuel st
  have hkeysOf : ∀ (st1 : List (String × RecordsMap)),
      st1.map (fun entry => entry.1) = st.map (fun entry => entry.1) →
      ∀ (endpoints : List Endpoint),
      ∀ entry ∈ endpointsByZone (zoneIdMapperOf (st.map (fun entry => entry.1))) endpoints,
        mapGet st1 entry.1 ≠ none := by
    intro st1 hst1 endpoints entry hent
    rw [Ne, mapGet_eq_none_iff, not_not, hst1]
    exact endpointsByZone_keys_listed _ _ _ hent
  generalize hm : zoneIdMapperOf (st.map (fun entry => entry.1)) = mapper at *
  obtain ⟨hc1, hc2, hc3⟩ := create_stage_groups mapper visit hvisit changes.Create st
    (hkeysOf st rfl changes.Create)
  generalize hcdef : processCreateActions storeProvider
    (visit (endpointsByZone mapper changes.Create)) st = c at *
  obtain ⟨hu1, hu2, hu3⟩ := update_stage_groups mapper visit hvisit
    (endpointsByZone mapper changes.UpdateOld) changes.UpdateNew c.st
    (hkeysOf c.st hc2 changes.UpdateNew)
  generalize hudef : processUpdateActions storeProvider
    (endpointsByZone mapper changes.UpdateOld)
    (visit (endpointsByZone mapper changes.UpdateNew)) c.st = u at *
  obtain ⟨hd1, hd2, hd3⟩ := delete_stage_groups mapper visit hvisit changes.Delete u.st
    (hkeysOf u.st (hu2.trans hc2) changes.Delete) hdelete
  generalize hddef : processDeleteActions storeProvider
    (visit (endpointsByZone mapper changes.Delete)) u.st = d at *
  have happly : ApplyChanges storeProvider visit (fuel + 1) changes st =
      some { err := d.err, st := d.st,
             calls := [Call.getZones 0] ++ (c.calls ++ (u.calls ++ d.calls)) } := by
    simp only [ApplyChanges, hpop, hcdef, hc1, hudef, hu1, hddef]
  refine ⟨_, happly, hd1, hd2.trans (hu2.trans hc2), ?_⟩
  intro z n t
  simp only
  rw [hd3, hu3, hc3]

theorem pass_group_idempotent (olds : List (String × List Endpoint))
    (c u d : Option Endpoint) (g : Option (List Record))
    (h : u ≠ none → g ≠ none ∨ c ≠ none) (r : Record) :
    r ∈ (deleteGroup d (updateGroup olds u (createGroup c
          (deleteGroup d (updateGroup olds u (createGroup c g)))))).getD [] ↔
      r ∈ (deleteGroup d (updateGroup olds u (createGroup c g))).getD [] := by
  cases c <;> cases u <;> cases d <;> cases g <;>
    simp [createGroup, updateGroup, deleteGroup, List.mem_append, List.mem_filter] at h ⊢ <;>
    tauto

/-- C20, amended: a second pass keeps the records of every group, as a set.  For every state of
the store and every changeset in which every update-new endpoint that resolves to a zone
addresses a group that the zone holds or that a create endpoint of the changeset addresses,
and in which no two delete endpoints that resolve to one zone address the same group: the
pass returns without error, a second pass with the same changeset over the store that the
first pass left returns without error, and after it every group
`(zone, local name, record type)` of the store holds exactly the records it held after the
first pass; the lists need not be equal.  Each pass may visit the entries of its maps in any
order. -/
theorem second_pass_keeps_the_records
    (visit1 visit2 : List (String × List Endpoint) → List (String × List Endpoint))
    (hvisit1 : ∀ m, (visit1 m).Perm m) (hvisit2 : ∀ m, (visit2 m).Perm m)
    (fuel1 fuel2 : Nat) (changes : Changes) (st : List (String × RecordsMap))
    (hupdate : ∀ e ∈ changes.UpdateNew,
      ((zoneIdMapperOf (st.map (fun entry => entry.1))).FindZone e.DNSName).1 ≠ "" →
      (storeGet st ((zoneIdMapperOf (st.map (fun entry => entry.1))).FindZone e.DNSName).1
          (getAbionDnsName e.DNSName
            ((zoneIdMapperOf (st.map (fun entry => entry.1))).FindZone e.DNSName).1)
          e.RecordType).isSome = true ∨
      ∃ c ∈ changes.Create,
        ((zoneIdMapperOf (st.map (fun entry => entry.1))).FindZone c.DNSName).1 =
          ((zoneIdMapperOf (st.map (fun entry => entry.1))).FindZone e.DNSName).1 ∧
        getAbionDnsName c.DNSName
            ((zoneIdMapperOf (st.map (fun entry => entry.1))).FindZone e.DNSName).1 =
          getAbionDnsName e.DNSName
            ((zoneIdMapperOf (st.map (fun entry => entry.1))).FindZone e.DNSName).1 ∧
        c.RecordType = e.RecordType)
    (hdelete : ∀ z : String, z ≠ "" →
      ((changes.Delete.filter (fun e =>
          decide (((zoneIdMapperOf (st.map (fun entry => entry.1))).FindZone e.DNSName).1 = z))).map
        (fun e => (getAbionDnsName e.DNSName z, e.RecordType))).Nodup) :
    ∃ o1 o2,
      ApplyChanges storeProvider visit1 (fuel1 + 1) changes st = some o1 ∧ o1.err = none ∧
      ApplyChanges storeProvider visit2 (fuel2 + 1) changes o1.st = some o2 ∧ o2.err = none ∧
      ∀ (z n t : String) (r : Record),
        r ∈ (storeGet o2.st z n t).getD [] ↔ r ∈ (storeGet o1.st z n t).getD [] := by
  obtain ⟨o1, ho1, he1, hk1, hg1⟩ :=
    ApplyChanges_on_store visit1 hvisit1 fuel1 changes st hdelete
  have hdelete2 : ∀ z : String, z ≠ "" →
      ((changes.Delete.filter (fun e =>
          decide (((zoneIdMapperOf (o1.st.map (fun entry => entry.1))).FindZone
            e.DNSName).1 = z))).map
        (fun e => (getAbionDnsName e.DNSName z, e.RecordType))).Nodup := by
    rw [hk1]
    exact hdelete
  obtain ⟨o2, ho2, he2, _, hg2⟩ :=
    ApplyChanges_on_store visit2 hvisit2 fuel2 changes o1.st hdelete2
  rw [hk1] at hg2
  refine ⟨o1, o2, ho1, he1, ho2, he2, ?_⟩
  intro z n t r
  rw [hg2, hg1]
  apply pass_group_idempotent
  intro hu
  cases hl : lastAddressed z n t ((mapGet (endpointsByZone
      (zoneIdMapperOf (st.map (fun entry => entry.1))) changes.UpdateNew) z).getD []) with
  | none => exact absurd hl hu
  | some e =>
    obtain ⟨he, hn, ht⟩ := lastAddressed_eq_some _ _ _ _ _ hl
    rw [endpointsByZone_get] at he
    by_cases hz : z = ""
    · simp [hz] at he
    · simp only [hz, if_false, List.mem_filter, decide_eq_true_eq] at he
      obtain ⟨hmem, hres⟩ := he
      have hup := hupdate e hmem (by rw [hres]; exact hz)
      rw [hres, hn, ht] at hup
      rcases hup with hup | ⟨c, hc, hcz, hcn, hct⟩
      · left
        intro hnone
        rw [hnone] at hup
        simp at hup
      · right
        intro hnone
        have hno := lastAddressed_eq_none _ _ _ _ hnone c (by
          rw [endpointsByZone_get]
          simp only [hz, if_false, List.mem_filter, decide_eq_true_eq]
          exact ⟨hc, hcz⟩)
        exact hno ⟨hcn, hct⟩

theorem second_pass_keeps_the_records_witness :
    ((ApplyChanges storeProvider id 1
        { Create := [endpointOf "abion.test" "A" ["c"]],
          UpdateNew := [endpointOf "abion.test" "A" ["n"]],
          UpdateOld := [endpointOf "abion.test" "A" ["a"]],
          Delete := [endpointOf "abion.test" "A" ["b"]] }
        [("abion.test", [("@", [("A", [⟨"a", 3600⟩, ⟨"b", 3600⟩])])])]).map
          (fun o => (o.err, o.st)) =
      some (none, [("abion.test", [("@", [("A", [⟨"n", 0⟩, ⟨"c", 0⟩])])])]) ∧
     (ApplyChanges storeProvider id 1
        { Create := [endpointOf "abion.test" "A" ["c"]],
          UpdateNew := [endpointOf "abion.test" "A" ["n"]],
          UpdateOld := [endpointOf "abion.test" "A" ["a"]],
          Delete := [endpointOf "abion.test" "A" ["b"]] }
        [("abion.test", [("@", [("A", [⟨"n", 0⟩, ⟨"c", 0⟩])])])]).map
          (fun o => (o.err, o.st)) =
      some (none,
        [("abion.test", [("@", [("A", [⟨"n", 0⟩, ⟨"c", 0⟩, ⟨"n", 0⟩, ⟨"c", 0⟩])])])])) ∧
    ∃ o1 o2,
      ApplyChanges storeProvider id (0 + 1)
        { Create := [endpointOf "abion.test" "A" ["c"]],
          UpdateNew := [endpointOf "abion.test" "A" ["n"]],
          UpdateOld := [endpointOf "abion.test" "A" ["a"]],
          Delete := [endpointOf "abion.test" "A" ["b"]] }
        [("abion.test", [("@", [("A", [⟨"a", 3600⟩, ⟨"b", 3600⟩])])])] = some o1 ∧
      o1.err = none ∧
      ApplyChanges storeProvider id (0 + 1)
        { Create := [endpointOf "abion.test" "A" ["c"]],
          UpdateNew := [endpointOf "abion.test" "A" ["n"]],
          UpdateOld := [endpointOf "abion.test" "A" ["a"]],
          Delete := [endpointOf "abion.test" "A" ["b"]] } o1.st = some o2 ∧
      o2.err = none ∧
      ∀ (z n t : String) (r : Record),
        r ∈ (storeGet o2.st z n t).getD [] ↔ r ∈ (storeGet o1.st z n t).getD [] :=
  ⟨⟨rfl, rfl⟩,
    second_pass_keeps_the_records id id (fun m => List.Perm.refl m) (fun m => List.Perm.refl m)
      0 0
      { Create := [endpointOf "abion.test" "A" ["c"]],
        UpdateNew := [endpointOf "abion.test" "A" ["n"]],
        UpdateOld := [endpointOf "abion.test" "A" ["a"]],
        Delete := [endpointOf "abion.test" "A" ["b"]] }
      [("abion.test", [("@", [("A", [⟨"a", 3600⟩, ⟨"b", 3600⟩])])])]
      (by decide)
      (fun z _ => by
        by_cases hz : ((zoneIdMapperOf ["abion.test"]).FindZone "abion.test").1 = z
          <;> simp [List.filter_cons, endpointOf, hz])⟩

/-- Outside the two conditions the records of a group may change in the second pass.  (1) An
update-new endpoint addresses the group `("www", "A")`, which the zone does not hold: the
first pass leaves the empty group, the second pass `[172.16.0.2]`.  (2) Two delete endpoints
address the group `("@", "A")`, and an update-old endpoint has the empty target: the first
pass leaves the zero record that `slices.DeleteFunc` wrote into the fetched slice, the second
pass leaves the empty group. -/
theorem second_pass_changes_records_outside_the_conditions :
    ((ApplyChanges storeProvider id 1
        { Create := [], UpdateNew := [endpointOf "www.abion.test" "A" ["172.16.0.2"]],
          UpdateOld := [endpointOf "www.abion.test" "A" ["172.16.0.1"]], Delete := [] }
        [("abion.test", [])]).map (fun o => (o.err, o.st)) =
      some (none, [("abion.test", [("www", [("A", [])])])]) ∧
     (ApplyChanges storeProvider id 1
        { Create := [], UpdateNew := [endpointOf "www.abion.test" "A" ["172.16.0.2"]],
          UpdateOld := [endpointOf "www.abion.test" "A" ["172.16.0.1"]], Delete := [] }
        [("abion.test", [("www", [("A", [])])])]).map (fun o => (o.err, o.st)) =
      some (none, [("abion.test", [("www", [("A", [⟨"172.16.0.2", 0⟩])])])])) ∧
    ((ApplyChanges storeProvider id 1
        { Create := [], UpdateNew := [endpointOf "abion.test" "A" ["b"]],
          UpdateOld := [endpointOf "abion.test" "A" [""]],
          Delete := [endpointOf "abion.test" "A" ["a"], endpointOf "abion.test" "A" ["b"]] }
        [("abion.test", [("@", [("A", [⟨"a", 3600⟩])])])]).map (fun o => (o.err, o.st)) =
      some (none, [("abion.test", [("@", [("A", [⟨"", 0⟩])])])]) ∧
     (ApplyChanges storeProvider id 1
        { Create := [], UpdateNew := [endpointOf "abion.test" "A" ["b"]],
          UpdateOld := [endpointOf "abion.test" "A" [""]],
          Delete := [endpointOf "abion.test" "A" ["a"], endpointOf "abion.test" "A" ["b"]] }
        [("abion.test", [("@", [("A", [⟨"", 0⟩])])])]).map (fun o => (o.err, o.st)) =
      some (none, [("abion.test", [("@", [("A", [])])])])) :=
  ⟨⟨rfl, rfl⟩, ⟨rfl, rfl⟩⟩

end Abion
